import Mathlib

/-!
# Deadlock-Avoidance client: a shallow embedding of the React front end

The development follows `frontend/src/App.js`, `frontend/src/components/*.js`
and `frontend/src/services/api.js`.

JavaScript values are embedded as follows.

* A number is a `Num`: an integer `fin n`, or `posInf`/`negInf` for
  `Infinity`/`-Infinity`.  A number cell is an `Option Num`: `none` is a value
  that is not a number (`undefined`, an array hole, or `NaN`), which all behave
  alike under `+`, `-`, `>` and `>=`, the only operations the client applies
  to cells; `num n` is the cell of the integer `n`.  The number `parseInt`
  returns is rounded to the nearest double; sums and differences of finite
  numbers are exact (their rounding above `2^53` is not modelled).
* A vector is a list of cells; a read past the end gives `undefined`.
* An object field that the code may leave `undefined` is an `Option`.
* The effect returns `none` when it throws a `TypeError`; an event handler
  that throws leaves the state as it was at the throw.
* An `async` handler is taken as one step: the state it closes over is the
  state at the call, and no other event is handled before its promise settles.
-/

namespace DeadlockAvoidance

/-! ## JavaScript numbers and arrays -/

/-- A JavaScript number that is an integer or an infinity. -/
inductive Num where
  | fin (n : Int)
  | posInf
  | negInf
deriving DecidableEq, Repr

/-- A number cell: `some x` for a number, `none` for `undefined`/hole/`NaN`. -/
abbrev Cell := Option Num

/-- The cell of the integer `n`. -/
abbrev num (n : Int) : Cell := some (Num.fin n)

/-- A JavaScript array of number cells. -/
abbrev Vec := List Cell

/-- JavaScript `a + b` on cells: not a number as soon as one operand is not,
and `Infinity + -Infinity` is `NaN`. -/
def jsAdd (a b : Cell) : Cell :=
  match a, b with
  | some (.fin x), some (.fin y) => some (.fin (x + y))
  | some (.fin _), some .posInf => some .posInf
  | some (.fin _), some .negInf => some .negInf
  | some .posInf, some (.fin _) => some .posInf
  | some .negInf, some (.fin _) => some .negInf
  | some .posInf, some .posInf => some .posInf
  | some .negInf, some .negInf => some .negInf
  | some .posInf, some .negInf => none
  | some .negInf, some .posInf => none
  | none, _ => none
  | _, none => none

/-- JavaScript `a - b` on cells: not a number as soon as one operand is not,
and `Infinity - Infinity` is `NaN`. -/
def jsSub (a b : Cell) : Cell :=
  match a, b with
  | some (.fin x), some (.fin y) => some (.fin (x - y))
  | some (.fin _), some .posInf => some .negInf
  | some (.fin _), some .negInf => some .posInf
  | some .posInf, some (.fin _) => some .posInf
  | some .negInf, some (.fin _) => some .negInf
  | some .posInf, some .negInf => some .posInf
  | some .negInf, some .posInf => some .negInf
  | some .posInf, some .posInf => none
  | some .negInf, some .negInf => none
  | none, _ => none
  | _, none => none

/-- Array read `xs[idx]`: `undefined` past the end. -/
def jsGet (xs : Vec) (idx : Nat) : Cell :=
  match xs[idx]? with
  | some c => c
  | none => none

/-- Array write `xs[idx] = v`: past the end the array grows, the cells skipped
are holes. -/
def jsSet (xs : Vec) (idx : Nat) (v : Cell) : Vec :=
  if idx < xs.length then xs.set idx v
  else xs ++ List.replicate (idx - xs.length) none ++ [v]

/-- The helper behind `arr.map((val, idx) => f(val, idx))`, with the index of
the head of the list carried along. -/
def jsMapFrom {α β : Type} (f : α → Nat → β) : Nat → List α → List β
  | _, [] => []
  | k, x :: xs => f x k :: jsMapFrom f (k + 1) xs

/-- Array method `arr.map((val, idx) => f(val, idx))`. -/
def jsMap {α β : Type} (f : α → Nat → β) (xs : List α) : List β :=
  jsMapFrom f 0 xs

/-- The helper behind `jsMapM`. -/
def jsMapMFrom {α β : Type} (f : α → Nat → Option β) : Nat → List α → Option (List β)
  | _, [] => some []
  | k, x :: xs =>
    match f x k with
    | none => none
    | some y =>
      match jsMapMFrom f (k + 1) xs with
      | none => none
      | some ys => some (y :: ys)

/-- Array method `arr.map(...)` whose callback may throw: the first throw
aborts the whole map. -/
def jsMapM {α β : Type} (f : α → Nat → Option β) (xs : List α) : Option (List β) :=
  jsMapMFrom f 0 xs

/-! ## Clubs (`App.js`, lines 21-25) -/

/-- A club object `{ id, name, maxNeed, allocation }`.  The last three fields
are `undefined` when the server response they are read from has no such row. -/
structure Club where
  id : Nat
  name : Option String
  maxNeed : Option Vec
  allocation : Option Vec
deriving DecidableEq, Repr

/-- The club list of `useState([...])` in `App` and of `handleReset`. -/
def defaultClubs : List Club :=
  [ { id := 0, name := some "Drama Club",
      maxNeed := some [num 7, num 5, num 3], allocation := some [num 0, num 1, num 0] },
    { id := 1, name := some "Music Club",
      maxNeed := some [num 3, num 2, num 2], allocation := some [num 2, num 0, num 0] },
    { id := 2, name := some "Dance Club",
      maxNeed := some [num 9, num 0, num 2], allocation := some [num 3, num 0, num 2] } ]

/-! ## The effect that recomputes `available` (`App.js`, lines 42-50) -/

/-- The reducer `(acc, club) => acc.map((val, idx) => val + club.allocation[idx])`.
The callback reads `club.allocation[idx]`, which throws when `club.allocation`
is `undefined`. -/
def allocatedStep (acc : Vec) (club : Club) : Option Vec :=
  jsMapM (fun val idx =>
    match club.allocation with
    | none => none
    | some a => some (jsAdd val (jsGet a idx))) acc

/-- The total `clubs.reduce(..., [0, 0, 0])`. -/
def allocated (clubs : List Club) : Option Vec :=
  clubs.foldlM allocatedStep [num 0, num 0, num 0]

/-- The value the effect passes to `setAvailable`:
`totalResources.map((total, idx) => total - allocated[idx])`. -/
def calcAvailable (clubs : List Club) (totalResources : Vec) : Option Vec :=
  match allocated clubs with
  | none => none
  | some al => some (jsMap (fun total idx => jsSub total (jsGet al idx)) totalResources)

/-! ## Specification-side quantities -/

/-- Entry `j` of a club's allocation as an integer (0 when it is not a finite
number). -/
def allocEntry (c : Club) (j : Nat) : Int :=
  match c.allocation with
  | none => 0
  | some a =>
    match jsGet a j with
    | some (.fin n) => n
    | _ => 0

/-- The column sum `Σ over clubs of allocation[club][j]`. -/
def allocSum (clubs : List Club) (j : Nat) : Int :=
  (clubs.map (fun c => allocEntry c j)).sum

/-- A club whose allocation vector is three integers. -/
def Alloc3 (c : Club) : Prop :=
  ∃ a0 a1 a2 : Int, c.allocation = some [num a0, num a1, num a2]

/-! ## Number inputs: `Math.max(0, parseInt(value) || 0)` -/

/-- The white space and line terminators that `parseInt` skips at the start
of its argument. -/
def isStrWhiteSpace (c : Char) : Bool :=
  c.toNat = 0x09 || c.toNat = 0x0A || c.toNat = 0x0B || c.toNat = 0x0C || c.toNat = 0x0D ||
  c.toNat = 0x20 || c.toNat = 0xA0 || c.toNat = 0x1680 ||
  (0x2000 ≤ c.toNat && c.toNat ≤ 0x200A) ||
  c.toNat = 0x2028 || c.toNat = 0x2029 || c.toNat = 0x202F || c.toNat = 0x205F ||
  c.toNat = 0x3000 || c.toNat = 0xFEFF

/-- The value of a character as a digit: `0`-`9`, then letters of either case
from 10 on. -/
def digitValue (c : Char) : Option Nat :=
  if 48 ≤ c.toNat ∧ c.toNat ≤ 57 then some (c.toNat - 48)
  else if 97 ≤ c.toNat ∧ c.toNat ≤ 122 then some (c.toNat - 87)
  else if 65 ≤ c.toNat ∧ c.toNat ≤ 90 then some (c.toNat - 55)
  else none

/-- The digits of the longest leading run of characters that are digits in
the given radix. -/
def leadingDigits (radix : Nat) : List Char → List Nat
  | [] => []
  | c :: cs =>
    match digitValue c with
    | some d => if d < radix then d :: leadingDigits radix cs else []
    | none => []

/-- The number written by a list of digits, most significant first. -/
def digitsValue (radix : Nat) (ds : List Nat) : Nat :=
  ds.foldl (fun acc d => acc * radix + d) 0

/-- The bound `2 ^ 1024`: the doubles are below it. -/
def doubleLimit : Nat := (2 ^ 128) ^ 8

/-- The least power of two `p'`, searched upwards from `p` by doubling, with
`n < 2 ^ 53 * p'`; the search gives up after `fuel` doublings.  From `p = 1`
and for `2 ^ 53 ≤ n < 2 ^ 1024` it ends within 971 doublings, at the distance
between the doubles around `n`. -/
def spacing : Nat → Nat → Nat → Nat
  | 0, _, p => p
  | fuel + 1, n, p => if n < 2 ^ 53 * p then p else spacing fuel n (2 * p)

/-- The double nearest to the natural number `n`: `n` itself below `2 ^ 53`,
and from there on the nearest multiple `m * p` of the spacing `p`, a tie
going to the even `m`; `none` when that is `Infinity` (from
`2 ^ 1024 - 2 ^ 970` on). -/
def toDouble (n : Nat) : Option Nat :=
  if n < 2 ^ 53 then some n
  else if doubleLimit ≤ n then none
  else
    let p := spacing 1024 n 1
    let q := n / p
    let r := n % p
    let m := if p < 2 * r ∨ (2 * r = p ∧ q % 2 = 1) then q + 1 else q
    if doubleLimit ≤ m * p then none else some (m * p)

/-- The built-in `parseInt(value)` with no radix argument: leading white space
is skipped, then an optional sign, then an optional `0x`/`0X` (which selects
radix 16, otherwise radix 10), then the longest run of digits.  The result is
`NaN` (`none`) when that run is empty, and otherwise the Number value of the
signed integer the run denotes: the nearest double, or an infinity. -/
def parseInt (value : String) : Cell :=
  let s := value.toList.dropWhile isStrWhiteSpace
  let signed : Int × List Char :=
    match s with
    | '-' :: r => (-1, r)
    | '+' :: r => (1, r)
    | _ => (1, s)
  let based : Nat × List Char :=
    match signed.2 with
    | '0' :: 'x' :: r => (16, r)
    | '0' :: 'X' :: r => (16, r)
    | _ => (10, signed.2)
  let ds := leadingDigits based.1 based.2
  if ds = [] then none
  else
    match toDouble (digitsValue based.1 ds) with
    | some m => some (.fin (signed.1 * (m : Int)))
    | none => if signed.1 = 1 then some .posInf else some .negInf

/-- The test `Number.isFinite(x)` on a number. -/
def Num.isFinite (x : Num) : Bool :=
  match x with
  | .fin _ => true
  | .posInf => false
  | .negInf => false

/-- JavaScript `n || 0` on a number: `NaN` and `0` are falsy. -/
def orZero (n : Cell) : Num :=
  match n with
  | none => .fin 0
  | some (.fin k) => if k = 0 then .fin 0 else .fin k
  | some .posInf => .posInf
  | some .negInf => .negInf

/-- JavaScript `Math.max(0, x)` on a number. -/
def maxZero (x : Num) : Num :=
  match x with
  | .fin k => .fin (max 0 k)
  | .posInf => .posInf
  | .negInf => .fin 0

/-- The expression `Math.max(0, parseInt(value) || 0)` used by every number
input of the client. -/
def clampInput (value : String) : Num :=
  maxZero (orZero (parseInt value))

/-! ## Server responses (`services/api.js`) -/

/-- The body of a `run-bankers` or `check-safety` response:
`{safe, message, safe_sequence?, new_allocation?, need_matrix?, new_available?}`.
An absent field is `none`; `safe` is read for its truthiness only. -/
structure Response where
  safe : Bool
  message : Option String
  safe_sequence : Option (List String)
  new_allocation : Option (List Vec)
  need_matrix : Option (List Vec)
  new_available : Option Vec
deriving DecidableEq, Repr

/-- The value a failed API call throws: `error.response?.data`, or the
default object `{ error: ... }` of `api.js`.  Its `error` field may be absent. -/
structure ApiError where
  error : Option String
deriving DecidableEq, Repr

/-- How an API call settles: it resolves with `response.data` (`none` when
the body is `null`), or it throws. -/
inductive ApiOutcome where
  | resolved (response : Option Response)
  | rejected (err : ApiError)
deriving DecidableEq, Repr

/-- One entry of the audit log as `getLogs` returns it. -/
structure LogEntry where
  club_name : String
  decision : String
  requested_resources : Vec
  safe_sequence : Option (List String)
  timestamp : String
deriving DecidableEq, Repr

/-- How `getLogs` settles: with a body whose `logs` field may be absent, or
with a failure (a rejection, or a body that is `null`). -/
inductive LogsOutcome where
  | resolved (logs : Option (List LogEntry))
  | rejected
deriving DecidableEq, Repr

/-- The body of a `simulate` response:
`{available[], allocation[][], max_need[][], club_names[]}`. -/
structure ScenarioData where
  available : Vec
  allocation : List Vec
  max_need : List Vec
  club_names : List String
deriving DecidableEq, Repr

/-- The expression `err.error || fallback`: an absent or empty `error` is
falsy. -/
def errorText (err : ApiError) (fallback : String) : String :=
  match err.error with
  | none => fallback
  | some msg => if msg = "" then fallback else msg

/-! ## The state of `App` (`App.js`, lines 15-37) -/

/-- The `useState` variables of `App`.  `numResources` and `resourceNames`
are constants and are not part of the state. -/
structure AppState where
  numClubs : Nat
  totalResources : Vec
  available : Vec
  clubs : List Club
  selectedClub : Nat
  requestResources : Vec
  result : Option Response
  loading : Bool
  error : Option String
  logs : List LogEntry
deriving DecidableEq, Repr

/-- The constant `numResources` (`useState(3)` without a setter). -/
def numResources : Nat := 3

/-- The initial values of the `useState` calls. -/
def initialState : AppState :=
  { numClubs := 3
    totalResources := [num 10, num 5, num 7]
    available := [num 10, num 5, num 7]
    clubs := defaultClubs
    selectedClub := 0
    requestResources := [num 0, num 0, num 0]
    result := none
    loading := false
    error := none
    logs := [] }

/-- One run of the effect of lines 43-50: `setAvailable(newAvailable)`.
`none` when the effect throws. -/
def recompute (s : AppState) : Option AppState :=
  match calcAvailable s.clubs s.totalResources with
  | none => none
  | some newAvailable => some { s with available := newAvailable }

/-- The function `fetchLogs`: `setLogs(data.logs || [])`, a failure is only
written to the console. -/
def fetchLogs (outcome : LogsOutcome) (s : AppState) : AppState :=
  match outcome with
  | .resolved (some logs) => { s with logs := logs }
  | .resolved none => { s with logs := [] }
  | .rejected => s

/-! ## Request payloads (`App.js`, lines 74-88 and 120-129) -/

/-- The field `request` of the `run-bankers` payload. -/
structure RequestPart where
  club_id : Nat
  resources : Vec
deriving DecidableEq, Repr

/-- The payload `requestData` of `handleRunBankers`. -/
structure RequestData where
  allocation : List (Option Vec)
  max_need : List (Option Vec)
  available : Vec
  request : RequestPart
  club_names : List (Option String)
deriving DecidableEq, Repr

/-- The payload of `handleCheckSafety`. -/
structure SafetyData where
  allocation : List (Option Vec)
  max_need : List (Option Vec)
  available : Vec
  club_names : List (Option String)
deriving DecidableEq, Repr

/-- The object `requestData` built in `handleRunBankers`. -/
def requestData (s : AppState) : RequestData :=
  { allocation := s.clubs.map (fun club => club.allocation)
    max_need := s.clubs.map (fun club => club.maxNeed)
    available := s.available
    request := { club_id := s.selectedClub, resources := s.requestResources }
    club_names := s.clubs.map (fun club => club.name) }

/-- The object passed to `checkSafety` in `handleCheckSafety`. -/
def safetyData (s : AppState) : SafetyData :=
  { allocation := s.clubs.map (fun club => club.allocation)
    max_need := s.clubs.map (fun club => club.maxNeed)
    available := s.available
    club_names := s.clubs.map (fun club => club.name) }

/-! ## The handlers of `App` -/

/-- The update of lines 96-99:
`clubs.map((club, idx) => ({ ...club, allocation: response.new_allocation[idx] }))`. -/
def updatedClubs (clubs : List Club) (new_allocation : List Vec) : List Club :=
  jsMap (fun club idx => { club with allocation := new_allocation[idx]? }) clubs

/-- The body of the `try` block of `handleRunBankers` once the call has
resolved with a response object: `setResult(response)`, the update of the
clubs when `response.safe && response.new_allocation`, then `fetchLogs()`. -/
def applyRunResponse (response : Response) (logs : LogsOutcome) (s : AppState) : AppState :=
  let s1 := { s with result := some response }
  let s2 :=
    match response.safe, response.new_allocation with
    | true, some new_allocation =>
      { s1 with clubs := updatedClubs s.clubs new_allocation
                requestResources := [num 0, num 0, num 0] }
    | _, _ => s1
  fetchLogs logs s2

/-- The handler `handleRunBankers` (lines 68-113).  `runBankersAlgorithm` is
the API call, applied to the payload; `logs` is how the `getLogs` call of
`fetchLogs()` settles.  A `null` body makes `response.safe` throw after
`setResult(response)`; the thrown `TypeError` has no `error` field. -/
def handleRunBankers (runBankersAlgorithm : RequestData → ApiOutcome) (logs : LogsOutcome)
    (s : AppState) : AppState :=
  let s0 := { s with loading := true, error := none, result := none }
  let s1 :=
    match runBankersAlgorithm (requestData s) with
    | .resolved (some response) => applyRunResponse response logs s0
    | .resolved none =>
      { s0 with result := none
                error := some "An error occurred while processing the request" }
    | .rejected err =>
      { s0 with error := some (errorText err "An error occurred while processing the request") }
  { s1 with loading := false }

/-- Whether `handleRunBankers` calls `setClubs` for this outcome, which is
what makes the effect run afterwards. -/
def commits (outcome : ApiOutcome) : Bool :=
  match outcome with
  | .resolved (some response) => response.safe && response.new_allocation.isSome
  | _ => false

/-- The state after `handleRunBankers` and the render that follows it: the
effect runs when `setClubs` was called. -/
def runBankers (runBankersAlgorithm : RequestData → ApiOutcome) (logs : LogsOutcome)
    (s : AppState) : Option AppState :=
  if commits (runBankersAlgorithm (requestData s)) then
    recompute (handleRunBankers runBankersAlgorithm logs s)
  else some (handleRunBankers runBankersAlgorithm logs s)

/-- The handler `handleCheckSafety` (lines 115-137).  `checkSafety` is the API
call, applied to the payload. -/
def handleCheckSafety (checkSafety : SafetyData → ApiOutcome) (s : AppState) : AppState :=
  let s0 := { s with loading := true, error := none }
  let s1 :=
    match checkSafety (safetyData s) with
    | .resolved response => { s0 with result := response }
    | .rejected err => { s0 with error := some (errorText err "Failed to check safety") }
  { s1 with loading := false }

/-- The list `loadedClubs` of `handleLoadScenario`. -/
def loadedClubs (scenarioData : ScenarioData) : List Club :=
  jsMap (fun alloc idx =>
    { id := idx
      name := scenarioData.club_names[idx]?
      maxNeed := scenarioData.max_need[idx]?
      allocation := some alloc }) scenarioData.allocation

/-- The handler `handleLoadScenario` (lines 139-154). -/
def handleLoadScenario (scenarioData : ScenarioData) (s : AppState) : AppState :=
  { s with totalResources := scenarioData.available
           available := scenarioData.available
           clubs := loadedClubs scenarioData
           numClubs := (loadedClubs scenarioData).length
           result := none
           error := none }

/-- The handler `handleReset` (lines 156-169). -/
def handleReset (s : AppState) : AppState :=
  { s with clubs := defaultClubs
           numClubs := 3
           totalResources := [num 10, num 5, num 7]
           available := [num 10, num 5, num 7]
           requestResources := [num 0, num 0, num 0]
           selectedClub := 0
           result := none
           error := none }

/-! ## `ResourceSetup` and `ResourceRequest` -/

/-- The array `newTotal` that `handleResourceChange(index, value)` of
`ResourceSetup` passes to `onUpdateTotal`. -/
def newTotal (totalResources : Vec) (index : Nat) (value : String) : Vec :=
  jsSet totalResources index (some (clampInput value))

/-- The handler `handleResourceChange` with `onUpdateTotal = setTotalResources`. -/
def handleResourceChange (index : Nat) (value : String) (s : AppState) : AppState :=
  { s with totalResources := newTotal s.totalResources index value }

/-- The handler `handleRequestChange` of `ResourceRequest` with
`onUpdateRequest = setRequestResources`. -/
def handleRequestChange (index : Nat) (value : String) (s : AppState) : AppState :=
  { s with requestResources := jsSet s.requestResources index (some (clampInput value)) }

/-- The test `r > 0` on a cell: false on a value that is not a number. -/
def isPositive (r : Cell) : Bool :=
  match r with
  | some (.fin n) => decide (0 < n)
  | some .posInf => true
  | some .negInf => false
  | none => false

/-- The function `isRequestValid` of `ResourceRequest`:
`requestResources.some(r => r > 0)`. -/
def isRequestValid (requestResources : Vec) : Bool :=
  requestResources.any isPositive

/-! ## `MatrixDisplay` and the Need cell of `ClubManager` -/

/-- One row of `needMatrix`: `club.maxNeed.map((max, idx) => max - club.allocation[idx])`.
It throws when `club.maxNeed` is `undefined`.  A `none` cell of `maxNeed` is a
hole (the cells of `maxNeed` come from literals, JSON rows and `jsSet`), which
`map` copies without calling the callback; on any other cell the callback
throws when `club.allocation` is `undefined`. -/
def needRow (club : Club) : Option Vec :=
  match club.maxNeed with
  | none => none
  | some maxNeed =>
    jsMapM (fun max idx =>
      match max with
      | none => some none
      | some m =>
        match club.allocation with
        | none => none
        | some a => some (jsSub (some m) (jsGet a idx))) maxNeed

/-- The matrix `needMatrix` of `MatrixDisplay`: `clubs.map(club => ...)`. -/
def needMatrix (clubs : List Club) : Option (List Vec) :=
  jsMapM (fun club _ => needRow club) clubs

/-- The Need cell of `ClubManager` (line 143):
`club.maxNeed[idx] - club.allocation[idx]`. -/
def needCell (club : Club) (idx : Nat) : Option Cell :=
  match club.maxNeed, club.allocation with
  | some maxNeed, some a => some (jsSub (jsGet maxNeed idx) (jsGet a idx))
  | _, _ => none

/-! ## `ClubManager` (`components/ClubManager.js`, lines 5-36)

`startEdit` stores the shallow copy `{ ...club }`: the copy has the very
arrays `maxNeed` and `allocation` of the club it was taken from, and
`updateEditField` writes into them in place.  The model records, next to
`editData`, at which position of the club list each of the two arrays is
still held (`sharedMaxNeed`, `sharedAllocation`), and repeats every indexed
write there.  Distinct positions of the club list are taken to hold distinct
objects. -/

/-- The two state variables `editingClub` and `editData` while a club is
being edited (they are set together and cleared together), with the
positions at which the arrays of `editData` are shared with the club list. -/
structure EditState where
  editingClub : Nat
  editData : Club
  sharedMaxNeed : Option Nat
  sharedAllocation : Option Nat
deriving DecidableEq, Repr

/-- The component `ClubManager`: its prop `clubs` and its edit state (`none`
when `editingClub` and `editData` are `null`). -/
structure ClubManager where
  clubs : List Club
  editing : Option EditState
deriving DecidableEq, Repr

/-- The three ways the component calls `updateEditField(field, index, value)`:
`('name', undefined, value)` at line 67, `('maxNeed', idx, value)` at line 83
and `('allocation', idx, value)` at line 99. -/
inductive EditInput where
  | name (value : String)
  | maxNeed (idx : Nat) (value : String)
  | allocation (idx : Nat) (value : String)
deriving DecidableEq, Repr

/-- The handler `startEdit(club)` for the club shown at position `pos` of the
list (the Edit button of that row). -/
def startEdit (pos : Nat) (m : ClubManager) : ClubManager :=
  match m.clubs[pos]? with
  | none => m
  | some club =>
    { m with editing := some { editingClub := club.id
                               editData := club
                               sharedMaxNeed := some pos
                               sharedAllocation := some pos } }

/-- The handler `cancelEdit`. -/
def cancelEdit (m : ClubManager) : ClubManager :=
  { m with editing := none }

/-- The list `updatedClubs` that `saveEdit` passes to `onUpdateClubs`:
`clubs.map(club => club.id === editingClub ? editData : club)`.  With
`editingClub` equal to `null` no club matches. -/
def saveEditClubs (m : ClubManager) : List Club :=
  match m.editing with
  | none => m.clubs
  | some e => m.clubs.map (fun club => if club.id = e.editingClub then e.editData else club)

/-- The handler `saveEdit`, with `onUpdateClubs = setClubs` as `App` wires it. -/
def saveEdit (m : ClubManager) : ClubManager :=
  { clubs := saveEditClubs m, editing := none }

/-- The club list after an in-place write into the `maxNeed` array held at
position `pos`. -/
def writeMaxNeed (clubs : List Club) (pos : Option Nat) (arr : Vec) : List Club :=
  match pos with
  | none => clubs
  | some p =>
    match clubs[p]? with
    | none => clubs
    | some club => clubs.set p { club with maxNeed := some arr }

/-- The club list after an in-place write into the `allocation` array held at
position `pos`. -/
def writeAllocation (clubs : List Club) (pos : Option Nat) (arr : Vec) : List Club :=
  match pos with
  | none => clubs
  | some p =>
    match clubs[p]? with
    | none => clubs
    | some club => clubs.set p { club with allocation := some arr }

/-- The handler `updateEditField(field, index, value)` (lines 28-36).  With an
index it performs `newData[field][index] = Math.max(0, parseInt(value) || 0)`
on the array shared with the club list (a `TypeError`, hence no state change,
when that array is `undefined`); without one it sets `newData.name`.  The
inputs that call it exist only while a club is edited. -/
def updateEditField (input : EditInput) (m : ClubManager) : ClubManager :=
  match m.editing with
  | none => m
  | some e =>
    match input with
    | .name value =>
      { m with editing := some { e with editData := { e.editData with name := some value } } }
    | .maxNeed idx value =>
      match e.editData.maxNeed with
      | none => m
      | some arr =>
        { clubs :=
            writeMaxNeed m.clubs e.sharedMaxNeed (jsSet arr idx (some (clampInput value)))
          editing := some { e with editData :=
            { e.editData with maxNeed := some (jsSet arr idx (some (clampInput value))) } } }
    | .allocation idx value =>
      match e.editData.allocation with
      | none => m
      | some arr =>
        { clubs :=
            writeAllocation m.clubs e.sharedAllocation (jsSet arr idx (some (clampInput value)))
          editing := some { e with editData :=
            { e.editData with allocation := some (jsSet arr idx (some (clampInput value))) } } }

/-- An edit session: `startEdit` on the club at position `pos`, the given
calls of `updateEditField` in order, then `saveEdit`; the result is the list
passed to `onUpdateClubs`. -/
def editSession (clubs : List Club) (pos : Nat) (inputs : List EditInput) : List Club :=
  saveEditClubs
    (inputs.foldl (fun m input => updateEditField input m)
      (startEdit pos { clubs := clubs, editing := none }))

/-! ## The invariants of the data model -/

/-- A cell that is a non-negative integer. -/
def isNonneg (c : Cell) : Bool :=
  match c with
  | some (.fin n) => decide (0 ≤ n)
  | _ => false

/-- The test `0 ≤ a ≤ m` on two cells. -/
def isBounded (a m : Cell) : Bool :=
  match a, m with
  | some (.fin x), some (.fin y) => decide (0 ≤ x) && decide (x ≤ y)
  | _, _ => false

/-- Invariant 1 on one club with `m` resources: both vectors have `m` cells
and `0 ≤ allocation[j] ≤ maxNeed[j]` for every `j < m`. -/
def clubBounded (m : Nat) (c : Club) : Bool :=
  match c.maxNeed, c.allocation with
  | some mx, some al =>
    decide (mx.length = m) && decide (al.length = m) &&
      (List.range m).all (fun j => isBounded (jsGet al j) (jsGet mx j))
  | _, _ => false

/-- Invariant 1: `0 ≤ allocation[c][j] ≤ maxNeed[c][j]` for every club `c` and
resource `j`. -/
def Invariant1 (m : Nat) (clubs : List Club) : Prop :=
  ∀ c ∈ clubs, clubBounded m c = true

/-- The non-negative half of invariant 1 on one club: both vectors have `m`
cells, all of them non-negative integers. -/
def clubNonneg (m : Nat) (c : Club) : Bool :=
  match c.maxNeed, c.allocation with
  | some mx, some al =>
    decide (mx.length = m) && decide (al.length = m) &&
      (List.range m).all (fun j => isNonneg (jsGet al j) && isNonneg (jsGet mx j))
  | _, _ => false

/-- Invariant 2: `Σ_club allocation[club][j] ≤ total[j]` for every resource
`j < m`, for a total vector of `m` integers. -/
def Invariant2 (m : Nat) (clubs : List Club) (total : Vec) : Prop :=
  total.length = m ∧ ∀ j, j < m → ∃ t : Int, jsGet total j = num t ∧ allocSum clubs j ≤ t

/-- Whether the number a call of `updateEditField` writes is finite; the call
for the name writes no number. -/
def EditInput.writesFinite (input : EditInput) : Bool :=
  match input with
  | .name _ => true
  | .maxNeed _ value => (clampInput value).isFinite
  | .allocation _ value => (clampInput value).isFinite

/-- The index of an `EditInput`, when it has one. -/
def EditInput.index (input : EditInput) : Option Nat :=
  match input with
  | .name _ => none
  | .maxNeed idx _ => some idx
  | .allocation idx _ => some idx

/-! ## The client as a transition system

`App` together with its `ClubManager` child.  The prop `clubs` of the child
is the state variable `clubs` of `App`; `onUpdateClubs` is `setClubs`.  After
a handler that calls `setClubs` or `setTotalResources` the effect recomputes
`available`; a step is `none` when that effect throws.

After a grant the rows of `result.new_allocation` are the `allocation` arrays
of the clubs.  No component reads them back from `result`, and the model does
not repeat in `result` a later write into such an array. -/

/-- The state of `App` and the edit state of `ClubManager`. -/
structure Client where
  app : AppState
  editing : Option EditState
deriving DecidableEq, Repr

/-- The client in which `App` has just been created. -/
def initialClient : Client :=
  { app := initialState, editing := none }

/-- The `ClubManager` of a client. -/
def Client.manager (c : Client) : ClubManager :=
  { clubs := c.app.clubs, editing := c.editing }

/-- The client after `ClubManager` went from `c.manager` to `m`: an in-place
write changes the arrays of `clubs` without a call of `setClubs`. -/
def Client.withManager (c : Client) (m : ClubManager) : Client :=
  { app := { c.app with clubs := m.clubs }, editing := m.editing }

/-- The edit state once `App` has replaced the `allocation` arrays of all
clubs (a granted request): `editData.allocation` is shared with no club. -/
def afterGrant (editing : Option EditState) : Option EditState :=
  editing.map (fun e => { e with sharedAllocation := none })

/-- The edit state once `App` has replaced the whole club list (scenario
load, reset): the arrays of `editData` are shared with no club. -/
def afterReplace (editing : Option EditState) : Option EditState :=
  editing.map (fun e => { e with sharedMaxNeed := none, sharedAllocation := none })

/-- The events of the client: one per handler. -/
inductive Event where
  | runBankers (runBankersAlgorithm : RequestData → ApiOutcome) (logs : LogsOutcome)
  | checkSafety (checkSafety : SafetyData → ApiOutcome)
  | loadScenario (scenarioData : ScenarioData)
  | reset
  | resourceChange (index : Nat) (value : String)
  | requestChange (index : Nat) (value : String)
  | selectClub (id : Nat)
  | fetchLogs (logs : LogsOutcome)
  | dismissError
  | startEdit (pos : Nat)
  | updateEditField (input : EditInput)
  | cancelEdit
  | saveEdit

/-- The client after one event, the effect included; `none` when the effect
throws. -/
def step (c : Client) (ev : Event) : Option Client :=
  match ev with
  | .runBankers api logs =>
    (runBankers api logs c.app).map (fun a =>
      { app := a
        editing := if commits (api (requestData c.app)) then afterGrant c.editing else c.editing })
  | .checkSafety api =>
    some { c with app := handleCheckSafety api c.app }
  | .loadScenario scenarioData =>
    (recompute (handleLoadScenario scenarioData c.app)).map (fun a =>
      { app := a, editing := afterReplace c.editing })
  | .reset =>
    (recompute (handleReset c.app)).map (fun a =>
      { app := a, editing := afterReplace c.editing })
  | .resourceChange index value =>
    (recompute (handleResourceChange index value c.app)).map (fun a => { c with app := a })
  | .requestChange index value =>
    some { c with app := handleRequestChange index value c.app }
  | .selectClub id =>
    some { c with app := { c.app with selectedClub := id } }
  | .fetchLogs logs =>
    some { c with app := fetchLogs logs c.app }
  | .dismissError =>
    some { c with app := { c.app with error := none } }
  | .startEdit pos =>
    some (c.withManager (startEdit pos c.manager))
  | .updateEditField input =>
    some (c.withManager (updateEditField input c.manager))
  | .cancelEdit =>
    some (c.withManager (cancelEdit c.manager))
  | .saveEdit =>
    (recompute (c.withManager (saveEdit c.manager)).app).map (fun a =>
      { app := a, editing := none })

/-- The states the client can reach from its initial state: the state of the
first render, the state after the first run of the effect, and every state
an event leads to. -/
inductive Reachable : Client → Prop where
  | init : Reachable initialClient
  | mount {a : AppState} : recompute initialState = some a →
      Reachable { app := a, editing := none }
  | step {c c' : Client} (ev : Event) : Reachable c → step c ev = some c' → Reachable c'

/-! ## Predicates used in the statements -/

/-- A club whose `maxNeed` and `allocation` are arrays of the same length. -/
def SameLength (c : Club) : Prop :=
  ∃ (mx al : Vec), c.maxNeed = some mx ∧ c.allocation = some al ∧ mx.length = al.length

/-- The ids of a club list, in list order. -/
def idsOf (clubs : List Club) : List Nat :=
  clubs.map (fun club => club.id)

/-- The club at position `i` has id `i`. -/
def IdsAreIndices (clubs : List Club) : Prop :=
  idsOf clubs = List.range clubs.length

/-- What holds in every reachable state: ids are positions, and the club
being edited carries the id it is edited under. -/
structure IdInvariant (c : Client) : Prop where
  ids : IdsAreIndices c.app.clubs
  editData : ∀ e : EditState, c.editing = some e → e.editData.id = e.editingClub

/-- What holds of `ClubManager` during an edit session started on position
`pos` of the list `clubs`, whose club there has id `k`: the edit state is for
`k`, `editData` has id `k` and non-negative vectors, both arrays are shared
with position `pos`, and the other positions of the list are untouched. -/
structure InSession (m : Nat) (clubs : List Club) (pos k : Nat) (mgr : ClubManager) : Prop where
  editing : ∃ e : EditState, mgr.editing = some e ∧ e.editingClub = k ∧ e.editData.id = k
    ∧ clubNonneg m e.editData = true
    ∧ e.sharedMaxNeed = some pos ∧ e.sharedAllocation = some pos
  length : mgr.clubs.length = clubs.length
  others : ∀ i : Nat, i ≠ pos → mgr.clubs[i]? = clubs[i]?
  edited : ∃ c : Club, mgr.clubs[pos]? = some c ∧ c.id = k

/-! ## Concrete servers used in the examples -/

/-- A server that denies every request. -/
def denyAll : RequestData → ApiOutcome := fun _ =>
  .resolved (some { safe := false, message := some "Request denied", safe_sequence := none,
                    new_allocation := none, need_matrix := none, new_available := none })

/-- A server that grants the request `[0, 2, 0]` of club 0 in the default
state: the new allocation matrix has the request added to row 0. -/
def grantDrama : RequestData → ApiOutcome := fun _ =>
  .resolved (some { safe := true, message := some "Request granted",
                    safe_sequence := some ["Music Club", "Drama Club", "Dance Club"],
                    new_allocation := some [[num 0, num 3, num 0], [num 2, num 0, num 0],
                                            [num 3, num 0, num 2]],
                    need_matrix := none, new_available := some [num 5, num 2, num 5] })

/-! ## A concrete run used in the examples -/

/-- The client after the Edit button of the first club was pressed in the
initial state. -/
def editingClient : Client :=
  { app := initialState
    editing := some { editingClub := 0
                      editData := { id := 0, name := some "Drama Club",
                                    maxNeed := some [num 7, num 5, num 3],
                                    allocation := some [num 0, num 1, num 0] }
                      sharedMaxNeed := some 0, sharedAllocation := some 0 } }

/-- The default clubs with `8` written into the first allocation cell of the
first club. -/
def editedClubs : List Club :=
  [ { id := 0, name := some "Drama Club", maxNeed := some [num 7, num 5, num 3],
      allocation := some [num 8, num 1, num 0] },
    { id := 1, name := some "Music Club", maxNeed := some [num 3, num 2, num 2],
      allocation := some [num 2, num 0, num 0] },
    { id := 2, name := some "Dance Club", maxNeed := some [num 9, num 0, num 2],
      allocation := some [num 3, num 0, num 2] } ]

/-- The client after `8` was then typed into the first allocation input: the
write is already in the club list, `available` is not recomputed yet. -/
def typedClient : Client :=
  { app := { initialState with clubs := editedClubs }
    editing := some { editingClub := 0
                      editData := { id := 0, name := some "Drama Club",
                                    maxNeed := some [num 7, num 5, num 3],
                                    allocation := some [num 8, num 1, num 0] }
                      sharedMaxNeed := some 0, sharedAllocation := some 0 } }

/-- The client after Save was then pressed: the effect has run. -/
def savedClient : Client :=
  { app := { initialState with clubs := editedClubs
                               available := [num (-3), num 4, num 5] }
    editing := none }

/-! ## `runBankersAlgorithm` of `services/api.js` (lines 36-46) -/

/-- How the request `api.post(...)` settles: with a response whose body is
`data` (`none` for a `null` body), or with an error whose `response?.data` is
`data` (`none` when there is no response or no body). -/
inductive HttpOutcome where
  | ok (data : Option Response)
  | failed (data : Option ApiError)
deriving DecidableEq, Repr

/-- The function `runBankersAlgorithm`: `return response.data`, and on failure
`throw error.response?.data || { error: ... }`. -/
def runBankersAlgorithm (http : HttpOutcome) : ApiOutcome :=
  match http with
  | .ok data => .resolved data
  | .failed (some data) => .rejected data
  | .failed none => .rejected { error := some "Failed to run Banker\x27s Algorithm" }

/-! ## `LogViewer` (`components/LogViewer.js`)

Arrays are objects: `reverse` changes the array it is called on, `slice`
makes a new one.  To tell the two apart, the arrays a render works on live in
a store and are named by references. -/

/-- A store of arrays of log entries: the array with reference `r` is the
entry at position `r`. -/
abbrev ArrayStore := List (List LogEntry)

/-- The elements of the array with reference `arr`. -/
def ArrayStore.read (store : ArrayStore) (arr : Nat) : List LogEntry :=
  (store[arr]?).getD []

/-- Array method `arr.slice()`: a new array with the elements of `arr` is
added to the store.  The result is the store after the call and the
reference of the new array. -/
def jsSlice (store : ArrayStore) (arr : Nat) : ArrayStore × Nat :=
  (store ++ [store.read arr], store.length)

/-- Array method `arr.reverse()`: the elements of `arr` are reversed in place.
The result is the store after the call and the reference returned, which is
`arr` itself. -/
def jsReverse (store : ArrayStore) (arr : Nat) : ArrayStore × Nat :=
  (store.set arr (store.read arr).reverse, arr)

/-- One element of the rendered list (lines 130-170): its `key` and the log
entry it shows. -/
structure LogRow where
  key : Nat
  log : LogEntry
deriving DecidableEq, Repr

/-- What one render of `LogViewer` shows and leaves behind: the number in the
count badge (line 72), the elements of the list in display order (lines
123-172; `none` while the panel is collapsed), and the store of arrays after
the render. -/
structure LogView where
  badge : Nat
  rows : Option (List LogRow)
  store : ArrayStore
deriving DecidableEq, Repr

/-- One render of `LogViewer` with state `expanded`, in a store where the prop
`logs` is the array with reference `logs`.  While expanded, the list is the
placeholder, without elements, when `logs.length === 0`, and otherwise
`logs.slice().reverse().map((log, idx) => ...)`: `slice` is called on `logs`,
`reverse` on the reference `slice` returns, and `map` makes one element with
`key={idx}` for each entry of the array `reverse` returns. -/
def logViewer (expanded : Bool) (store : ArrayStore) (logs : Nat) : LogView :=
  if expanded then
    if (store.read logs).length = 0 then
      { badge := (store.read logs).length, rows := some [], store := store }
    else
      let copy := jsSlice store logs
      let reversed := jsReverse copy.1 copy.2
      { badge := (store.read logs).length
        rows := some (jsMap (fun log idx => { key := idx, log := log })
          (reversed.1.read reversed.2))
        store := reversed.1 }
  else
    { badge := (store.read logs).length, rows := none, store := store }

/-- The initial value of the state `expanded` of `LogViewer`. -/
def initialExpanded : Bool := true

/-- A log entry used in the examples: the older of two. -/
def olderEntry : LogEntry :=
  { club_name := "Drama Club", decision := "GRANTED", requested_resources := [num 0, num 2, num 0]
    safe_sequence := some ["Music Club", "Drama Club", "Dance Club"]
    timestamp := "2024-01-01T10:00:00" }

/-- A log entry used in the examples: the newer of two. -/
def newerEntry : LogEntry :=
  { club_name := "Music Club", decision := "DENIED", requested_resources := [num 9, num 0, num 0]
    safe_sequence := none, timestamp := "2024-01-01T10:05:00" }

/-! ## A scenario used in the examples -/

/-- A `simulate` response: the three default clubs with `available = [3, 3, 2]`. -/
def sampleScenario : ScenarioData :=
  { available := [num 3, num 3, num 2]
    allocation := [[num 0, num 1, num 0], [num 2, num 0, num 0], [num 3, num 0, num 2]]
    max_need := [[num 7, num 5, num 3], [num 3, num 2, num 2], [num 9, num 0, num 2]]
    club_names := ["Drama Club", "Music Club", "Dance Club"] }

/-- The state of `App` after its first render and the first run of the
effect. -/
def mountedState : AppState :=
  { initialState with available := [num 5, num 4, num 5] }

/-- A vector of three integers: the request vector of a grant. -/
def Vec3 (r : Vec) : Prop :=
  ∃ r0 r1 r2 : Int, r = [num r0, num r1, num r2]

/-- The row sum `row[idx] + r[idx]` for every cell of `row`. -/
def addRequest (row r : Vec) : Vec :=
  jsMap (fun val idx => jsAdd val (jsGet r idx)) row

/-- The allocation matrix of a club list with the request `r` added to row
`k`: what the engine returns as `new_allocation` after it has granted `r` to
club `k`. -/
def allocationWith (clubs : List Club) (k : Nat) (r : Vec) : List Vec :=
  jsMap (fun club idx =>
    if idx = k then addRequest (club.allocation.getD []) r
    else club.allocation.getD []) clubs

/-- Club `idx` of a club list after the grant of `r` to club `k`: its
allocation is `new_allocation[idx]` for `new_allocation = allocationWith clubs k r`. -/
def grantedClub (k : Nat) (r : Vec) (club : Club) (idx : Nat) : Club :=
  { club with
    allocation :=
      some (if idx = k then addRequest (club.allocation.getD []) r else club.allocation.getD []) }

/-! ## The allocation engine

The engine (StateStore, SafetyChecker, RequestProcessor, AuditLog) is the
server behind `services/api.js`; its code is not among the sources.  The
definitions of this section follow sections 3, 4.1-4.4 and 7 of the
specification.  A club's id is its row in the matrices. -/

/-- Modelled from the spec: the element-wise comparison `a ≤ b` of two
vectors of the engine (sections 4.2 and 4.3), whose code is not among the
sources.  Vectors of different lengths are not comparable. -/
def vecLe : List Int → List Int → Bool
  | [], [] => true
  | x :: xs, y :: ys => decide (x ≤ y) && vecLe xs ys
  | _, _ => false

/-- Modelled from the spec: the element-wise sum of two vectors of the engine
(`working_available` plus an allocation, `allocation[clubId] += requestVector`);
the engine is not among the sources. -/
def vecAdd (a b : List Int) : List Int :=
  List.zipWith (fun x y => x + y) a b

/-- Modelled from the spec: the element-wise difference of two vectors of the
engine (`max - allocation`, `available -= requestVector`); the engine is not
among the sources. -/
def vecSub (a b : List Int) : List Int :=
  List.zipWith (fun x y => x - y) a b

/-- Modelled from the spec: one club of a SafetyChecker snapshot, its
allocation and need vectors (section 4.2); the engine is not among the
sources. -/
structure ClubRow where
  allocation : List Int
  need : List Int
deriving DecidableEq, Repr

/-- Modelled from the spec: the input of SafetyChecker, "a state snapshot
(available vector, per-club allocation and need vectors, n clubs, m
resources)" (section 4.2); the engine is not among the sources.  Club `i` is
`clubs[i]`. -/
structure Snapshot where
  available : List Int
  clubs : List ClubRow
deriving DecidableEq, Repr

/-- Modelled from the spec: the output of SafetyChecker, `{safe, sequence}`
(section 4.2): safe with the witness sequence of club ids, or not safe with
no sequence; the engine is not among the sources. -/
inductive SafetyResult where
  | safe (sequence : List Nat)
  | notSafe
deriving DecidableEq, Repr

/-- Modelled from the spec: one scan of the Safety Algorithm (section 4.2),
"scan clubs in increasing id order; for the first unfinished club whose
`need[club] ≤ working_available` element-wise"; `none` when the full scan
finds no such club.  The list is the clubs from id `i` on.  The engine is not
among the sources. -/
def scanFrom (finished : List Bool) (work : List Int) :
    Nat → List ClubRow → Option (Nat × ClubRow)
  | _, [] => none
  | i, club :: rest =>
    if finished[i]? = some false ∧ vecLe club.need work = true then some (i, club)
    else scanFrom finished work (i + 1) rest

/-- Modelled from the spec: the loop of the Safety Algorithm (section 4.2).
It stops with `safe` when all clubs are finished and with `notSafe` when a
full scan finds no satisfiable unfinished club; otherwise it marks the club
found as finished, adds its allocation to `working_available`, appends its id
to the sequence and scans again from the beginning.  `fuel` bounds the number
of rounds; `none` when it runs out.  The engine is not among the sources. -/
def safetyLoop (clubs : List ClubRow) :
    Nat → List Bool → List Int → List Nat → Option SafetyResult
  | fuel, finished, work, sequence =>
    if finished.all id then some (.safe sequence)
    else
      match scanFrom finished work 0 clubs with
      | none => some .notSafe
      | some (i, club) =>
        match fuel with
        | 0 => none
        | fuel + 1 =>
          safetyLoop clubs fuel (finished.set i true) (vecAdd work club.allocation)
            (sequence ++ [i])

/-- Modelled from the spec: SafetyChecker (section 4.2) on a snapshot, with
`finished[club]` initialized false for all clubs, the working copy of
`available`, an empty sequence, and one round of fuel per club.  The engine
is not among the sources. -/
def safetyCheck (snapshot : Snapshot) : Option SafetyResult :=
  safetyLoop snapshot.clubs snapshot.clubs.length
    (List.replicate snapshot.clubs.length false) snapshot.available []

/-- The replay of a sequence of club ids: each club in turn must have
`need ≤ available-so-far`, and its allocation is then added back. -/
def replayValid (clubs : List ClubRow) : List Int → List Nat → Bool
  | _, [] => true
  | work, i :: rest =>
    match clubs[i]? with
    | none => false
    | some club => vecLe club.need work && replayValid clubs (vecAdd work club.allocation) rest

/-- Modelled from the spec: a club of StateStore (section 3): display name,
maximum-need vector and current-allocation vector; its id is its position in
the store.  The engine is not among the sources. -/
structure EngineClub where
  name : String
  max : List Int
  allocation : List Int
deriving DecidableEq, Repr

/-- Modelled from the spec: the derived need vector
`need[club][j] = max[club][j] - allocation[club][j]` (section 3); the engine
is not among the sources. -/
def EngineClub.need (club : EngineClub) : List Int :=
  vecSub club.max club.allocation

/-- Modelled from the spec: StateStore (sections 3 and 4.1), the total vector
and the clubs; the engine is not among the sources. -/
structure Store where
  total : List Int
  clubs : List EngineClub
deriving DecidableEq, Repr

/-- Modelled from the spec: the derived available vector
`available[j] = total[j] - Σ over clubs of allocation[club][j]` (section 3);
the engine is not among the sources. -/
def Store.available (store : Store) : List Int :=
  store.clubs.foldl (fun acc club => vecSub acc club.allocation) store.total

/-- Modelled from the spec: the snapshot SafetyChecker is run on (section
4.2), built from a store; the engine is not among the sources. -/
def Store.snapshot (store : Store) : Snapshot :=
  { available := store.available
    clubs := store.clubs.map (fun club => { allocation := club.allocation, need := club.need }) }

/-- Modelled from the spec: `checkCurrentSafety()` (section 4.3), which "runs
SafetyChecker directly on the live snapshot without any tentative mutation
and without writing to AuditLog"; the engine is not among the sources. -/
def checkCurrentSafety (store : Store) : Option SafetyResult :=
  safetyCheck store.snapshot

/-- Modelled from the spec: the decision of a Decision record (section 3);
the engine is not among the sources. -/
inductive DecisionKind where
  | GRANTED
  | DENIED
deriving DecidableEq, Repr

/-- Modelled from the spec: a Decision record of AuditLog (section 3): club
id and name, requested vector, decision, resulting safe sequence (if
granted), timestamp; the engine is not among the sources. -/
structure DecisionRecord where
  clubId : Nat
  clubName : String
  requested : List Int
  decision : DecisionKind
  sequence : Option (List Nat)
  timestamp : String
deriving DecidableEq, Repr

/-- Modelled from the spec: the session state of the engine, StateStore and
the append-only AuditLog, newest record last (sections 4.1 and 4.4); the
engine is not among the sources. -/
structure Engine where
  store : Store
  log : List DecisionRecord
deriving DecidableEq, Repr

/-- Modelled from the spec: what `processRequest` answers (sections 4.3 and
7): a grant `{safe:true, sequence, newAllocation, newAvailable}`, or one of
the five ways a request fails; the engine is not among the sources. -/
inductive Decision where
  | granted (sequence : List Nat) (newAllocation : List (List Int)) (newAvailable : List Int)
  | unknownClub
  | malformedRequest
  | exceedsMaximumNeed
  | exceedsAvailable
  | deniedAsNotSafe
deriving DecidableEq, Repr

/-- Modelled from the spec: the DENIED record that a denial appends to
AuditLog (sections 4.3 and 7); the engine is not among the sources. -/
def deniedRecord (clubId : Nat) (club : EngineClub) (requestVector : List Int)
    (timestamp : String) : DecisionRecord :=
  { clubId := clubId, clubName := club.name, requested := requestVector
    decision := .DENIED, sequence := none, timestamp := timestamp }

/-- Modelled from the spec: the tentative store of `processRequest`, where
`allocation[clubId] += requestVector` (available, being derived, goes down by
`requestVector`); the engine is not among the sources. -/
def Store.tentative (store : Store) (clubId : Nat) (club : EngineClub)
    (requestVector : List Int) : Store :=
  { store with clubs :=
      store.clubs.set clubId { club with allocation := vecAdd club.allocation requestVector } }

/-- Modelled from the spec: `processRequest(clubId, requestVector)` of
RequestProcessor (section 4.3), with the safety check it delegates to as a
parameter and the time of the decision as `timestamp`.  The validations run
in order and the first failure wins: (a) the club exists, else `UnknownClub`
(no log entry); (b) the vector has length `m` and entries `≥ 0`, else
`MalformedRequest` (no log entry; the spec names no record for it); (c) it
is `≤ need[clubId]`, else `ExceedsMaximumNeed` (logged as DENIED, state
unchanged); (d) it is `≤ available`, else `ExceedsAvailable` (logged as
DENIED).  Then the checker runs on the tentative snapshot: safe commits it
and logs GRANTED with the sequence, not safe discards it and logs DENIED.
`none` when the checker gives no answer.  The engine is not among the
sources. -/
def processRequestWith (checker : Snapshot → Option SafetyResult) (timestamp : String)
    (engine : Engine) (clubId : Nat) (requestVector : List Int) : Option (Decision × Engine) :=
  match engine.store.clubs[clubId]? with
  | none => some (.unknownClub, engine)
  | some club =>
    if ¬ (requestVector.length = engine.store.total.length
          ∧ requestVector.all (fun x => decide (0 ≤ x)) = true) then
      some (.malformedRequest, engine)
    else if vecLe requestVector club.need = false then
      some (.exceedsMaximumNeed,
        { engine with log := engine.log ++ [deniedRecord clubId club requestVector timestamp] })
    else if vecLe requestVector engine.store.available = false then
      some (.exceedsAvailable,
        { engine with log := engine.log ++ [deniedRecord clubId club requestVector timestamp] })
    else
      match checker (engine.store.tentative clubId club requestVector).snapshot with
      | none => none
      | some (.safe sequence) =>
        some (.granted sequence
            ((engine.store.tentative clubId club requestVector).clubs.map
              (fun c => c.allocation))
            (engine.store.tentative clubId club requestVector).available,
          { store := engine.store.tentative clubId club requestVector
            log := engine.log ++
              [{ clubId := clubId, clubName := club.name, requested := requestVector
                 decision := .GRANTED, sequence := some sequence, timestamp := timestamp }] })
      | some .notSafe =>
        some (.deniedAsNotSafe,
          { engine with log := engine.log ++ [deniedRecord clubId club requestVector timestamp] })

/-- Modelled from the spec: `processRequest` with SafetyChecker as its safety
check (section 4.3); the engine is not among the sources. -/
def processRequest (timestamp : String) (engine : Engine) (clubId : Nat)
    (requestVector : List Int) : Option (Decision × Engine) :=
  processRequestWith safetyCheck timestamp engine clubId requestVector

/-- A request vector with a component greater than the club's need:
`requestVector[j] > need[j]` for some `j`. -/
def ExceedsNeed (requestVector need : List Int) : Prop :=
  ∃ (j : Nat) (x y : Int), requestVector[j]? = some x ∧ need[j]? = some y ∧ y < x

/-- The store of concrete scenario 1 of the specification. -/
def scenario1 : Store :=
  { total := [10, 5, 7]
    clubs := [ { name := "A", max := [7, 5, 3], allocation := [0, 1, 0] },
               { name := "B", max := [3, 2, 2], allocation := [2, 0, 0] },
               { name := "C", max := [9, 0, 2], allocation := [3, 0, 2] } ] }

/-- A store in which no club's need fits the available vector: everything
is allocated and every club still needs one unit. -/
def scenario3 : Store :=
  { total := [2, 1, 0]
    clubs := [ { name := "A", max := [2, 0, 0], allocation := [1, 0, 0] },
               { name := "B", max := [1, 2, 0], allocation := [1, 1, 0] } ] }

/-! ## The events the rendered page offers

The handlers are reached through the elements the components render: an
input exists for each of the three entries of `resourceNames`, the club
select offers the ids of the listed clubs, a row shows either its Edit
button or the edit form, and some elements are disabled while `loading`. -/

/-- Whether the edit form is shown: some row has `editingClub === club.id`. -/
def formShown (c : Client) : Bool :=
  match c.editing with
  | none => false
  | some e => c.app.clubs.any (fun club => decide (club.id = e.editingClub))

/-- Whether the page offers the event in state `c`.
* Submit is disabled when `loading || !isRequestValid()`, Check Current
  State, the club select and the request inputs when `loading`.
* The resource and request inputs are rendered by `resourceNames.map`, so
  their index is below `numResources`; so are the indices of the edit form.
* The club select has one option per listed club, with value `club.id`.
* The error banner and its dismiss button exist when `error` is truthy.
* A row that is not being edited shows the Edit button; the row being edited
  shows the form with its inputs and the Save and Cancel buttons. -/
def enabled (c : Client) (ev : Event) : Bool :=
  match ev with
  | .runBankers _ _ => !c.app.loading && isRequestValid c.app.requestResources
  | .checkSafety _ => !c.app.loading
  | .loadScenario _ => true
  | .reset => true
  | .resourceChange index _ => decide (index < numResources)
  | .requestChange index _ => !c.app.loading && decide (index < numResources)
  | .selectClub id => !c.app.loading && c.app.clubs.any (fun club => decide (club.id = id))
  | .fetchLogs _ => true
  | .dismissError =>
    match c.app.error with
    | none => false
    | some msg => decide (msg ≠ "")
  | .startEdit pos =>
    match c.app.clubs[pos]? with
    | none => false
    | some club =>
      match c.editing with
      | none => true
      | some e => decide (e.editingClub ≠ club.id)
  | .updateEditField input =>
    formShown c &&
      (match input.index with
       | none => true
       | some idx => decide (idx < numResources))
  | .cancelEdit => formShown c
  | .saveEdit => formShown c

/-- The states the client can reach from its initial state through events
the page offers. -/
inductive UIReachable : Client → Prop where
  | init : UIReachable initialClient
  | mount {a : AppState} : recompute initialState = some a →
      UIReachable { app := a, editing := none }
  | step {c c' : Client} (ev : Event) : UIReachable c → enabled c ev = true →
      step c ev = some c' → UIReachable c'

/-- A request vector of three non-negative integers. -/
def WellFormedRequest (r : Vec) : Prop :=
  ∃ n0 n1 n2 : Int, r = [num n0, num n1, num n2] ∧ 0 ≤ n0 ∧ 0 ≤ n1 ∧ 0 ≤ n2

/-- The client after `2` was typed into the second request input in the
initial state. -/
def requestingClient : Client :=
  { app := { initialState with requestResources := [num 0, num 2, num 0] }
    editing := none }

/-! ## Edit sessions of `ClubManager` as event sequences -/

/-- The events of `ClubManager`: the Edit button of the row at position
`pos`, a change of an input of the edit form, Cancel and Save. -/
inductive ManagerEvent where
  | startEdit (pos : Nat)
  | updateEditField (input : EditInput)
  | cancelEdit
  | saveEdit
deriving DecidableEq, Repr

/-- The component after one event. -/
def ClubManager.handle (m : ClubManager) (ev : ManagerEvent) : ClubManager :=
  match ev with
  | .startEdit pos => startEdit pos m
  | .updateEditField input => updateEditField input m
  | .cancelEdit => cancelEdit m
  | .saveEdit => saveEdit m

/-- The argument of the call of `onUpdateClubs` that the handler of an event
makes: only `saveEdit` calls it. -/
def ClubManager.updateCall (m : ClubManager) (ev : ManagerEvent) : Option (List Club) :=
  match ev with
  | .saveEdit => some (saveEditClubs m)
  | _ => none

/-- The component after a sequence of events, with the calls of
`onUpdateClubs` made on the way, oldest first. -/
def ClubManager.run (m : ClubManager) : List ManagerEvent → ClubManager × List (List Club)
  | [] => (m, [])
  | ev :: rest =>
    let r := ClubManager.run (m.handle ev) rest
    (r.1, (m.updateCall ev).toList ++ r.2)

/-- The cancelled session `startEdit`, the given calls of `updateEditField`,
`cancelEdit`, as an event sequence. -/
def cancelledSession (pos : Nat) (inputs : List EditInput) : List ManagerEvent :=
  .startEdit pos :: inputs.map (fun input => ManagerEvent.updateEditField input) ++ [.cancelEdit]

/-- One call of `updateEditField` as it acts on `editData`: the indexed
write, or the new name; no change when the array written to is `undefined`. -/
def applyInput (editData : Club) (input : EditInput) : Club :=
  match input with
  | .name value => { editData with name := some value }
  | .maxNeed idx value =>
    match editData.maxNeed with
    | none => editData
    | some arr => { editData with maxNeed := some (jsSet arr idx (some (clampInput value))) }
  | .allocation idx value =>
    match editData.allocation with
    | none => editData
    | some arr => { editData with allocation := some (jsSet arr idx (some (clampInput value))) }

/-- The edited data of a session: `editData` after `startEdit(club)` and the
given calls of `updateEditField`. -/
def editedData (club : Club) (inputs : List EditInput) : Club :=
  inputs.foldl applyInput club

/-! ## Scenarios of five and of three clubs -/

/-- A `simulate` response with five clubs. -/
def fiveClubScenario : ScenarioData :=
  { available := [num 3, num 3, num 2]
    allocation := [[num 0, num 1, num 0], [num 2, num 0, num 0], [num 3, num 0, num 2],
                   [num 2, num 1, num 1], [num 0, num 0, num 2]]
    max_need := [[num 7, num 5, num 3], [num 3, num 2, num 2], [num 9, num 0, num 2],
                 [num 2, num 2, num 2], [num 4, num 3, num 3]]
    club_names := ["Drama Club", "Music Club", "Dance Club", "Art Club", "Tech Club"] }

/-- The run that leaves a stale selection: in the initial state the
five-club scenario is loaded, its fifth club (id 4) is selected, and then
the three-club scenario is loaded. -/
def staleSelectionRun : Option Client :=
  ((step initialClient (.loadScenario fiveClubScenario)).bind
    (fun c => step c (.selectClub 4))).bind
      (fun c => step c (.loadScenario sampleScenario))

/-- The state of `ClubManager` during an edit session started on position
`pos` of `clubs`, whose club has id `k`, when `editData` is `data`: both
arrays of `editData` are shared with position `pos`, the other positions of
the list are untouched, and the club at `pos` still has id `k`. -/
def EditingAt (clubs : List Club) (pos k : Nat) (data : Club) (mgr : ClubManager) : Prop :=
  (∃ e : EditState, mgr.editing = some e ∧ e.editingClub = k ∧ e.editData = data
      ∧ e.sharedMaxNeed = some pos ∧ e.sharedAllocation = some pos)
    ∧ mgr.clubs.length = clubs.length
    ∧ (∀ i : Nat, i ≠ pos → mgr.clubs[i]? = clubs[i]?)
    ∧ ∃ c : Club, mgr.clubs[pos]? = some c ∧ c.id = k

/-! ## Inputs whose number is not finite -/

/-- A value of 310 digits `9`: the integer it denotes is above every double,
so `parseInt` returns `Infinity` for it. -/
def hugeValue : String := String.mk (List.replicate 310 '9')

/-- Whether the number the event writes into `requestResources` is finite;
only `handleRequestChange` writes a number parsed from a value there. -/
def Event.finiteRequest (ev : Event) : Bool :=
  match ev with
  | .requestChange _ value => (clampInput value).isFinite
  | _ => true

/-- The states the client can reach from its initial state through events the
page offers, when every value typed into a request input gives a finite
number. -/
inductive FiniteUIReachable : Client → Prop where
  | init : FiniteUIReachable initialClient
  | mount {a : AppState} : recompute initialState = some a →
      FiniteUIReachable { app := a, editing := none }
  | step {c c' : Client} (ev : Event) : FiniteUIReachable c → enabled c ev = true →
      ev.finiteRequest = true → step c ev = some c' → FiniteUIReachable c'

/-- The client after `hugeValue` was typed into the first request input in
the initial state. -/
def infiniteRequestClient : Client :=
  { app := { initialState with requestResources := [some .posInf, num 0, num 0] }
    editing := none }

/-- An integer cell `≥ 0`: what a request entry or an edited entry is meant
to be. -/
def IsNonnegInteger (c : Cell) : Prop :=
  ∃ n : Int, 0 ≤ n ∧ c = num n

/-! # Theorems -/

/-! ## Lemmas on `jsMap` and `jsMapM` -/

theorem jsMapFrom_length {α β : Type} (f : α → Nat → β) (k : Nat) (xs : List α) :
    (jsMapFrom f k xs).length = xs.length := by
  induction xs generalizing k with
  | nil => rfl
  | cons x xs ih => simp [jsMapFrom, ih]

theorem jsMapFrom_getElem? {α β : Type} (f : α → Nat → β) (k : Nat) (xs : List α) (i : Nat) :
    (jsMapFrom f k xs)[i]? = (xs[i]?).map (fun x => f x (k + i)) := by
  induction xs generalizing k i with
  | nil => simp [jsMapFrom]
  | cons x xs ih =>
    cases i with
    | zero => simp [jsMapFrom]
    | succ i =>
      simp only [jsMapFrom, List.getElem?_cons_succ, ih]
      congr 1
      funext y
      congr 1
      omega

theorem jsMap_length {α β : Type} (f : α → Nat → β) (xs : List α) :
    (jsMap f xs).length = xs.length :=
  jsMapFrom_length f 0 xs

theorem jsMap_getElem? {α β : Type} (f : α → Nat → β) (xs : List α) (i : Nat) :
    (jsMap f xs)[i]? = (xs[i]?).map (fun x => f x i) := by
  unfold jsMap
  rw [jsMapFrom_getElem?]
  simp

theorem jsMapMFrom_eq_some {α β : Type} (f : α → Nat → Option β) (g : α → Nat → β)
    (k : Nat) (xs : List α)
    (h : ∀ i x, xs[i]? = some x → f x (k + i) = some (g x (k + i))) :
    jsMapMFrom f k xs = some (jsMapFrom g k xs) := by
  induction xs generalizing k with
  | nil => rfl
  | cons x xs ih =>
    have h0 : f x k = some (g x k) := by simpa using h 0 x (by simp)
    have hs : ∀ i y, xs[i]? = some y → f y (k + 1 + i) = some (g y (k + 1 + i)) := by
      intro i y hy
      have := h (i + 1) y (by simpa using hy)
      rwa [show k + (i + 1) = k + 1 + i by omega] at this
    simp [jsMapMFrom, h0, ih (k + 1) hs, jsMapFrom]

theorem jsMapM_eq_some {α β : Type} (f : α → Nat → Option β) (g : α → Nat → β)
    (xs : List α) (h : ∀ i x, xs[i]? = some x → f x i = some (g x i)) :
    jsMapM f xs = some (jsMap g xs) := by
  unfold jsMapM jsMap
  apply jsMapMFrom_eq_some
  intro i x hx
  simpa using h i x hx

theorem jsGet_jsMap (f : Cell → Nat → Cell) (xs : Vec) (j : Nat)
    (hf : f none j = none) :
    jsGet (jsMap f xs) j = f (jsGet xs j) j := by
  unfold jsGet
  rw [jsMap_getElem?]
  cases h : xs[j]? with
  | none => simp [hf]
  | some c => simp

/-! ## The effect that recomputes `available` -/

theorem allocatedStep_three (x0 x1 x2 a0 a1 a2 : Int) (c : Club)
    (h : c.allocation = some [num a0, num a1, num a2]) :
    allocatedStep [num x0, num x1, num x2] c
      = some [num (x0 + a0), num (x1 + a1), num (x2 + a2)] := by
  simp [allocatedStep, jsMapM, jsMapMFrom, h, jsAdd, jsGet]

theorem allocEntry_three (a0 a1 a2 : Int) (c : Club)
    (h : c.allocation = some [num a0, num a1, num a2]) :
    allocEntry c 0 = a0 ∧ allocEntry c 1 = a1 ∧ allocEntry c 2 = a2 := by
  simp [allocEntry, h, jsGet]

theorem foldlM_allocatedStep (clubs : List Club) (h : ∀ c ∈ clubs, Alloc3 c) (x0 x1 x2 : Int) :
    clubs.foldlM allocatedStep [num x0, num x1, num x2]
      = some [num (x0 + allocSum clubs 0), num (x1 + allocSum clubs 1),
              num (x2 + allocSum clubs 2)] := by
  induction clubs generalizing x0 x1 x2 with
  | nil => simp [allocSum]
  | cons c cs ih =>
    obtain ⟨a0, a1, a2, hc⟩ := h c (List.mem_cons_self c cs)
    obtain ⟨e0, e1, e2⟩ := allocEntry_three a0 a1 a2 c hc
    have hcs : ∀ d ∈ cs, Alloc3 d := fun d hd => h d (List.mem_cons_of_mem c hd)
    rw [List.foldlM_cons, allocatedStep_three x0 x1 x2 a0 a1 a2 c hc]
    simp only [Option.bind_eq_bind, Option.some_bind]
    rw [ih hcs]
    simp only [allocSum, List.map_cons, List.sum_cons, e0, e1, e2, add_assoc]

theorem allocated_three (clubs : List Club) (h : ∀ c ∈ clubs, Alloc3 c) :
    allocated clubs
      = some [num (allocSum clubs 0), num (allocSum clubs 1), num (allocSum clubs 2)] := by
  unfold allocated
  rw [foldlM_allocatedStep clubs h 0 0 0]
  simp

theorem calcAvailable_cells (clubs : List Club) (c0 c1 c2 : Cell)
    (h : ∀ c ∈ clubs, Alloc3 c) :
    calcAvailable clubs [c0, c1, c2]
      = some [jsSub c0 (num (allocSum clubs 0)), jsSub c1 (num (allocSum clubs 1)),
              jsSub c2 (num (allocSum clubs 2))] := by
  simp [calcAvailable, allocated_three clubs h, jsMap, jsMapFrom, jsGet]

theorem calcAvailable_three (clubs : List Club) (t0 t1 t2 : Int)
    (h : ∀ c ∈ clubs, Alloc3 c) :
    calcAvailable clubs [num t0, num t1, num t2]
      = some [num (t0 - allocSum clubs 0), num (t1 - allocSum clubs 1),
              num (t2 - allocSum clubs 2)] := by
  simp [calcAvailable, allocated_three clubs h, jsMap, jsMapFrom, jsSub, jsGet]

theorem alloc3_defaultClubs : ∀ c ∈ defaultClubs, Alloc3 c := by
  intro c hc
  simp only [defaultClubs, List.mem_cons, List.mem_singleton, List.not_mem_nil, or_false] at hc
  rcases hc with rfl | rfl | rfl
  · exact ⟨0, 1, 0, rfl⟩
  · exact ⟨2, 0, 0, rfl⟩
  · exact ⟨3, 0, 2, rfl⟩

/-- C1. For every club list whose allocation vectors are three integers and
every total vector of three integers, the effect computes
`available[j] = total[j] - Σ over clubs of allocation[club][j]` for
`j = 0, 1, 2`; with an empty club list `available` equals `total`. -/
theorem available_eq_total_sub_allocated (clubs : List Club) (t0 t1 t2 : Int)
    (h : ∀ c ∈ clubs, Alloc3 c) :
    calcAvailable clubs [num t0, num t1, num t2]
        = some [num (t0 - allocSum clubs 0), num (t1 - allocSum clubs 1),
                num (t2 - allocSum clubs 2)]
      ∧ calcAvailable [] [num t0, num t1, num t2] = some [num t0, num t1, num t2] := by
  constructor
  · exact calcAvailable_three clubs t0 t1 t2 h
  · simp [calcAvailable, allocated, jsMap, jsMapFrom, jsSub, jsGet]

theorem available_eq_total_sub_allocated_witness :
    (∀ c ∈ defaultClubs, Alloc3 c) ∧
    calcAvailable defaultClubs [num 10, num 5, num 7] = some [num 5, num 4, num 5] := by
  refine ⟨alloc3_defaultClubs, ?_⟩
  have := (available_eq_total_sub_allocated defaultClubs 10 5 7 alloc3_defaultClubs).1
  rw [this]
  decide

/-! ## `handleRunBankers` -/

/-- C2. After a response with `safe = false`, `handleRunBankers` leaves
`clubs`, `totalResources`, `requestResources` and `available` as they were,
the effect does not run, and the available vector derived from the clubs and
the total is the same before and after. -/
theorem denied_request_changes_nothing (api : RequestData → ApiOutcome) (logs : LogsOutcome)
    (s : AppState) (response : Response)
    (hres : api (requestData s) = .resolved (some response)) (hsafe : response.safe = false) :
    (handleRunBankers api logs s).clubs = s.clubs
      ∧ (handleRunBankers api logs s).totalResources = s.totalResources
      ∧ (handleRunBankers api logs s).requestResources = s.requestResources
      ∧ (handleRunBankers api logs s).available = s.available
      ∧ runBankers api logs s = some (handleRunBankers api logs s)
      ∧ calcAvailable (handleRunBankers api logs s).clubs
            (handleRunBankers api logs s).totalResources
          = calcAvailable s.clubs s.totalResources := by
  have hc : commits (api (requestData s)) = false := by simp [commits, hres, hsafe]
  have h1 : (handleRunBankers api logs s).clubs = s.clubs := by
    simp only [handleRunBankers, hres, applyRunResponse, hsafe]
    cases logs with
    | resolved l => cases l <;> rfl
    | rejected => rfl
  have h2 : (handleRunBankers api logs s).totalResources = s.totalResources := by
    simp only [handleRunBankers, hres, applyRunResponse, hsafe]
    cases logs with
    | resolved l => cases l <;> rfl
    | rejected => rfl
  have h3 : (handleRunBankers api logs s).requestResources = s.requestResources := by
    simp only [handleRunBankers, hres, applyRunResponse, hsafe]
    cases logs with
    | resolved l => cases l <;> rfl
    | rejected => rfl
  have h4 : (handleRunBankers api logs s).available = s.available := by
    simp only [handleRunBankers, hres, applyRunResponse, hsafe]
    cases logs with
    | resolved l => cases l <;> rfl
    | rejected => rfl
  refine ⟨h1, h2, h3, h4, ?_, ?_⟩
  · simp [runBankers, hc]
  · rw [h1, h2]


theorem denied_request_changes_nothing_witness :
    (handleRunBankers denyAll .rejected initialState).clubs = initialState.clubs
      ∧ (handleRunBankers denyAll .rejected initialState).totalResources
          = initialState.totalResources
      ∧ (handleRunBankers denyAll .rejected initialState).requestResources
          = initialState.requestResources
      ∧ (handleRunBankers denyAll .rejected initialState).available = initialState.available
      ∧ runBankers denyAll .rejected initialState
          = some (handleRunBankers denyAll .rejected initialState)
      ∧ calcAvailable (handleRunBankers denyAll .rejected initialState).clubs
            (handleRunBankers denyAll .rejected initialState).totalResources
          = calcAvailable initialState.clubs initialState.totalResources :=
  denied_request_changes_nothing denyAll .rejected initialState _ rfl rfl

theorem handleRunBankers_granted (api : RequestData → ApiOutcome) (logs : LogsOutcome)
    (s : AppState) (response : Response) (rows : List Vec)
    (hres : api (requestData s) = .resolved (some response)) (hsafe : response.safe = true)
    (hrows : response.new_allocation = some rows) :
    (handleRunBankers api logs s).clubs = updatedClubs s.clubs rows
      ∧ (handleRunBankers api logs s).requestResources = [num 0, num 0, num 0] := by
  simp only [handleRunBankers, hres, applyRunResponse, hsafe, hrows]
  cases logs with
  | resolved l => cases l <;> exact ⟨rfl, rfl⟩
  | rejected => exact ⟨rfl, rfl⟩

/-- C3. After a response with `safe = true` and a `new_allocation` matrix of
`n` rows for a state of `n` clubs, the club list still has `n` entries in the
same order, club `i` keeps its id, name and maxNeed and has allocation
`new_allocation[i]`, and `requestResources` is `[0, 0, 0]`. -/
theorem granted_request_installs_new_allocation (api : RequestData → ApiOutcome)
    (logs : LogsOutcome) (s : AppState) (response : Response) (rows : List Vec)
    (hres : api (requestData s) = .resolved (some response)) (hsafe : response.safe = true)
    (hrows : response.new_allocation = some rows) (hlen : rows.length = s.clubs.length) :
    (handleRunBankers api logs s).clubs.length = s.clubs.length
      ∧ (∀ (i : Nat) (club : Club), s.clubs[i]? = some club →
          ∃ (row : Vec) (club' : Club), rows[i]? = some row ∧ (handleRunBankers api logs s).clubs[i]? = some club'
            ∧ club'.id = club.id ∧ club'.name = club.name ∧ club'.maxNeed = club.maxNeed
            ∧ club'.allocation = some row)
      ∧ (handleRunBankers api logs s).requestResources = [num 0, num 0, num 0] := by
  obtain ⟨hclubs, hreq⟩ := handleRunBankers_granted api logs s response rows hres hsafe hrows
  refine ⟨?_, ?_, hreq⟩
  · rw [hclubs, updatedClubs, jsMap_length]
  · intro i club hi
    have hlt : i < rows.length := by
      rw [hlen]
      exact (List.getElem?_eq_some_iff.mp hi).1
    refine ⟨rows[i], { club with allocation := some rows[i] }, List.getElem?_eq_getElem hlt,
      ?_, rfl, rfl, rfl, rfl⟩
    rw [hclubs, updatedClubs, jsMap_getElem?, hi]
    simp [List.getElem?_eq_getElem hlt]

theorem granted_request_installs_new_allocation_witness :
    (handleRunBankers grantDrama .rejected initialState).clubs.length
        = initialState.clubs.length
      ∧ (∀ (i : Nat) (club : Club), initialState.clubs[i]? = some club →
          ∃ (row : Vec) (club' : Club), [[num 0, num 3, num 0], [num 2, num 0, num 0],
                  [num 3, num 0, (num 2 : Cell)]][i]? = some row
            ∧ (handleRunBankers grantDrama .rejected initialState).clubs[i]? = some club'
            ∧ club'.id = club.id ∧ club'.name = club.name ∧ club'.maxNeed = club.maxNeed
            ∧ club'.allocation = some row)
      ∧ (handleRunBankers grantDrama .rejected initialState).requestResources
          = [num 0, num 0, num 0] :=
  granted_request_installs_new_allocation grantDrama .rejected initialState _ _ rfl rfl rfl rfl

/-- C4. `handleRunBankers` never changes `totalResources`, whatever the
outcome of the call (granted, denied, or failed), neither in the handler nor
in the effect that follows a grant. -/
theorem run_bankers_keeps_total (api : RequestData → ApiOutcome) (logs : LogsOutcome)
    (s : AppState) :
    (handleRunBankers api logs s).totalResources = s.totalResources
      ∧ ∀ s', runBankers api logs s = some s' → s'.totalResources = s.totalResources := by
  have h : (handleRunBankers api logs s).totalResources = s.totalResources := by
    unfold handleRunBankers
    cases api (requestData s) with
    | rejected err => rfl
    | resolved r =>
      cases r with
      | none => rfl
      | some response =>
        simp only [applyRunResponse]
        cases response.safe <;> cases response.new_allocation <;>
          cases logs with
          | resolved l => cases l <;> rfl
          | rejected => rfl
  refine ⟨h, ?_⟩
  intro s' hs'
  unfold runBankers at hs'
  split at hs'
  · unfold recompute at hs'
    split at hs'
    · exact absurd hs' (by simp)
    · simp only [Option.some.injEq] at hs'
      rw [← hs']
      exact h
  · simp only [Option.some.injEq] at hs'
    rw [← hs']
    exact h

/-- C5. `handleCheckSafety` changes nothing but `result`, `loading` and
`error`: `clubs`, `totalResources`, `available`, `requestResources` and
`selectedClub` are as before, and a second call on the resulting state sends
the same payload as the first. -/
theorem check_safety_is_pure_query (api : SafetyData → ApiOutcome) (s : AppState) :
    handleCheckSafety api s
        = { s with result := (handleCheckSafety api s).result
                   loading := (handleCheckSafety api s).loading
                   error := (handleCheckSafety api s).error }
      ∧ (handleCheckSafety api s).clubs = s.clubs
      ∧ (handleCheckSafety api s).totalResources = s.totalResources
      ∧ (handleCheckSafety api s).available = s.available
      ∧ (handleCheckSafety api s).requestResources = s.requestResources
      ∧ (handleCheckSafety api s).selectedClub = s.selectedClub
      ∧ safetyData (handleCheckSafety api s) = safetyData s := by
  unfold handleCheckSafety
  cases api (safetyData s) with
  | rejected err => exact ⟨rfl, rfl, rfl, rfl, rfl, rfl, rfl⟩
  | resolved r => exact ⟨rfl, rfl, rfl, rfl, rfl, rfl, rfl⟩

/-- C10. The payloads of `handleRunBankers` and `handleCheckSafety` have one
entry per club in `allocation`, `max_need` and `club_names`, entry `i` being
club `i`'s allocation, maxNeed and name; `available` is the current available
vector; the run payload has `request.club_id = selectedClub` and
`request.resources = requestResources`; and each handler depends on its API
function only through the value at this payload. -/
theorem payloads_match_club_list (s : AppState) :
    ((requestData s).allocation.length = s.clubs.length
        ∧ (requestData s).max_need.length = s.clubs.length
        ∧ (requestData s).club_names.length = s.clubs.length
        ∧ (∀ (i : Nat) (club : Club), s.clubs[i]? = some club →
            (requestData s).allocation[i]? = some club.allocation
              ∧ (requestData s).max_need[i]? = some club.maxNeed
              ∧ (requestData s).club_names[i]? = some club.name)
        ∧ (requestData s).available = s.available
        ∧ (requestData s).request.club_id = s.selectedClub
        ∧ (requestData s).request.resources = s.requestResources)
      ∧ ((safetyData s).allocation.length = s.clubs.length
        ∧ (safetyData s).max_need.length = s.clubs.length
        ∧ (safetyData s).club_names.length = s.clubs.length
        ∧ (∀ (i : Nat) (club : Club), s.clubs[i]? = some club →
            (safetyData s).allocation[i]? = some club.allocation
              ∧ (safetyData s).max_need[i]? = some club.maxNeed
              ∧ (safetyData s).club_names[i]? = some club.name)
        ∧ (safetyData s).available = s.available)
      ∧ (∀ (api1 api2 : RequestData → ApiOutcome) (logs : LogsOutcome),
          api1 (requestData s) = api2 (requestData s) →
            handleRunBankers api1 logs s = handleRunBankers api2 logs s)
      ∧ (∀ api1 api2 : SafetyData → ApiOutcome,
          api1 (safetyData s) = api2 (safetyData s) →
            handleCheckSafety api1 s = handleCheckSafety api2 s) := by
  refine ⟨⟨?_, ?_, ?_, ?_, rfl, rfl, rfl⟩, ⟨?_, ?_, ?_, ?_, rfl⟩, ?_, ?_⟩
  · simp [requestData]
  · simp [requestData]
  · simp [requestData]
  · intro i club hi
    simp [requestData, List.getElem?_map, hi]
  · simp [safetyData]
  · simp [safetyData]
  · simp [safetyData]
  · intro i club hi
    simp [safetyData, List.getElem?_map, hi]
  · intro api1 api2 logs h
    simp only [handleRunBankers, h]
  · intro api1 api2 h
    simp only [handleCheckSafety, h]

/-! ## `MatrixDisplay` -/

theorem needRow_eq (c : Club) (mx al : Vec) (hmx : c.maxNeed = some mx)
    (hal : c.allocation = some al) :
    needRow c = some (jsMap (fun max idx => jsSub max (jsGet al idx)) mx) := by
  unfold needRow
  rw [hmx]
  simp only
  apply jsMapM_eq_some
  intro i x _
  cases x with
  | none => simp [jsSub]
  | some m => simp [hal]

theorem needMatrix_eq (clubs : List Club) (h : ∀ c ∈ clubs, SameLength c) :
    needMatrix clubs = some (jsMap (fun club _ => (needRow club).getD []) clubs) := by
  unfold needMatrix
  apply jsMapM_eq_some
  intro i c hc
  obtain ⟨mx, al, hmx, hal, _⟩ := h c (List.getElem?_mem hc)
  rw [needRow_eq c mx al hmx hal]
  rfl

/-- C6. When every club's `maxNeed` and `allocation` have the same length,
`needMatrix` has one row per club in club order, each row as long as the
club's `maxNeed`, and `needMatrix[c][j] = maxNeed[c][j] - allocation[c][j]`
for every club `c` and resource `j`, which is the Need cell `ClubManager`
shows. -/
theorem need_matrix_is_max_minus_allocation (clubs : List Club)
    (h : ∀ c ∈ clubs, SameLength c) :
    ∃ rows : List Vec, needMatrix clubs = some rows ∧ rows.length = clubs.length
      ∧ ∀ (i : Nat) (c : Club), clubs[i]? = some c →
          ∃ (row mx al : Vec), rows[i]? = some row ∧ c.maxNeed = some mx
            ∧ c.allocation = some al ∧ row.length = mx.length
            ∧ ∀ j : Nat, jsGet row j = jsSub (jsGet mx j) (jsGet al j)
                ∧ needCell c j = some (jsGet row j)
                ∧ ∀ x y : Int, jsGet mx j = num x → jsGet al j = num y →
                    jsGet row j = num (x - y) := by
  refine ⟨_, needMatrix_eq clubs h, jsMap_length _ _, ?_⟩
  intro i c hc
  obtain ⟨mx, al, hmx, hal, _⟩ := h c (List.getElem?_mem hc)
  have hrow : ∀ j : Nat, jsGet (jsMap (fun max idx => jsSub max (jsGet al idx)) mx) j
      = jsSub (jsGet mx j) (jsGet al j) := by
    intro j
    exact jsGet_jsMap (fun max idx => jsSub max (jsGet al idx)) mx j (by simp [jsSub])
  refine ⟨jsMap (fun max idx => jsSub max (jsGet al idx)) mx, mx, al, ?_, hmx, hal,
    jsMap_length _ _, ?_⟩
  · rw [jsMap_getElem?, hc]
    simp [needRow_eq c mx al hmx hal]
  · intro j
    refine ⟨hrow j, ?_, ?_⟩
    · simp [needCell, hmx, hal, hrow j]
    · intro x y hx hy
      rw [hrow j, hx, hy]
      rfl

theorem need_matrix_is_max_minus_allocation_witness :
    (∀ c ∈ defaultClubs, SameLength c) ∧
    ∃ rows : List Vec, needMatrix defaultClubs = some rows ∧ rows.length = defaultClubs.length
      ∧ ∀ (i : Nat) (c : Club), defaultClubs[i]? = some c →
          ∃ (row mx al : Vec), rows[i]? = some row ∧ c.maxNeed = some mx
            ∧ c.allocation = some al ∧ row.length = mx.length
            ∧ ∀ j : Nat, jsGet row j = jsSub (jsGet mx j) (jsGet al j)
                ∧ needCell c j = some (jsGet row j)
                ∧ ∀ x y : Int, jsGet mx j = num x → jsGet al j = num y →
                    jsGet row j = num (x - y) := by
  have h : ∀ c ∈ defaultClubs, SameLength c := by
    intro c hc
    simp only [defaultClubs, List.mem_cons, List.mem_singleton, List.not_mem_nil, or_false] at hc
    rcases hc with rfl | rfl | rfl
    · exact ⟨_, _, rfl, rfl, rfl⟩
    · exact ⟨_, _, rfl, rfl, rfl⟩
    · exact ⟨_, _, rfl, rfl, rfl⟩
  exact ⟨h, need_matrix_is_max_minus_allocation defaultClubs h⟩


/-! ## Array writes -/

theorem maxZero_cases (x : Num) :
    (∃ k : Int, 0 ≤ k ∧ maxZero x = .fin k) ∨ maxZero x = .posInf := by
  cases x with
  | fin k => exact Or.inl ⟨max 0 k, le_max_left 0 k, rfl⟩
  | posInf => exact Or.inr rfl
  | negInf => exact Or.inl ⟨0, le_refl 0, rfl⟩

theorem clampInput_cases (value : String) :
    (∃ k : Int, 0 ≤ k ∧ clampInput value = .fin k) ∨ clampInput value = .posInf :=
  maxZero_cases _

theorem clampInput_nonneg (value : String) (k : Int) (h : clampInput value = .fin k) :
    0 ≤ k := by
  rcases clampInput_cases value with ⟨k', hk', he⟩ | he
  · rw [he] at h
    cases h
    exact hk'
  · rw [he] at h
    cases h

theorem clampInput_finite (value : String) (h : (clampInput value).isFinite = true) :
    ∃ k : Int, 0 ≤ k ∧ clampInput value = .fin k := by
  rcases clampInput_cases value with hk | he
  · exact hk
  · rw [he] at h
    cases h

theorem isNonneg_clampInput (value : String) (h : (clampInput value).isFinite = true) :
    isNonneg (some (clampInput value)) = true := by
  obtain ⟨k, hk, he⟩ := clampInput_finite value h
  rw [he]
  simpa [isNonneg] using hk

theorem spacing_le (fuel n p : Nat) (h : 2 ^ 52 * p ≤ n) : 2 ^ 52 * spacing fuel n p ≤ n := by
  induction fuel generalizing p with
  | zero => exact h
  | succ fuel ih =>
    unfold spacing
    split
    · exact h
    · apply ih
      omega

theorem toDouble_isSome (n : Nat) (h : 2 * n < doubleLimit) : (toDouble n).isSome = true := by
  unfold toDouble
  split
  · rfl
  · rename_i h53
    have hn : ¬ doubleLimit ≤ n := by omega
    rw [if_neg hn]
    have hp := spacing_le 1024 n 1 (by omega)
    have hq : n / spacing 1024 n 1 * spacing 1024 n 1 ≤ n := Nat.div_mul_le_self n _
    have hm : ∀ m : Nat, m ≤ n / spacing 1024 n 1 + 1 →
        ¬ doubleLimit ≤ m * spacing 1024 n 1 := by
      intro m hm hbig
      have hle : m * spacing 1024 n 1 ≤ (n / spacing 1024 n 1 + 1) * spacing 1024 n 1 :=
        Nat.mul_le_mul_right _ hm
      rw [Nat.add_mul, Nat.one_mul] at hle
      omega
    simp only
    rw [if_neg (hm _ (by split <;> omega))]
    rfl

theorem leadingDigits_lt (radix : Nat) (cs : List Char) :
    ∀ d ∈ leadingDigits radix cs, d < radix := by
  induction cs with
  | nil => simp [leadingDigits]
  | cons c cs ih =>
    intro d hd
    unfold leadingDigits at hd
    split at hd
    · split at hd
      · rename_i hlt
        rcases List.mem_cons.mp hd with rfl | hd'
        · exact hlt
        · exact ih d hd'
      · simp at hd
    · simp at hd

theorem leadingDigits_length (radix : Nat) (cs : List Char) :
    (leadingDigits radix cs).length ≤ cs.length := by
  induction cs with
  | nil => simp [leadingDigits]
  | cons c cs ih =>
    unfold leadingDigits
    split
    · split
      · simp only [List.length_cons]
        omega
      · simp
    · simp

theorem foldl_digits_lt (radix : Nat) (ds : List Nat) (acc k : Nat)
    (hds : ∀ d ∈ ds, d < radix) (hacc : acc < radix ^ k) :
    ds.foldl (fun acc d => acc * radix + d) acc < radix ^ (k + ds.length) := by
  induction ds generalizing acc k with
  | nil => simpa using hacc
  | cons d ds ih =>
    have hd : d < radix := hds d (List.mem_cons_self _ _)
    have hstep : acc * radix + d < radix ^ (k + 1) := by
      rw [pow_succ]
      have : (acc + 1) * radix ≤ radix ^ k * radix := Nat.mul_le_mul_right _ hacc
      rw [Nat.add_mul, Nat.one_mul] at this
      omega
    have := ih (acc * radix + d) (k + 1) (fun x hx => hds x (List.mem_cons_of_mem _ hx)) hstep
    simp only [List.foldl_cons, List.length_cons]
    rwa [show k + (ds.length + 1) = k + 1 + ds.length by omega]

theorem digitsValue_lt (radix : Nat) (ds : List Nat) (hds : ∀ d ∈ ds, d < radix) :
    digitsValue radix ds < radix ^ ds.length := by
  have := foldl_digits_lt radix ds 0 0 hds (by simp)
  simpa [digitsValue] using this

theorem toDouble_digits_isSome (radix : Nat) (cs : List Char) (hr : radix ≤ 16)
    (hl : cs.length ≤ 255) :
    (toDouble (digitsValue radix (leadingDigits radix cs))).isSome = true := by
  apply toDouble_isSome
  have h1 := digitsValue_lt radix _ (leadingDigits_lt radix cs)
  have h2 := leadingDigits_length radix cs
  have h3 : radix ^ (leadingDigits radix cs).length ≤ 16 ^ 255 :=
    (Nat.pow_le_pow_left hr _).trans (Nat.pow_le_pow_right (by norm_num) (by omega))
  have h4 : 2 * 16 ^ 255 < doubleLimit := by decide
  omega

theorem parseInt_finite (value : String) (h : value.length ≤ 255) :
    parseInt value = none ∨ ∃ k : Int, parseInt value = num k := by
  unfold parseInt
  have hs : (value.toList.dropWhile isStrWhiteSpace).length ≤ 255 :=
    (List.dropWhile_sublist isStrWhiteSpace).length_le.trans (by simpa using h)
  generalize value.toList.dropWhile isStrWhiteSpace = s at hs
  simp only
  generalize hsg : (match s with
    | '-' :: r => ((-1 : Int), r)
    | '+' :: r => (1, r)
    | _ => (1, s)) = signed
  have hsl : signed.2.length ≤ 255 := by
    split at hsg <;> subst hsg <;> simp at hs ⊢ <;> omega
  generalize hbg : (match signed.2 with
    | '0' :: 'x' :: r => ((16 : Nat), r)
    | '0' :: 'X' :: r => (16, r)
    | _ => (10, signed.2)) = based
  have hbl : based.1 ≤ 16 ∧ based.2.length ≤ 255 := by
    split at hbg <;> subst hbg <;> rename_i heq <;> simp [heq] at hsl ⊢ <;> omega
  split
  · exact Or.inl rfl
  · right
    have hsome := toDouble_digits_isSome based.1 based.2 hbl.1 hbl.2
    cases htd : toDouble (digitsValue based.1 (leadingDigits based.1 based.2)) with
    | none => rw [htd] at hsome; cases hsome
    | some m => exact ⟨_, rfl⟩

theorem clampInput_finite_of_length (value : String) (h : value.length ≤ 255) :
    (clampInput value).isFinite = true := by
  unfold clampInput orZero
  rcases parseInt_finite value h with hp | ⟨k, hp⟩
  · rw [hp]
    rfl
  · rw [hp]
    by_cases h0 : k = 0
    · simp [h0, maxZero, Num.isFinite]
    · simp [h0, maxZero, Num.isFinite]

theorem writesFinite_of_length (idx : Nat) (value : String) (h : value.length ≤ 255) :
    (EditInput.maxNeed idx value).writesFinite = true
      ∧ (EditInput.allocation idx value).writesFinite = true
      ∧ (Event.requestChange idx value).finiteRequest = true :=
  ⟨clampInput_finite_of_length value h, clampInput_finite_of_length value h,
    clampInput_finite_of_length value h⟩

theorem toDouble_exact (n : Nat) (h : n < 2 ^ 53) : toDouble n = some n := by
  unfold toDouble
  rw [if_pos h]

theorem toDouble_rounds_to_even :
    toDouble (2 ^ 53 + 1) = some (2 ^ 53) ∧ toDouble (2 ^ 53 + 2) = some (2 ^ 53 + 2)
      ∧ toDouble (2 ^ 53 + 3) = some (2 ^ 53 + 4)
      ∧ toDouble (10 ^ 24) = some 999999999999999983222784 := by
  decide

set_option maxRecDepth 100000 in
theorem toDouble_overflow :
    toDouble (doubleLimit - (2 ^ 97) ^ 10 - 1) = some (doubleLimit - 2 * (2 ^ 97) ^ 10)
      ∧ toDouble (doubleLimit - (2 ^ 97) ^ 10) = none := by
  decide

theorem parseInt_examples :
    parseInt "42" = num 42 ∧ parseInt "  -7abc" = num (-7) ∧ parseInt "0x1F" = num 31
      ∧ parseInt "" = none ∧ parseInt "abc" = none ∧ parseInt "3.9" = num 3
      ∧ parseInt "9007199254740993" = num 9007199254740992
      ∧ parseInt "-9007199254740993" = num (-9007199254740992) := by
  decide

set_option maxRecDepth 100000 in
theorem parseInt_hugeValue : parseInt hugeValue = some .posInf := by
  decide

theorem clampInput_hugeValue : clampInput hugeValue = .posInf := by
  simp only [clampInput, parseInt_hugeValue]
  rfl

theorem jsSet_length (xs : Vec) (idx : Nat) (v : Cell) (h : idx < xs.length) :
    (jsSet xs idx v).length = xs.length := by
  simp [jsSet, h]

theorem jsGet_jsSet (xs : Vec) (idx : Nat) (v : Cell) (h : idx < xs.length) (j : Nat) :
    jsGet (jsSet xs idx v) j = if j = idx then v else jsGet xs j := by
  unfold jsGet jsSet
  rw [if_pos h, List.getElem?_set]
  by_cases hj : idx = j
  · subst hj
    simp [h]
  · have hj' : ¬ j = idx := fun e => hj e.symm
    simp [hj, hj']

/-! ## The invariants as propositions -/

theorem clubNonneg_iff (m : Nat) (c : Club) :
    clubNonneg m c = true ↔
      ∃ (mx al : Vec), c.maxNeed = some mx ∧ c.allocation = some al ∧ mx.length = m
        ∧ al.length = m
        ∧ ∀ j, j < m → isNonneg (jsGet al j) = true ∧ isNonneg (jsGet mx j) = true := by
  unfold clubNonneg
  cases hmx : c.maxNeed with
  | none => simp
  | some mx =>
    cases hal : c.allocation with
    | none => simp
    | some al => simp [List.all_eq_true, and_assoc]

theorem clubBounded_iff (m : Nat) (c : Club) :
    clubBounded m c = true ↔
      ∃ (mx al : Vec), c.maxNeed = some mx ∧ c.allocation = some al ∧ mx.length = m
        ∧ al.length = m ∧ ∀ j, j < m → isBounded (jsGet al j) (jsGet mx j) = true := by
  unfold clubBounded
  cases hmx : c.maxNeed with
  | none => simp
  | some mx =>
    cases hal : c.allocation with
    | none => simp
    | some al => simp [List.all_eq_true, and_assoc]

theorem isBounded_nonneg (a m : Cell) (h : isBounded a m = true) :
    isNonneg a = true ∧ isNonneg m = true := by
  cases a with
  | none => simp [isBounded] at h
  | some x =>
    cases m with
    | none => cases x <;> simp [isBounded] at h
    | some y =>
      cases x with
      | fin x =>
        cases y with
        | fin y =>
          simp only [isBounded, Bool.and_eq_true, decide_eq_true_eq] at h
          simp only [isNonneg, decide_eq_true_eq]
          exact ⟨h.1, le_trans h.1 h.2⟩
        | posInf => simp [isBounded] at h
        | negInf => simp [isBounded] at h
      | posInf => simp [isBounded] at h
      | negInf => simp [isBounded] at h

theorem clubBounded_nonneg (m : Nat) (c : Club) (h : clubBounded m c = true) :
    clubNonneg m c = true := by
  rw [clubBounded_iff] at h
  rw [clubNonneg_iff]
  obtain ⟨mx, al, hmx, hal, h1, h2, h3⟩ := h
  exact ⟨mx, al, hmx, hal, h1, h2, fun j hj => isBounded_nonneg _ _ (h3 j hj)⟩

theorem clubNonneg_write_maxNeed (m : Nat) (c : Club) (arr : Vec) (idx : Nat) (value : String)
    (h : clubNonneg m c = true) (harr : c.maxNeed = some arr) (hidx : idx < m)
    (hfin : (clampInput value).isFinite = true) :
    clubNonneg m { c with maxNeed := some (jsSet arr idx (some (clampInput value))) } = true := by
  rw [clubNonneg_iff] at h ⊢
  obtain ⟨mx, al, hmx, hal, h1, h2, h3⟩ := h
  rw [harr] at hmx
  cases hmx
  have hlt : idx < arr.length := by omega
  refine ⟨_, al, rfl, hal, ?_, h2, ?_⟩
  · rw [jsSet_length _ _ _ hlt, h1]
  · intro j hj
    refine ⟨(h3 j hj).1, ?_⟩
    rw [jsGet_jsSet _ _ _ hlt]
    split
    · exact isNonneg_clampInput value hfin
    · exact (h3 j hj).2

theorem clubNonneg_write_allocation (m : Nat) (c : Club) (arr : Vec) (idx : Nat)
    (value : String) (h : clubNonneg m c = true) (harr : c.allocation = some arr)
    (hidx : idx < m) (hfin : (clampInput value).isFinite = true) :
    clubNonneg m { c with allocation := some (jsSet arr idx (some (clampInput value))) }
      = true := by
  rw [clubNonneg_iff] at h ⊢
  obtain ⟨mx, al, hmx, hal, h1, h2, h3⟩ := h
  rw [harr] at hal
  cases hal
  have hlt : idx < arr.length := by omega
  refine ⟨mx, _, hmx, rfl, h1, ?_, ?_⟩
  · rw [jsSet_length _ _ _ hlt, h2]
  · intro j hj
    refine ⟨?_, (h3 j hj).2⟩
    rw [jsGet_jsSet _ _ _ hlt]
    split
    · exact isNonneg_clampInput value hfin
    · exact (h3 j hj).1

theorem writeMaxNeed_frame (clubs : List Club) (pos : Nat) (arr : Vec) :
    (writeMaxNeed clubs (some pos) arr).length = clubs.length
      ∧ (∀ i : Nat, i ≠ pos → (writeMaxNeed clubs (some pos) arr)[i]? = clubs[i]?)
      ∧ ∀ c : Club, clubs[pos]? = some c →
          ∃ c' : Club, (writeMaxNeed clubs (some pos) arr)[pos]? = some c' ∧ c'.id = c.id := by
  cases h : clubs[pos]? with
  | none => simp [writeMaxNeed, h]
  | some club =>
    have hlt : pos < clubs.length := (List.getElem?_eq_some_iff.mp h).1
    simp only [writeMaxNeed, h]
    refine ⟨by simp, ?_, ?_⟩
    · intro i hi
      simp [List.getElem?_set, Ne.symm hi]
    · intro c hc
      cases hc
      exact ⟨{ club with maxNeed := some arr }, by simp [List.getElem?_set, hlt], rfl⟩

theorem writeAllocation_frame (clubs : List Club) (pos : Nat) (arr : Vec) :
    (writeAllocation clubs (some pos) arr).length = clubs.length
      ∧ (∀ i : Nat, i ≠ pos → (writeAllocation clubs (some pos) arr)[i]? = clubs[i]?)
      ∧ ∀ c : Club, clubs[pos]? = some c →
          ∃ c' : Club, (writeAllocation clubs (some pos) arr)[pos]? = some c'
            ∧ c'.id = c.id := by
  cases h : clubs[pos]? with
  | none => simp [writeAllocation, h]
  | some club =>
    have hlt : pos < clubs.length := (List.getElem?_eq_some_iff.mp h).1
    simp only [writeAllocation, h]
    refine ⟨by simp, ?_, ?_⟩
    · intro i hi
      simp [List.getElem?_set, Ne.symm hi]
    · intro c hc
      cases hc
      exact ⟨{ club with allocation := some arr }, by simp [List.getElem?_set, hlt], rfl⟩

theorem inSession_startEdit (m : Nat) (clubs : List Club) (pos : Nat) (club : Club)
    (hclub : clubs[pos]? = some club) (hb : clubNonneg m club = true) :
    InSession m clubs pos club.id (startEdit pos { clubs := clubs, editing := none }) := by
  simp only [startEdit, hclub]
  exact ⟨⟨_, rfl, rfl, rfl, hb, rfl, rfl⟩, rfl, fun _ _ => rfl, ⟨club, hclub, rfl⟩⟩

theorem inSession_updateEditField (m : Nat) (clubs : List Club) (pos k : Nat)
    (mgr : ClubManager) (input : EditInput) (h : InSession m clubs pos k mgr)
    (hidx : ∀ idx : Nat, input.index = some idx → idx < m)
    (hfin : input.writesFinite = true) :
    InSession m clubs pos k (updateEditField input mgr) := by
  obtain ⟨⟨e, he, hk, hid, hnn, hsm, hsa⟩, hlen, hoth, ⟨c, hc, hcid⟩⟩ := h
  cases input with
  | name value =>
    simp only [updateEditField, he]
    refine ⟨⟨_, rfl, hk, hid, ?_, hsm, hsa⟩, hlen, hoth, ⟨c, hc, hcid⟩⟩
    rw [clubNonneg_iff] at hnn ⊢
    exact hnn
  | maxNeed idx value =>
    have hi : idx < m := hidx idx rfl
    cases harr : e.editData.maxNeed with
    | none =>
      simp only [updateEditField, he, harr]
      exact ⟨⟨e, he, hk, hid, hnn, hsm, hsa⟩, hlen, hoth, ⟨c, hc, hcid⟩⟩
    | some arr =>
      simp only [updateEditField, he, harr, hsm]
      obtain ⟨f1, f2, f3⟩ :=
        writeMaxNeed_frame mgr.clubs pos (jsSet arr idx (some (clampInput value)))
      obtain ⟨c', hc', hcid'⟩ := f3 c hc
      exact ⟨⟨_, rfl, hk, hid, clubNonneg_write_maxNeed m _ arr idx value hnn harr hi hfin,
          rfl, hsa⟩,
        f1.trans hlen, fun i hi' => (f2 i hi').trans (hoth i hi'), ⟨c', hc', hcid'.trans hcid⟩⟩
  | allocation idx value =>
    have hi : idx < m := hidx idx rfl
    cases harr : e.editData.allocation with
    | none =>
      simp only [updateEditField, he, harr]
      exact ⟨⟨e, he, hk, hid, hnn, hsm, hsa⟩, hlen, hoth, ⟨c, hc, hcid⟩⟩
    | some arr =>
      simp only [updateEditField, he, harr, hsa]
      obtain ⟨f1, f2, f3⟩ :=
        writeAllocation_frame mgr.clubs pos (jsSet arr idx (some (clampInput value)))
      obtain ⟨c', hc', hcid'⟩ := f3 c hc
      exact ⟨⟨_, rfl, hk, hid, clubNonneg_write_allocation m _ arr idx value hnn harr hi hfin,
          hsm, rfl⟩,
        f1.trans hlen, fun i hi' => (f2 i hi').trans (hoth i hi'), ⟨c', hc', hcid'.trans hcid⟩⟩

theorem inSession_foldl (m : Nat) (clubs : List Club) (pos k : Nat) (inputs : List EditInput)
    (mgr : ClubManager) (h : InSession m clubs pos k mgr)
    (hidx : ∀ input ∈ inputs, ∀ idx : Nat, input.index = some idx → idx < m)
    (hfin : ∀ input ∈ inputs, input.writesFinite = true) :
    InSession m clubs pos k (inputs.foldl (fun mg input => updateEditField input mg) mgr) := by
  induction inputs generalizing mgr with
  | nil => exact h
  | cons input rest ih =>
    simp only [List.foldl_cons]
    apply ih
    · exact inSession_updateEditField m clubs pos k mgr input h
        (hidx input (List.mem_cons_self _ _)) (hfin input (List.mem_cons_self _ _))
    · intro i hi
      exact hidx i (List.mem_cons_of_mem _ hi)
    · intro i hi
      exact hfin i (List.mem_cons_of_mem _ hi)

theorem updateEditField_idle (input : EditInput) (clubs : List Club) :
    updateEditField input { clubs := clubs, editing := none }
      = { clubs := clubs, editing := none } := rfl

theorem foldl_updateEditField_idle (inputs : List EditInput) (clubs : List Club) :
    inputs.foldl (fun mg input => updateEditField input mg)
        ({ clubs := clubs, editing := none } : ClubManager)
      = { clubs := clubs, editing := none } := by
  induction inputs with
  | nil => rfl
  | cons input rest ih => simp only [List.foldl_cons, updateEditField_idle, ih]

theorem editSession_out_of_range (clubs : List Club) (pos : Nat) (inputs : List EditInput)
    (h : clubs[pos]? = none) : editSession clubs pos inputs = clubs := by
  simp only [editSession, startEdit, h, foldl_updateEditField_idle, saveEditClubs]

theorem invariant1_defaultClubs : Invariant1 3 defaultClubs := by
  intro c hc
  simp only [defaultClubs, List.mem_cons, List.mem_singleton, List.not_mem_nil, or_false] at hc
  rcases hc with rfl | rfl | rfl <;> decide

theorem editSession_hugeValue :
    editSession defaultClubs 0 [EditInput.allocation 0 hugeValue]
      = [ { id := 0, name := some "Drama Club", maxNeed := some [num 7, num 5, num 3],
            allocation := some [some .posInf, num 1, num 0] },
          { id := 1, name := some "Music Club", maxNeed := some [num 3, num 2, num 2],
            allocation := some [num 2, num 0, num 0] },
          { id := 2, name := some "Dance Club", maxNeed := some [num 9, num 0, num 2],
            allocation := some [num 3, num 0, num 2] } ] := by
  simp only [editSession, List.foldl_cons, List.foldl_nil, startEdit, defaultClubs,
    List.getElem?_cons_zero, updateEditField, clampInput_hugeValue]
  decide

/-- C7 (as stated) fails: the default clubs satisfy invariant 1, and the edit
session that opens the first club, types `8` into its first allocation input
(its maxNeed there is 7) and saves passes on a list that violates
invariant 1.  So does the session that types a value of 310 digits there:
the entry saved is `Infinity`, and the allocation of the club is no longer a
vector of non-negative integers. -/
theorem edit_can_break_invariant1 :
    Invariant1 3 defaultClubs
      ∧ editSession defaultClubs 0 [EditInput.allocation 0 "8"]
          = [ { id := 0, name := some "Drama Club", maxNeed := some [num 7, num 5, num 3],
                allocation := some [num 8, num 1, num 0] },
              { id := 1, name := some "Music Club", maxNeed := some [num 3, num 2, num 2],
                allocation := some [num 2, num 0, num 0] },
              { id := 2, name := some "Dance Club", maxNeed := some [num 9, num 0, num 2],
                allocation := some [num 3, num 0, num 2] } ]
      ∧ ¬ Invariant1 3 (editSession defaultClubs 0 [EditInput.allocation 0 "8"])
      ∧ editSession defaultClubs 0 [EditInput.allocation 0 hugeValue]
          = [ { id := 0, name := some "Drama Club", maxNeed := some [num 7, num 5, num 3],
                allocation := some [some .posInf, num 1, num 0] },
              { id := 1, name := some "Music Club", maxNeed := some [num 3, num 2, num 2],
                allocation := some [num 2, num 0, num 0] },
              { id := 2, name := some "Dance Club", maxNeed := some [num 9, num 0, num 2],
                allocation := some [num 3, num 0, num 2] } ]
      ∧ ¬ Invariant1 3 (editSession defaultClubs 0 [EditInput.allocation 0 hugeValue])
      ∧ ¬ ∀ c ∈ editSession defaultClubs 0 [EditInput.allocation 0 hugeValue],
            clubNonneg 3 c = true := by
  refine ⟨invariant1_defaultClubs, by decide, ?_, editSession_hugeValue, ?_, ?_⟩
  · intro h
    have h1 := h { id := 0, name := some "Drama Club", maxNeed := some [num 7, num 5, num 3],
                   allocation := some [num 8, num 1, num 0] } (by decide)
    revert h1
    decide
  · rw [editSession_hugeValue]
    intro h
    have h1 := h { id := 0, name := some "Drama Club", maxNeed := some [num 7, num 5, num 3],
                   allocation := some [some .posInf, num 1, num 0] } (by decide)
    revert h1
    decide
  · rw [editSession_hugeValue]
    intro h
    have h1 := h { id := 0, name := some "Drama Club", maxNeed := some [num 7, num 5, num 3],
                   allocation := some [some .posInf, num 1, num 0] } (by decide)
    revert h1
    decide

/-- C7 (amended). An edit session whose indexed writes stay below `m` and
write finite numbers (`Math.max(0, parseInt(value) || 0)` is not `Infinity`)
preserves the lower bound of invariant 1 and the clubs it does not edit: if
the club list satisfies `0 ≤ allocation[c][j] ≤ maxNeed[c][j]`, then in the
list `saveEdit` passes to `onUpdateClubs` every club has `maxNeed` and
`allocation` vectors of `m` non-negative integers, and every club whose id
is not the id of the edited club still satisfies
`0 ≤ allocation[c][j] ≤ maxNeed[c][j]`. -/
theorem edit_preserves_nonnegativity (m : Nat) (clubs : List Club) (pos : Nat)
    (inputs : List EditInput) (hinv : Invariant1 m clubs)
    (hidx : ∀ input ∈ inputs, ∀ idx : Nat, input.index = some idx → idx < m)
    (hfin : ∀ input ∈ inputs, input.writesFinite = true) :
    (∀ c ∈ editSession clubs pos inputs, clubNonneg m c = true)
      ∧ ∀ c ∈ editSession clubs pos inputs,
          (∀ edited : Club, clubs[pos]? = some edited → c.id ≠ edited.id) →
            clubBounded m c = true := by
  cases hpos : clubs[pos]? with
  | none =>
    rw [editSession_out_of_range clubs pos inputs hpos]
    exact ⟨fun c hc => clubBounded_nonneg m c (hinv c hc), fun c hc _ => hinv c hc⟩
  | some club =>
    have hs := inSession_foldl m clubs pos club.id inputs _
      (inSession_startEdit m clubs pos club hpos
        (clubBounded_nonneg m club (hinv club (List.getElem?_mem hpos)))) hidx hfin
    obtain ⟨⟨e, he, hk, hid, hnn, -, -⟩, -, hoth, ⟨c0, hc0, hc0id⟩⟩ := hs
    have hmem : ∀ c ∈ editSession clubs pos inputs,
        c = e.editData ∨ (c.id ≠ club.id ∧ c ∈ clubs) := by
      intro c hc
      simp only [editSession, saveEditClubs, he, List.mem_map] at hc
      obtain ⟨d, hd, hdc⟩ := hc
      by_cases hdk : d.id = e.editingClub
      · left
        rw [if_pos hdk] at hdc
        exact hdc.symm
      · right
        rw [if_neg hdk] at hdc
        subst hdc
        obtain ⟨i, hi⟩ := List.mem_iff_getElem?.mp hd
        have hne : i ≠ pos := by
          intro hip
          subst hip
          rw [hc0] at hi
          cases hi
          exact hdk (hc0id.trans hk.symm)
        refine ⟨fun hcid => hdk (hcid.trans hk.symm), ?_⟩
        rw [hoth i hne] at hi
        exact List.getElem?_mem hi
    refine ⟨?_, ?_⟩
    · intro c hc
      rcases hmem c hc with rfl | ⟨_, hcm⟩
      · exact hnn
      · exact clubBounded_nonneg m c (hinv c hcm)
    · intro c hc hne
      rcases hmem c hc with rfl | ⟨_, hcm⟩
      · exact absurd hid (hne club rfl)
      · exact hinv c hcm

theorem edit_preserves_nonnegativity_witness :
    Invariant1 3 defaultClubs
      ∧ (∀ input ∈ [EditInput.allocation 0 "8"], ∀ idx : Nat,
          input.index = some idx → idx < 3)
      ∧ (∀ input ∈ [EditInput.allocation 0 "8"], input.writesFinite = true)
      ∧ (∀ c ∈ editSession defaultClubs 0 [.allocation 0 "8"], clubNonneg 3 c = true)
      ∧ ∀ c ∈ editSession defaultClubs 0 [.allocation 0 "8"],
          (∀ edited : Club, defaultClubs[0]? = some edited → c.id ≠ edited.id) →
            clubBounded 3 c = true := by
  have h0 : Invariant1 3 defaultClubs := invariant1_defaultClubs
  have h1 : ∀ input ∈ [EditInput.allocation 0 "8"], ∀ idx : Nat,
      input.index = some idx → idx < 3 := by
    intro input hin idx hidx
    simp only [List.mem_singleton] at hin
    subst hin
    simp only [EditInput.index, Option.some.injEq] at hidx
    omega
  have h2 : ∀ input ∈ [EditInput.allocation 0 "8"], input.writesFinite = true := by
    intro input hin
    simp only [List.mem_singleton] at hin
    subst hin
    decide
  exact ⟨h0, h1, h2, edit_preserves_nonnegativity 3 defaultClubs 0 _ h0 h1 h2⟩

/-! ## `ResourceSetup` -/

theorem vec_of_length_three (xs : Vec) (h : xs.length = 3) :
    ∃ a b c : Cell, xs = [a, b, c] := by
  match xs, h with
  | [a, b, c], _ => exact ⟨a, b, c, rfl⟩

theorem invariant2_total (clubs : List Club) (total : Vec) (h : Invariant2 3 clubs total) :
    ∃ t0 t1 t2 : Int, total = [num t0, num t1, num t2] ∧ allocSum clubs 0 ≤ t0
      ∧ allocSum clubs 1 ≤ t1 ∧ allocSum clubs 2 ≤ t2 := by
  obtain ⟨hlen, hall⟩ := h
  obtain ⟨a, b, c, rfl⟩ := vec_of_length_three total hlen
  obtain ⟨t0, h0, l0⟩ := hall 0 (by omega)
  obtain ⟨t1, h1, l1⟩ := hall 1 (by omega)
  obtain ⟨t2, h2, l2⟩ := hall 2 (by omega)
  simp only [jsGet, List.getElem?_cons_zero, List.getElem?_cons_succ] at h0 h1 h2
  subst h0 h1 h2
  exact ⟨t0, t1, t2, rfl, l0, l1, l2⟩

theorem invariant2_initialState :
    Invariant2 3 initialState.clubs initialState.totalResources := by
  refine ⟨rfl, ?_⟩
  intro j hj
  have hj' : j = 0 ∨ j = 1 ∨ j = 2 := by omega
  rcases hj' with rfl | rfl | rfl
  · exact ⟨10, rfl, by decide⟩
  · exact ⟨5, rfl, by decide⟩
  · exact ⟨7, rfl, by decide⟩

/-- C8 (as stated) fails: the initial state satisfies invariant 2, and
`handleResourceChange(0, "0")` followed by the effect gives
`available = [-5, 4, 5]`. -/
theorem total_change_can_make_available_negative :
    Invariant2 3 initialState.clubs initialState.totalResources
      ∧ (recompute (handleResourceChange 0 "0" initialState)).map (fun s => s.available)
          = some [num (-5), num 4, num 5] :=
  ⟨invariant2_initialState, by decide⟩

/-- C8 (amended). In a state whose allocation vectors are three integers and
that satisfies invariant 2, after `handleResourceChange(index, value)` with
`index < 3` and the effect, the new `total[index]` is the number
`Math.max(0, parseInt(value) || 0)`, `available[j] ≥ 0` for every `j ≠ index`,
and `available[index]` is `total[index] - Σ_club allocation[club][index]`:
when the new total is the finite number `v` it is `v` minus the allocated
sum, which is `≥ 0` exactly when `v` is at least that sum. -/
theorem total_change_available (s : AppState) (index : Nat) (value : String)
    (hal : ∀ c ∈ s.clubs, Alloc3 c) (hinv : Invariant2 3 s.clubs s.totalResources)
    (hidx : index < 3) :
    ∃ s' : AppState, recompute (handleResourceChange index value s) = some s'
      ∧ s'.clubs = s.clubs
      ∧ s'.totalResources = newTotal s.totalResources index value
      ∧ jsGet s'.totalResources index = some (clampInput value)
      ∧ (∀ j : Nat, j < 3 → j ≠ index → ∃ a : Int, jsGet s'.available j = num a ∧ 0 ≤ a)
      ∧ jsGet s'.available index
          = jsSub (some (clampInput value)) (num (allocSum s.clubs index))
      ∧ ∀ v : Int, clampInput value = .fin v →
          jsGet s'.available index = num (v - allocSum s.clubs index)
            ∧ (0 ≤ v - allocSum s.clubs index ↔ allocSum s.clubs index ≤ v) := by
  obtain ⟨t0, t1, t2, ht, l0, l1, l2⟩ := invariant2_total s.clubs s.totalResources hinv
  have hi : index = 0 ∨ index = 1 ∨ index = 2 := by omega
  rcases hi with rfl | rfl | rfl
  · have hnew : newTotal s.totalResources 0 value = [some (clampInput value), num t1, num t2] := by
      simp [newTotal, jsSet, ht]
    refine ⟨{ handleResourceChange 0 value s with
              available := [jsSub (some (clampInput value)) (num (allocSum s.clubs 0)),
                            num (t1 - allocSum s.clubs 1), num (t2 - allocSum s.clubs 2)] },
      ?_, rfl, rfl, ?_, ?_, rfl, ?_⟩
    · simp only [recompute, handleResourceChange, hnew, calcAvailable_cells s.clubs _ _ _ hal]
      rfl
    · simp only [handleResourceChange, hnew]
      rfl
    · intro j hj hne
      have hj' : j = 1 ∨ j = 2 := by omega
      rcases hj' with rfl | rfl
      · exact ⟨_, rfl, sub_nonneg.mpr l1⟩
      · exact ⟨_, rfl, sub_nonneg.mpr l2⟩
    · intro v hv
      rw [hv]
      exact ⟨rfl, sub_nonneg⟩
  · have hnew : newTotal s.totalResources 1 value = [num t0, some (clampInput value), num t2] := by
      simp [newTotal, jsSet, ht]
    refine ⟨{ handleResourceChange 1 value s with
              available := [num (t0 - allocSum s.clubs 0),
                            jsSub (some (clampInput value)) (num (allocSum s.clubs 1)),
                            num (t2 - allocSum s.clubs 2)] },
      ?_, rfl, rfl, ?_, ?_, rfl, ?_⟩
    · simp only [recompute, handleResourceChange, hnew, calcAvailable_cells s.clubs _ _ _ hal]
      rfl
    · simp only [handleResourceChange, hnew]
      rfl
    · intro j hj hne
      have hj' : j = 0 ∨ j = 2 := by omega
      rcases hj' with rfl | rfl
      · exact ⟨_, rfl, sub_nonneg.mpr l0⟩
      · exact ⟨_, rfl, sub_nonneg.mpr l2⟩
    · intro v hv
      rw [hv]
      exact ⟨rfl, sub_nonneg⟩
  · have hnew : newTotal s.totalResources 2 value = [num t0, num t1, some (clampInput value)] := by
      simp [newTotal, jsSet, ht]
    refine ⟨{ handleResourceChange 2 value s with
              available := [num (t0 - allocSum s.clubs 0), num (t1 - allocSum s.clubs 1),
                            jsSub (some (clampInput value)) (num (allocSum s.clubs 2))] },
      ?_, rfl, rfl, ?_, ?_, rfl, ?_⟩
    · simp only [recompute, handleResourceChange, hnew, calcAvailable_cells s.clubs _ _ _ hal]
      rfl
    · simp only [handleResourceChange, hnew]
      rfl
    · intro j hj hne
      have hj' : j = 0 ∨ j = 1 := by omega
      rcases hj' with rfl | rfl
      · exact ⟨_, rfl, sub_nonneg.mpr l0⟩
      · exact ⟨_, rfl, sub_nonneg.mpr l1⟩
    · intro v hv
      rw [hv]
      exact ⟨rfl, sub_nonneg⟩

theorem total_change_available_witness :
    (∀ c ∈ initialState.clubs, Alloc3 c)
      ∧ Invariant2 3 initialState.clubs initialState.totalResources
      ∧ (0 : Nat) < 3
      ∧ ∃ s' : AppState, recompute (handleResourceChange 0 "0" initialState) = some s'
          ∧ s'.clubs = initialState.clubs
          ∧ s'.totalResources = newTotal initialState.totalResources 0 "0"
          ∧ jsGet s'.totalResources 0 = some (clampInput "0")
          ∧ (∀ j : Nat, j < 3 → j ≠ 0 → ∃ a : Int, jsGet s'.available j = num a ∧ 0 ≤ a)
          ∧ jsGet s'.available 0
              = jsSub (some (clampInput "0")) (num (allocSum initialState.clubs 0))
          ∧ ∀ v : Int, clampInput "0" = .fin v →
              jsGet s'.available 0 = num (v - allocSum initialState.clubs 0)
                ∧ (0 ≤ v - allocSum initialState.clubs 0
                    ↔ allocSum initialState.clubs 0 ≤ v) :=
  ⟨alloc3_defaultClubs, invariant2_initialState, by decide,
    total_change_available initialState 0 "0" alloc3_defaultClubs invariant2_initialState
      (by decide)⟩

/-! ## Club ids -/

theorem map_jsMapFrom_const {α β γ : Type} (f : α → Nat → β) (g : β → γ) (h : α → γ)
    (hf : ∀ x i, g (f x i) = h x) (k : Nat) (xs : List α) :
    (jsMapFrom f k xs).map g = xs.map h := by
  induction xs generalizing k with
  | nil => rfl
  | cons x xs ih => simp [jsMapFrom, hf, ih]

theorem map_jsMapFrom_index {α β : Type} (f : α → Nat → β) (g : β → Nat)
    (hf : ∀ x i, g (f x i) = i) (k : Nat) (xs : List α) :
    (jsMapFrom f k xs).map g = List.range' k xs.length := by
  induction xs generalizing k with
  | nil => rfl
  | cons x xs ih => simp [jsMapFrom, hf, ih, List.range'_succ]

theorem idsOf_updatedClubs (clubs : List Club) (rows : List Vec) :
    idsOf (updatedClubs clubs rows) = idsOf clubs := by
  unfold idsOf updatedClubs jsMap
  apply map_jsMapFrom_const
  intro _ _
  rfl

theorem idsAreIndices_loadedClubs (scenarioData : ScenarioData) :
    IdsAreIndices (loadedClubs scenarioData) := by
  unfold IdsAreIndices idsOf loadedClubs jsMap
  rw [map_jsMapFrom_index _ _ (fun _ _ => rfl), jsMapFrom_length, List.range_eq_range']

theorem idsAreIndices_defaultClubs : IdsAreIndices defaultClubs := by
  unfold IdsAreIndices
  decide

theorem idsAreIndices_of_idsOf_eq (clubs clubs' : List Club) (h : idsOf clubs' = idsOf clubs)
    (hc : IdsAreIndices clubs) : IdsAreIndices clubs' := by
  unfold IdsAreIndices at hc ⊢
  have hlen : clubs'.length = clubs.length := by
    have := congrArg List.length h
    simpa [idsOf] using this
  rw [h, hc, hlen]

theorem idsOf_set (clubs : List Club) (p : Nat) (club club' : Club)
    (h : clubs[p]? = some club) (hid : club'.id = club.id) :
    idsOf (clubs.set p club') = idsOf clubs := by
  unfold idsOf
  apply List.ext_getElem?
  intro i
  simp only [List.getElem?_map, List.getElem?_set]
  by_cases hip : p = i
  · subst hip
    have hlt : p < clubs.length := (List.getElem?_eq_some_iff.mp h).1
    simp [hlt, h, hid]
  · simp [hip]

theorem idsOf_writeMaxNeed (clubs : List Club) (pos : Option Nat) (arr : Vec) :
    idsOf (writeMaxNeed clubs pos arr) = idsOf clubs := by
  cases pos with
  | none => rfl
  | some p =>
    cases h : clubs[p]? with
    | none => simp [writeMaxNeed, h]
    | some club =>
      simp only [writeMaxNeed, h]
      exact idsOf_set clubs p club _ h rfl

theorem idsOf_writeAllocation (clubs : List Club) (pos : Option Nat) (arr : Vec) :
    idsOf (writeAllocation clubs pos arr) = idsOf clubs := by
  cases pos with
  | none => rfl
  | some p =>
    cases h : clubs[p]? with
    | none => simp [writeAllocation, h]
    | some club =>
      simp only [writeAllocation, h]
      exact idsOf_set clubs p club _ h rfl

theorem idsOf_saveEditClubs (m : ClubManager)
    (h : ∀ e : EditState, m.editing = some e → e.editData.id = e.editingClub) :
    idsOf (saveEditClubs m) = idsOf m.clubs := by
  unfold saveEditClubs
  cases he : m.editing with
  | none => rfl
  | some e =>
    simp only [idsOf, List.map_map]
    apply List.map_congr_left
    intro club _
    simp only [Function.comp]
    split
    · rename_i hk
      rw [h e he, hk]
    · rfl

theorem recompute_frame (s a : AppState) (h : recompute s = some a) :
    a.clubs = s.clubs ∧ a.totalResources = s.totalResources := by
  unfold recompute at h
  split at h
  · exact absurd h (by simp)
  · simp only [Option.some.injEq] at h
    rw [← h]
    exact ⟨rfl, rfl⟩

theorem idsOf_handleRunBankers (api : RequestData → ApiOutcome) (logs : LogsOutcome)
    (s : AppState) : idsOf (handleRunBankers api logs s).clubs = idsOf s.clubs := by
  unfold handleRunBankers
  cases api (requestData s) with
  | rejected err => rfl
  | resolved r =>
    cases r with
    | none => rfl
    | some response =>
      simp only [applyRunResponse]
      cases response.safe <;> cases hrows : response.new_allocation <;>
        cases logs with
        | resolved l => cases l <;> first | rfl | exact idsOf_updatedClubs _ _
        | rejected => first | rfl | exact idsOf_updatedClubs _ _

theorem idsOf_runBankers (api : RequestData → ApiOutcome) (logs : LogsOutcome)
    (s a : AppState) (h : runBankers api logs s = some a) : idsOf a.clubs = idsOf s.clubs := by
  unfold runBankers at h
  split at h
  · rw [(recompute_frame _ _ h).1]
    exact idsOf_handleRunBankers api logs s
  · simp only [Option.some.injEq] at h
    rw [← h]
    exact idsOf_handleRunBankers api logs s

theorem editData_id_startEdit (pos : Nat) (m : ClubManager)
    (h : ∀ e : EditState, m.editing = some e → e.editData.id = e.editingClub) :
    ∀ e : EditState, (startEdit pos m).editing = some e → e.editData.id = e.editingClub := by
  unfold startEdit
  cases m.clubs[pos]? with
  | none => exact h
  | some club =>
    intro e he
    simp only [Option.some.injEq] at he
    rw [← he]

theorem updateEditField_ids (input : EditInput) (m : ClubManager)
    (h : ∀ e : EditState, m.editing = some e → e.editData.id = e.editingClub) :
    idsOf (updateEditField input m).clubs = idsOf m.clubs
      ∧ ∀ e : EditState, (updateEditField input m).editing = some e →
          e.editData.id = e.editingClub := by
  cases he : m.editing with
  | none =>
    have : updateEditField input m = m := by simp only [updateEditField, he]
    rw [this]
    exact ⟨rfl, h⟩
  | some e0 =>
    have h0 := h e0 he
    cases input with
    | name value =>
      simp only [updateEditField, he]
      refine ⟨trivial, ?_⟩
      intro e hee
      simp only [Option.some.injEq] at hee
      rw [← hee]
      exact h0
    | maxNeed idx value =>
      cases harr : e0.editData.maxNeed with
      | none =>
        have hsame : updateEditField (.maxNeed idx value) m = m := by
          simp only [updateEditField, he, harr]
        rw [hsame]
        exact ⟨rfl, h⟩
      | some arr =>
        simp only [updateEditField, he, harr]
        refine ⟨idsOf_writeMaxNeed _ _ _, ?_⟩
        intro e hee
        simp only [Option.some.injEq] at hee
        rw [← hee]
        exact h0
    | allocation idx value =>
      cases harr : e0.editData.allocation with
      | none =>
        have hsame : updateEditField (.allocation idx value) m = m := by
          simp only [updateEditField, he, harr]
        rw [hsame]
        exact ⟨rfl, h⟩
      | some arr =>
        simp only [updateEditField, he, harr]
        refine ⟨idsOf_writeAllocation _ _ _, ?_⟩
        intro e hee
        simp only [Option.some.injEq] at hee
        rw [← hee]
        exact h0

theorem editData_id_afterGrant (editing : Option EditState)
    (h : ∀ e : EditState, editing = some e → e.editData.id = e.editingClub) :
    ∀ e : EditState, afterGrant editing = some e → e.editData.id = e.editingClub := by
  intro e he
  cases editing with
  | none => simp [afterGrant] at he
  | some e0 =>
    simp only [afterGrant, Option.map_some', Option.some.injEq] at he
    rw [← he]
    exact h e0 rfl

theorem editData_id_afterReplace (editing : Option EditState)
    (h : ∀ e : EditState, editing = some e → e.editData.id = e.editingClub) :
    ∀ e : EditState, afterReplace editing = some e → e.editData.id = e.editingClub := by
  intro e he
  cases editing with
  | none => simp [afterReplace] at he
  | some e0 =>
    simp only [afterReplace, Option.map_some', Option.some.injEq] at he
    rw [← he]
    exact h e0 rfl

theorem idInvariant_step (c c' : Client) (ev : Event) (hc : IdInvariant c)
    (h : step c ev = some c') : IdInvariant c' := by
  obtain ⟨hids, hed⟩ := hc
  cases ev with
  | runBankers api logs =>
    simp only [step, Option.map_eq_some'] at h
    obtain ⟨a, ha, rfl⟩ := h
    refine ⟨idsAreIndices_of_idsOf_eq _ _ (idsOf_runBankers api logs _ _ ha) hids, ?_⟩
    simp only
    split
    · exact editData_id_afterGrant _ hed
    · exact hed
  | checkSafety api =>
    simp only [step, Option.some.injEq] at h
    subst h
    refine ⟨?_, hed⟩
    have : (handleCheckSafety api c.app).clubs = c.app.clubs := by
      unfold handleCheckSafety
      cases api (safetyData c.app) <;> rfl
    simp only [this]
    exact hids
  | loadScenario scenarioData =>
    simp only [step, Option.map_eq_some'] at h
    obtain ⟨a, ha, rfl⟩ := h
    refine ⟨?_, editData_id_afterReplace _ hed⟩
    simp only [(recompute_frame _ _ ha).1]
    exact idsAreIndices_loadedClubs scenarioData
  | reset =>
    simp only [step, Option.map_eq_some'] at h
    obtain ⟨a, ha, rfl⟩ := h
    refine ⟨?_, editData_id_afterReplace _ hed⟩
    simp only [(recompute_frame _ _ ha).1]
    exact idsAreIndices_defaultClubs
  | resourceChange index value =>
    simp only [step, Option.map_eq_some'] at h
    obtain ⟨a, ha, rfl⟩ := h
    refine ⟨?_, hed⟩
    simp only [(recompute_frame _ _ ha).1]
    exact hids
  | requestChange index value =>
    simp only [step, Option.some.injEq] at h
    subst h
    exact ⟨hids, hed⟩
  | selectClub id =>
    simp only [step, Option.some.injEq] at h
    subst h
    exact ⟨hids, hed⟩
  | fetchLogs logs =>
    simp only [step, Option.some.injEq] at h
    subst h
    refine ⟨?_, hed⟩
    have : (fetchLogs logs c.app).clubs = c.app.clubs := by
      unfold fetchLogs
      cases logs with
      | resolved l => cases l <;> rfl
      | rejected => rfl
    simp only [this]
    exact hids
  | dismissError =>
    simp only [step, Option.some.injEq] at h
    subst h
    exact ⟨hids, hed⟩
  | startEdit pos =>
    simp only [step, Option.some.injEq] at h
    subst h
    refine ⟨?_, editData_id_startEdit pos c.manager hed⟩
    have : (startEdit pos c.manager).clubs = c.app.clubs := by
      unfold startEdit
      cases c.manager.clubs[pos]? <;> rfl
    simp only [Client.withManager, this]
    exact hids
  | updateEditField input =>
    simp only [step, Option.some.injEq] at h
    subst h
    obtain ⟨h1, h2⟩ := updateEditField_ids input c.manager hed
    exact ⟨idsAreIndices_of_idsOf_eq _ _ h1 hids, h2⟩
  | cancelEdit =>
    simp only [step, Option.some.injEq] at h
    subst h
    exact ⟨hids, fun e he => by simp [Client.withManager, cancelEdit] at he⟩
  | saveEdit =>
    simp only [step, Option.map_eq_some'] at h
    obtain ⟨a, ha, rfl⟩ := h
    refine ⟨?_, fun e he => by simp at he⟩
    simp only [(recompute_frame _ _ ha).1]
    exact idsAreIndices_of_idsOf_eq _ _ (idsOf_saveEditClubs c.manager hed) hids

theorem idInvariant_of_reachable (c : Client) (h : Reachable c) : IdInvariant c := by
  induction h with
  | init => exact ⟨idsAreIndices_defaultClubs, fun e he => by simp [initialClient] at he⟩
  | mount ha =>
    refine ⟨?_, fun e he => by simp at he⟩
    simp only [(recompute_frame _ _ ha).1]
    exact idsAreIndices_defaultClubs
  | step ev _ hstep ih => exact idInvariant_step _ _ ev ih hstep

/-- C9. In every state the client reaches, the club at position `i` has id
`i`, so the ids are pairwise distinct; and neither `saveEdit` nor
`handleRunBankers` (granted or not) changes the id at any position. -/
theorem club_ids_unique_and_stable (c : Client) (h : Reachable c) :
    (∀ (i : Nat) (club : Club), c.app.clubs[i]? = some club → club.id = i)
      ∧ (idsOf c.app.clubs).Nodup
      ∧ (∀ c' : Client, step c .saveEdit = some c' → idsOf c'.app.clubs = idsOf c.app.clubs)
      ∧ ∀ (api : RequestData → ApiOutcome) (logs : LogsOutcome) (c' : Client),
          step c (.runBankers api logs) = some c' → idsOf c'.app.clubs = idsOf c.app.clubs := by
  obtain ⟨hids, hed⟩ := idInvariant_of_reachable c h
  refine ⟨?_, ?_, ?_, ?_⟩
  · intro i club hi
    have h1 : (idsOf c.app.clubs)[i]? = some club.id := by
      simp [idsOf, List.getElem?_map, hi]
    have hlt : i < c.app.clubs.length := (List.getElem?_eq_some_iff.mp hi).1
    rw [hids, List.getElem?_range hlt] at h1
    simp only [Option.some.injEq] at h1
    exact h1.symm
  · rw [hids]
    exact List.nodup_range _
  · intro c' hs
    simp only [step, Option.map_eq_some'] at hs
    obtain ⟨a, ha, rfl⟩ := hs
    simp only [(recompute_frame _ _ ha).1]
    exact idsOf_saveEditClubs c.manager hed
  · intro api logs c' hs
    simp only [step, Option.map_eq_some'] at hs
    obtain ⟨a, ha, rfl⟩ := hs
    exact idsOf_runBankers api logs _ _ ha

theorem reachable_savedClient : Reachable savedClient := by
  have h1 : step initialClient (.startEdit 0) = some editingClient := by decide
  have h2 : step editingClient (.updateEditField (.allocation 0 "8")) = some typedClient := by
    decide
  have h3 : step typedClient .saveEdit = some savedClient := by decide
  exact Reachable.step _ (Reachable.step _ (Reachable.step _ Reachable.init h1) h2) h3

theorem club_ids_unique_and_stable_witness :
    Reachable savedClient
      ∧ (∀ (i : Nat) (club : Club), savedClient.app.clubs[i]? = some club → club.id = i)
      ∧ (idsOf savedClient.app.clubs).Nodup
      ∧ (∀ c' : Client, step savedClient .saveEdit = some c' →
          idsOf c'.app.clubs = idsOf savedClient.app.clubs)
      ∧ ∀ (api : RequestData → ApiOutcome) (logs : LogsOutcome) (c' : Client),
          step savedClient (.runBankers api logs) = some c' →
            idsOf c'.app.clubs = idsOf savedClient.app.clubs :=
  ⟨reachable_savedClient, club_ids_unique_and_stable savedClient reachable_savedClient⟩

/-! ## Scenario load and reset -/

/-- C11 (the code diverges). `handleLoadScenario` stores the scenario's
`available` both as `totalResources` and as `available`; the effect that
follows replaces `available` by `totalResources - allocated`.  For the sample
scenario, whose `available` is `[3, 3, 2]`, the client then holds, and the
next `checkSafety` sends, `[-2, 2, 0]`. -/
theorem load_scenario_available_diverges :
    sampleScenario.available = [num 3, num 3, num 2]
      ∧ (handleLoadScenario sampleScenario initialState).available = sampleScenario.available
      ∧ (step initialClient (.loadScenario sampleScenario)).map
            (fun c => (c.app.available, (safetyData c.app).available))
          = some ([num (-2), num 2, num 0], [num (-2), num 2, num 0]) := by
  decide

/-- C12. `handleLoadScenario(s)` replaces the club list by one club per
allocation row of `s`, club `i` being
`{id: i, name: s.club_names[i], maxNeed: s.max_need[i], allocation: s.allocation[i]}`;
`numClubs` is the number of rows, `result` and `error` are cleared, the new
list does not depend on the previous state, and the effect that follows
keeps it. -/
theorem load_scenario_replaces_clubs (scenarioData : ScenarioData) (s : AppState) :
    (handleLoadScenario scenarioData s).clubs.length = scenarioData.allocation.length
      ∧ (∀ (i : Nat) (alloc : Vec), scenarioData.allocation[i]? = some alloc →
          (handleLoadScenario scenarioData s).clubs[i]?
            = some { id := i, name := scenarioData.club_names[i]?,
                     maxNeed := scenarioData.max_need[i]?, allocation := some alloc })
      ∧ (handleLoadScenario scenarioData s).numClubs = scenarioData.allocation.length
      ∧ (handleLoadScenario scenarioData s).result = none
      ∧ (handleLoadScenario scenarioData s).error = none
      ∧ (∀ previous : AppState,
          (handleLoadScenario scenarioData previous).clubs
            = (handleLoadScenario scenarioData s).clubs)
      ∧ ∀ s' : AppState, recompute (handleLoadScenario scenarioData s) = some s' →
          s'.clubs = (handleLoadScenario scenarioData s).clubs
            ∧ s'.numClubs = scenarioData.allocation.length
            ∧ s'.result = none ∧ s'.error = none := by
  refine ⟨?_, ?_, ?_, rfl, rfl, fun _ => rfl, ?_⟩
  · simp [handleLoadScenario, loadedClubs, jsMap_length]
  · intro i alloc hi
    simp [handleLoadScenario, loadedClubs, jsMap_getElem?, hi]
  · simp [handleLoadScenario, loadedClubs, jsMap_length]
  · intro s' hs'
    unfold recompute at hs'
    split at hs'
    · exact absurd hs' (by simp)
    · simp only [Option.some.injEq] at hs'
      subst hs'
      refine ⟨rfl, ?_, rfl, rfl⟩
      simp [handleLoadScenario, loadedClubs, jsMap_length]

/-- C13. The default state of `App` is concrete scenario 1: total
`[10, 5, 7]`, clubs with max `[7,5,3]`, `[3,2,2]`, `[9,0,2]` and allocation
`[0,1,0]`, `[2,0,0]`, `[3,0,2]`; the effect yields `available = [5, 4, 5]`,
the need matrix has first row `[7, 4, 3]` and third row `[6, 0, 0]`, and
invariants 1 and 2 hold. -/
theorem default_state_is_scenario1 :
    initialState.totalResources = [num 10, num 5, num 7]
      ∧ initialState.clubs.map (fun club => (club.maxNeed, club.allocation))
          = [ (some [num 7, num 5, num 3], some [num 0, num 1, num 0]),
              (some [num 3, num 2, num 2], some [num 2, num 0, num 0]),
              (some [num 9, num 0, num 2], some [num 3, num 0, num 2]) ]
      ∧ (recompute initialState).map (fun s => s.available) = some [num 5, num 4, num 5]
      ∧ (needMatrix initialState.clubs).map (fun rows => (rows[0]?, rows[2]?))
          = some (some [num 7, num 4, num 3], some [num 6, num 0, num 0])
      ∧ Invariant1 3 initialState.clubs
      ∧ Invariant2 3 initialState.clubs initialState.totalResources :=
  ⟨rfl, rfl, by decide, by decide, invariant1_defaultClubs, invariant2_initialState⟩

theorem recompute_handleReset (s : AppState) :
    recompute (handleReset s)
      = some { s with clubs := defaultClubs
                      numClubs := 3
                      totalResources := [num 10, num 5, num 7]
                      available := [num 5, num 4, num 5]
                      requestResources := [num 0, num 0, num 0]
                      selectedClub := 0
                      result := none
                      error := none } := by
  have h : calcAvailable defaultClubs [num 10, num 5, num 7]
      = some [num 5, num 4, num 5] := by decide
  simp only [recompute, handleReset, h]

/-- C14. From any state, `handleReset` followed by the effect gives the
values of the initial state after its first run of the effect for `clubs`,
`numClubs`, `totalResources`, `available`, `requestResources`,
`selectedClub`, `result` and `error` (three default clubs, total `[10,5,7]`,
available `[5,4,5]`, request `[0,0,0]`, club 0, no result, no error), and a
second reset gives the same state as the first. -/
theorem reset_returns_to_default (s : AppState) :
    recompute initialState = some mountedState
      ∧ ∃ s' : AppState, recompute (handleReset s) = some s'
          ∧ s'.clubs = mountedState.clubs ∧ s'.numClubs = mountedState.numClubs
          ∧ s'.totalResources = mountedState.totalResources
          ∧ s'.available = mountedState.available
          ∧ s'.requestResources = mountedState.requestResources
          ∧ s'.selectedClub = mountedState.selectedClub
          ∧ s'.result = mountedState.result ∧ s'.error = mountedState.error
          ∧ s'.clubs = defaultClubs ∧ s'.numClubs = 3
          ∧ s'.totalResources = [num 10, num 5, num 7]
          ∧ s'.available = [num 5, num 4, num 5]
          ∧ s'.requestResources = [num 0, num 0, num 0]
          ∧ s'.selectedClub = 0 ∧ s'.result = none ∧ s'.error = none
          ∧ recompute (handleReset s') = some s' := by
  refine ⟨by decide, _, recompute_handleReset s, rfl, rfl, rfl, rfl, rfl, rfl, rfl, rfl,
    rfl, rfl, rfl, rfl, rfl, rfl, rfl, rfl, ?_⟩
  rw [recompute_handleReset]

/-! ## `LogViewer` -/

theorem read_append_of_lt (store : ArrayStore) (extra : List LogEntry) (r : Nat)
    (h : r < store.length) : ArrayStore.read (store ++ [extra]) r = store.read r := by
  simp [ArrayStore.read, List.getElem?_append_left h]

theorem read_append_length (store : ArrayStore) (extra : List LogEntry) :
    ArrayStore.read (store ++ [extra]) store.length = extra := by
  simp [ArrayStore.read]

/-- The method `reverse` changes the array it is called on, and no other. -/
theorem jsReverse_read (store : ArrayStore) (arr : Nat) (h : arr < store.length) :
    (jsReverse store arr).1.read arr = (store.read arr).reverse
      ∧ ∀ r : Nat, r ≠ arr → (jsReverse store arr).1.read r = store.read r := by
  constructor
  · simp [jsReverse, ArrayStore.read, h]
  · intro r hr
    simp [jsReverse, ArrayStore.read, List.getElem?_set, Ne.symm hr]

theorem jsReverse_jsSlice (store : ArrayStore) (arr : Nat) :
    jsReverse (jsSlice store arr).1 (jsSlice store arr).2
      = (store ++ [(store.read arr).reverse], store.length) := by
  simp [jsReverse, jsSlice, read_append_length]

theorem logViewer_nonempty (store : ArrayStore) (logs : Nat)
    (h : (store.read logs).length ≠ 0) :
    logViewer true store logs
      = { badge := (store.read logs).length
          rows := some (jsMap (fun log idx => { key := idx, log := log })
            (store.read logs).reverse)
          store := store ++ [(store.read logs).reverse] } := by
  simp only [logViewer, if_true, if_neg h, jsReverse_jsSlice, read_append_length]

/-- C15. `LogViewer` shows the log newest first.  For the array `logs` of the
store, of length `n`: the count badge shows `n`; the render leaves `logs`,
and every array the store held, with its elements in their order; when the
list is not empty the store after the render is the old one with one new
array, the copy made by `slice`, which is the array `reverse` reversed;
while the panel is expanded (its initial state) the list shows the entries
of `logs` in reverse; and whenever a list is rendered it has `n` elements,
the one at display position `i` showing `logs[n-1-i]` with key `i`. -/
theorem log_viewer_shows_newest_first (expanded : Bool) (store : ArrayStore) (logs : Nat)
    (hlogs : logs < store.length) :
    (logViewer expanded store logs).badge = (store.read logs).length
      ∧ (logViewer expanded store logs).store.read logs = store.read logs
      ∧ (∀ r : Nat, r < store.length →
          (logViewer expanded store logs).store.read r = store.read r)
      ∧ ((store.read logs).length ≠ 0 →
          (logViewer initialExpanded store logs).store
            = store ++ [(store.read logs).reverse])
      ∧ (∃ rows : List LogRow, (logViewer initialExpanded store logs).rows = some rows
          ∧ rows.map (fun row => row.log) = (store.read logs).reverse)
      ∧ ∀ rows : List LogRow, (logViewer expanded store logs).rows = some rows →
          rows.length = (store.read logs).length
            ∧ ∀ i : Nat, i < (store.read logs).length →
                ∃ log : LogEntry, (store.read logs)[(store.read logs).length - 1 - i]? = some log
                  ∧ rows[i]? = some { key := i, log := log } := by
  have hbadge : (logViewer expanded store logs).badge = (store.read logs).length := by
    unfold logViewer
    split
    · split <;> rfl
    · rfl
  have hstore : ∀ e : Bool, ∀ r : Nat, r < store.length →
      (logViewer e store logs).store.read r = store.read r := by
    intro e r hr
    by_cases hn : (store.read logs).length = 0
    · cases e <;> simp [logViewer, hn]
    · cases e with
      | false => simp [logViewer]
      | true =>
        rw [logViewer_nonempty store logs hn]
        exact read_append_of_lt store _ r hr
  have hrows : ∀ e : Bool, (logViewer e store logs).rows
      = if e then some (jsMap (fun log idx => { key := idx, log := log })
          (store.read logs).reverse) else none := by
    intro e
    by_cases hn : (store.read logs).length = 0
    · have hnil : store.read logs = [] := List.length_eq_zero.mp hn
      cases e <;> simp [logViewer, hnil, jsMap, jsMapFrom]
    · cases e with
      | false => simp [logViewer]
      | true => rw [logViewer_nonempty store logs hn]; rfl
  refine ⟨hbadge, hstore expanded logs hlogs, hstore expanded, ?_, ?_, ?_⟩
  · intro hn
    rw [initialExpanded, logViewer_nonempty store logs hn]
  · refine ⟨_, hrows initialExpanded, ?_⟩
    apply List.ext_getElem?
    intro i
    simp only [initialExpanded, if_true, List.getElem?_map, jsMap_getElem?, Option.map_map]
    cases (store.read logs).reverse[i]? <;> rfl
  · intro rows hr
    rw [hrows] at hr
    cases expanded with
    | false => simp at hr
    | true =>
      simp only [if_true, Option.some.injEq] at hr
      subst hr
      refine ⟨by rw [jsMap_length, List.length_reverse], ?_⟩
      intro i hi
      refine ⟨(store.read logs)[(store.read logs).length - 1 - i], ?_, ?_⟩
      · exact List.getElem?_eq_getElem (by omega)
      · rw [jsMap_getElem?, List.getElem?_reverse hi, List.getElem?_eq_getElem (by omega)]
        rfl


theorem log_viewer_shows_newest_first_witness :
    (0 : Nat) < [[olderEntry, newerEntry]].length
      ∧ (logViewer true [[olderEntry, newerEntry]] 0).badge = 2
      ∧ (logViewer true [[olderEntry, newerEntry]] 0).rows
          = some [{ key := 0, log := newerEntry }, { key := 1, log := olderEntry }]
      ∧ (logViewer true [[olderEntry, newerEntry]] 0).store.read 0 = [olderEntry, newerEntry] := by
  have h := log_viewer_shows_newest_first true [[olderEntry, newerEntry]] 0 (by decide)
  exact ⟨by decide, h.1, by decide, h.2.1⟩


theorem run_total (api : RequestData → ApiOutcome) (logs : LogsOutcome) (s : AppState) :
    (handleRunBankers api logs s).totalResources = s.totalResources := by
  unfold handleRunBankers
  cases api (requestData s) with
  | rejected err => rfl
  | resolved r =>
    cases r with
    | none => rfl
    | some response =>
      simp only [applyRunResponse]
      cases response.safe <;> cases response.new_allocation <;>
        cases logs with
        | resolved l => cases l <;> rfl
        | rejected => rfl

/-! ## Denial and error in `handleRunBankers` -/

theorem handleRunBankers_rejected (api : RequestData → ApiOutcome) (logs : LogsOutcome)
    (s : AppState) (err : ApiError) (h : api (requestData s) = .rejected err) :
    handleRunBankers api logs s
      = { s with
          result := none, loading := false
          error := some (errorText err "An error occurred while processing the request") } := by
  simp only [handleRunBankers, h]

theorem handleRunBankers_denied (api : RequestData → ApiOutcome) (logs : LogsOutcome)
    (s : AppState) (response : Response)
    (h : api (requestData s) = .resolved (some response)) (hsafe : response.safe = false) :
    (handleRunBankers api logs s).result = some response
      ∧ (handleRunBankers api logs s).error = none
      ∧ (handleRunBankers api logs s).loading = false := by
  cases logs with
  | resolved l => cases l <;> simp [handleRunBankers, h, applyRunResponse, hsafe, fetchLogs]
  | rejected => simp [handleRunBankers, h, applyRunResponse, hsafe, fetchLogs]

theorem errorText_cases (err : ApiError) (fallback : String) :
    (∀ msg : String, err.error = some msg → msg ≠ "" → errorText err fallback = msg)
      ∧ (err.error = none ∨ err.error = some "" → errorText err fallback = fallback) := by
  unfold errorText
  constructor
  · intro msg hmsg hne
    simp [hmsg, hne]
  · intro h
    rcases h with h | h <;> simp [h]

/-- C16. The client keeps a denial apart from an error.  When the call
resolves with a response whose `safe` is false, `handleRunBankers` ends with
`result` that response and `error = null`.  When the call throws `e`, it ends
with `result = null`, `clubs` unchanged and `error` a string: `e.error` if
that is truthy, otherwise `An error occurred while processing the request`.
`loading` is false at the end in both cases.  A failure without a response
body reaches the handler as the default object of `api.js`, whose `error`
is shown. -/
theorem denial_is_not_an_error (api : RequestData → ApiOutcome) (logs : LogsOutcome)
    (s : AppState) :
    (∀ response : Response, api (requestData s) = .resolved (some response) →
        response.safe = false →
          (handleRunBankers api logs s).result = some response
            ∧ (handleRunBankers api logs s).error = none
            ∧ (handleRunBankers api logs s).loading = false)
      ∧ (∀ e : ApiError, api (requestData s) = .rejected e →
          (handleRunBankers api logs s).result = none
            ∧ (handleRunBankers api logs s).clubs = s.clubs
            ∧ (handleRunBankers api logs s).error
                = some (errorText e "An error occurred while processing the request")
            ∧ (handleRunBankers api logs s).error ≠ none
            ∧ (∀ msg : String, e.error = some msg → msg ≠ "" →
                (handleRunBankers api logs s).error = some msg)
            ∧ (e.error = none ∨ e.error = some "" →
                (handleRunBankers api logs s).error
                  = some "An error occurred while processing the request")
            ∧ (handleRunBankers api logs s).loading = false)
      ∧ (handleRunBankers (fun _ => runBankersAlgorithm (.failed none)) logs s).error
          = some "Failed to run Banker\x27s Algorithm" := by
  refine ⟨?_, ?_, ?_⟩
  · intro response h hsafe
    exact handleRunBankers_denied api logs s response h hsafe
  · intro e h
    rw [handleRunBankers_rejected api logs s e h]
    obtain ⟨h1, h2⟩ := errorText_cases e "An error occurred while processing the request"
    refine ⟨rfl, rfl, rfl, by simp, ?_, ?_, rfl⟩
    · intro msg hmsg hne
      simp only [h1 msg hmsg hne]
    · intro hcase
      simp only [h2 hcase]
  · rw [handleRunBankers_rejected _ logs s _ rfl]
    rfl

theorem denial_is_not_an_error_witness :
    (handleRunBankers denyAll .rejected initialState).result.map (fun r => r.safe) = some false
      ∧ (handleRunBankers denyAll .rejected initialState).error = none
      ∧ (handleRunBankers (fun _ => .rejected { error := none }) .rejected initialState).error
          = some "An error occurred while processing the request" := by
  have h := denial_is_not_an_error denyAll .rejected initialState
  have h' := denial_is_not_an_error (fun _ => .rejected { error := none }) .rejected
    initialState
  obtain ⟨hres, herr, _⟩ := h.1 _ rfl rfl
  refine ⟨?_, herr, ?_⟩
  · rw [hres]
    rfl
  · exact (h'.2.1 _ rfl).2.2.2.2.2.1 (Or.inl rfl)

/-! ## The available vector after a grant -/

theorem updatedClubs_allocationWith (clubs : List Club) (k : Nat) (r : Vec) :
    updatedClubs clubs (allocationWith clubs k r) = jsMap (grantedClub k r) clubs := by
  apply List.ext_getElem?
  intro i
  simp only [updatedClubs, allocationWith, jsMap_getElem?]
  cases h : clubs[i]? with
  | none => rfl
  | some club => simp [grantedClub]

theorem grantedClub_entries (k : Nat) (r0 r1 r2 : Int) (club : Club) (idx : Nat)
    (h : Alloc3 club) :
    Alloc3 (grantedClub k [num r0, num r1, num r2] club idx)
      ∧ allocEntry (grantedClub k [num r0, num r1, num r2] club idx) 0
          = allocEntry club 0 + (if idx = k then r0 else 0)
      ∧ allocEntry (grantedClub k [num r0, num r1, num r2] club idx) 1
          = allocEntry club 1 + (if idx = k then r1 else 0)
      ∧ allocEntry (grantedClub k [num r0, num r1, num r2] club idx) 2
          = allocEntry club 2 + (if idx = k then r2 else 0) := by
  obtain ⟨a0, a1, a2, ha⟩ := h
  by_cases hk : idx = k
  · subst hk
    have hg : (grantedClub idx [num r0, num r1, num r2] club idx).allocation
        = some [num (a0 + r0), num (a1 + r1), num (a2 + r2)] := by
      simp [grantedClub, ha, addRequest, jsMap, jsMapFrom, jsAdd, jsGet]
    refine ⟨⟨_, _, _, hg⟩, ?_, ?_, ?_⟩ <;> simp [allocEntry, hg, ha, jsGet]
  · have hg : (grantedClub k [num r0, num r1, num r2] club idx).allocation
        = some [num a0, num a1, num a2] := by
      simp [grantedClub, hk, ha]
    refine ⟨⟨_, _, _, hg⟩, ?_, ?_, ?_⟩ <;> simp [allocEntry, hg, ha, jsGet, hk]

theorem allocSum_jsMapFrom_grantedClub (k : Nat) (r0 r1 r2 : Int) (clubs : List Club)
    (h : ∀ c ∈ clubs, Alloc3 c) (off : Nat) :
    (∀ c ∈ jsMapFrom (grantedClub k [num r0, num r1, num r2]) off clubs, Alloc3 c)
      ∧ allocSum (jsMapFrom (grantedClub k [num r0, num r1, num r2]) off clubs) 0
          = allocSum clubs 0 + (if off ≤ k ∧ k < off + clubs.length then r0 else 0)
      ∧ allocSum (jsMapFrom (grantedClub k [num r0, num r1, num r2]) off clubs) 1
          = allocSum clubs 1 + (if off ≤ k ∧ k < off + clubs.length then r1 else 0)
      ∧ allocSum (jsMapFrom (grantedClub k [num r0, num r1, num r2]) off clubs) 2
          = allocSum clubs 2 + (if off ≤ k ∧ k < off + clubs.length then r2 else 0) := by
  induction clubs generalizing off with
  | nil =>
    have hno : ¬ (off ≤ k ∧ k < off) := by omega
    simp [jsMapFrom, allocSum, hno]
  | cons c cs ih =>
    obtain ⟨i1, i2, i3, i4⟩ := ih (fun d hd => h d (List.mem_cons_of_mem c hd)) (off + 1)
    obtain ⟨g1, g2, g3, g4⟩ :=
      grantedClub_entries k r0 r1 r2 c off (h c (List.mem_cons_self c cs))
    have hsum : ∀ (j : Nat) (l : List Club) (d : Club),
        allocSum (d :: l) j = allocEntry d j + allocSum l j := by
      intro j l d
      simp [allocSum]
    refine ⟨?_, ?_, ?_, ?_⟩
    · intro d hd
      simp only [jsMapFrom, List.mem_cons] at hd
      rcases hd with rfl | hd
      · exact g1
      · exact i1 d hd
    · simp only [jsMapFrom, hsum, i2, g2, List.length_cons]
      split_ifs <;> omega
    · simp only [jsMapFrom, hsum, i3, g3, List.length_cons]
      split_ifs <;> omega
    · simp only [jsMapFrom, hsum, i4, g4, List.length_cons]
      split_ifs <;> omega

/-- C20. If `available[j] = total[j] - Σ allocation[c][j]` holds before the
request, and the granted response carries the old allocation matrix with
the request vector `r` added to row `k` (every other row unchanged), then
the available vector the client recomputes after `handleRunBankers` is the
old available minus `r`, component-wise. -/
theorem granted_available_is_old_minus_request (api : RequestData → ApiOutcome)
    (logs : LogsOutcome) (s : AppState) (response : Response) (k : Nat)
    (t0 t1 t2 r0 r1 r2 : Int)
    (hal : ∀ c ∈ s.clubs, Alloc3 c)
    (htotal : s.totalResources = [num t0, num t1, num t2])
    (havail : s.available = [num (t0 - allocSum s.clubs 0), num (t1 - allocSum s.clubs 1),
                             num (t2 - allocSum s.clubs 2)])
    (hk : k < s.clubs.length)
    (hres : api (requestData s) = .resolved (some response)) (hsafe : response.safe = true)
    (hrows : response.new_allocation
      = some (allocationWith s.clubs k [num r0, num r1, num r2])) :
    ∃ s' : AppState, runBankers api logs s = some s'
      ∧ s'.available = jsMap (fun a idx => jsSub a (jsGet [num r0, num r1, num r2] idx))
          s.available
      ∧ s'.available = [num (t0 - allocSum s.clubs 0 - r0), num (t1 - allocSum s.clubs 1 - r1),
                        num (t2 - allocSum s.clubs 2 - r2)] := by
  obtain ⟨hclubs, _⟩ := handleRunBankers_granted api logs s response _ hres hsafe hrows
  have htot := (run_total api logs s)
  have hcommit : commits (api (requestData s)) = true := by
    simp [commits, hres, hsafe, hrows]
  rw [updatedClubs_allocationWith] at hclubs
  obtain ⟨n1, n2, n3, n4⟩ := allocSum_jsMapFrom_grantedClub k r0 r1 r2 s.clubs hal 0
  have hin : 0 ≤ k ∧ k < 0 + s.clubs.length := by omega
  simp only [hin, and_self, if_true] at n2 n3 n4
  have hcalc := calcAvailable_three (jsMap (grantedClub k [num r0, num r1, num r2]) s.clubs)
    t0 t1 t2 n1
  refine ⟨{ handleRunBankers api logs s with
            available := [num (t0 - allocSum s.clubs 0 - r0), num (t1 - allocSum s.clubs 1 - r1),
                          num (t2 - allocSum s.clubs 2 - r2)] }, ?_, ?_, rfl⟩
  · simp only [runBankers, hcommit, if_true, recompute, hclubs, htot, htotal, hcalc]
    simp only [jsMap, n2, n3, n4, sub_add_eq_sub_sub]
  · simp [havail, jsMap, jsMapFrom, jsSub, jsGet]

theorem granted_available_is_old_minus_request_witness :
    ∃ s' : AppState, runBankers grantDrama .rejected mountedState = some s'
      ∧ s'.available = jsMap (fun a idx => jsSub a (jsGet [num 0, num 2, num 0] idx))
          mountedState.available
      ∧ s'.available = [num (10 - allocSum mountedState.clubs 0 - 0),
                        num (5 - allocSum mountedState.clubs 1 - 2),
                        num (7 - allocSum mountedState.clubs 2 - 0)] :=
  granted_available_is_old_minus_request grantDrama .rejected mountedState _ 0 10 5 7 0 2 0
    alloc3_defaultClubs rfl (by decide) (by decide) rfl rfl (by decide)

/-! ## The safety algorithm -/

theorem scanFrom_some (finished : List Bool) (work : List Int) (i : Nat) (clubs : List ClubRow)
    (j : Nat) (club : ClubRow) (h : scanFrom finished work i clubs = some (j, club)) :
    ∃ p : Nat, j = i + p ∧ clubs[p]? = some club ∧ finished[j]? = some false
      ∧ vecLe club.need work = true := by
  induction clubs generalizing i with
  | nil => simp [scanFrom] at h
  | cons c cs ih =>
    unfold scanFrom at h
    split at h
    · rename_i hc
      simp only [Option.some.injEq, Prod.mk.injEq] at h
      obtain ⟨rfl, rfl⟩ := h
      exact ⟨0, rfl, by simp, hc.1, hc.2⟩
    · obtain ⟨p, hp, hget, hfin, hle⟩ := ih (i + 1) h
      exact ⟨p + 1, by omega, by simpa using hget, hfin, hle⟩

theorem scanFrom_none_of_no_fit (finished : List Bool) (work : List Int) (i : Nat)
    (clubs : List ClubRow) (h : ∀ c ∈ clubs, vecLe c.need work = false) :
    scanFrom finished work i clubs = none := by
  induction clubs generalizing i with
  | nil => rfl
  | cons c cs ih =>
    unfold scanFrom
    have hc := h c (List.mem_cons_self c cs)
    simp only [hc, Bool.false_eq_true, and_false, if_false]
    exact ih (i + 1) (fun d hd => h d (List.mem_cons_of_mem c hd))

theorem count_false_set (finished : List Bool) (i : Nat) (h : finished[i]? = some false) :
    (finished.set i true).count false + 1 = finished.count false := by
  induction finished generalizing i with
  | nil => simp at h
  | cons b bs ih =>
    cases i with
    | zero =>
      simp only [List.getElem?_cons_zero, Option.some.injEq] at h
      subst h
      simp
    | succ i =>
      simp only [List.getElem?_cons_succ] at h
      have := ih i h
      cases b <;> simp [List.count_cons] <;> omega

theorem all_id_of_count_false (finished : List Bool) (h : finished.count false = 0) :
    finished.all id = true := by
  rw [List.all_eq_true]
  intro b hb
  cases b with
  | true => rfl
  | false => exact absurd hb (List.count_eq_zero.mp h)

theorem safetyLoop_isSome (clubs : List ClubRow) (fuel : Nat) (finished : List Bool)
    (work : List Int) (sequence : List Nat) (h : finished.count false ≤ fuel) :
    (safetyLoop clubs fuel finished work sequence).isSome = true := by
  induction fuel generalizing finished work sequence with
  | zero =>
    unfold safetyLoop
    have hall := all_id_of_count_false finished (by omega)
    simp [hall]
  | succ fuel ih =>
    unfold safetyLoop
    split
    · rfl
    · split
      · rfl
      · rename_i i club hscan
        obtain ⟨p, hp, _, hfin, _⟩ := scanFrom_some finished work 0 clubs i club hscan
        have hcount := count_false_set finished i hfin
        exact ih _ _ _ (by omega)

theorem safetyLoop_done (clubs : List ClubRow) (finished : List Bool) (work : List Int)
    (sequence S : List Nat) (hall : finished.all id = true)
    (hS : some (SafetyResult.safe sequence) = some (.safe S)) :
    ∃ rest : List Nat, S = sequence ++ rest ∧ replayValid clubs work rest = true
      ∧ rest.Nodup ∧ ∀ i : Nat, i ∈ rest ↔ finished[i]? = some false := by
  simp only [Option.some.injEq, SafetyResult.safe.injEq] at hS
  refine ⟨[], by simp [hS], rfl, List.nodup_nil, ?_⟩
  intro i
  simp only [List.not_mem_nil, false_iff]
  intro hi
  rw [List.all_eq_true] at hall
  have := hall false (List.getElem?_mem hi)
  simp at this

theorem safetyLoop_safe (clubs : List ClubRow) (fuel : Nat) (finished : List Bool)
    (work : List Int) (sequence S : List Nat)
    (h : safetyLoop clubs fuel finished work sequence = some (.safe S)) :
    ∃ rest : List Nat, S = sequence ++ rest ∧ replayValid clubs work rest = true
      ∧ rest.Nodup ∧ ∀ i : Nat, i ∈ rest ↔ finished[i]? = some false := by
  induction fuel generalizing finished work sequence with
  | zero =>
    unfold safetyLoop at h
    split at h
    · rename_i hall
      exact safetyLoop_done clubs finished work sequence S hall h
    · split at h
      · simp at h
      · simp at h
  | succ fuel ih =>
    unfold safetyLoop at h
    split at h
    · rename_i hall
      exact safetyLoop_done clubs finished work sequence S hall h
    · split at h
      · simp at h
      · rename_i i club hscan
        obtain ⟨p, hp, hget, hfin, hle⟩ := scanFrom_some finished work 0 clubs i club hscan
        have hpi : p = i := by omega
        subst hpi
        obtain ⟨rest, hS, hreplay, hnodup, hmem⟩ := ih _ _ _ h
        have hlt : p < finished.length := (List.getElem?_eq_some_iff.mp hfin).1
        have hnot : p ∉ rest := by
          intro hp'
          have := (hmem p).mp hp'
          simp [List.getElem?_set, hlt] at this
        refine ⟨p :: rest, by simp [hS], ?_, List.nodup_cons.mpr ⟨hnot, hnodup⟩, ?_⟩
        · simp [replayValid, hget, hle, hreplay]
        · intro j
          by_cases hj : j = p
          · subst hj
            simp [hfin]
          · have hjp : ¬ p = j := fun e => hj e.symm
            simp only [List.mem_cons, hj, false_or, hmem j, List.getElem?_set_ne hjp]

/-- C17. SafetyChecker always answers, and whenever it reports safe with
sequence `S`, `S` contains every club exactly once (it has no repetition, its
members are exactly the club ids `0 .. n-1`, so it is a permutation of them),
and the replay of `S` from `available`, adding each finished club's
allocation back, finds each club's need element-wise `≤` the
available-so-far when the club is scheduled. -/
theorem safety_witness_is_valid (snapshot : Snapshot) :
    (safetyCheck snapshot).isSome = true
      ∧ ∀ S : List Nat, safetyCheck snapshot = some (.safe S) →
          S.Nodup ∧ (∀ i : Nat, i ∈ S ↔ i < snapshot.clubs.length)
            ∧ S.Perm (List.range snapshot.clubs.length)
            ∧ replayValid snapshot.clubs snapshot.available S = true := by
  constructor
  · exact safetyLoop_isSome _ _ _ _ _ (by simp)
  · intro S hS
    obtain ⟨rest, hrest, hreplay, hnodup, hmem⟩ := safetyLoop_safe _ _ _ _ _ S hS
    simp only [List.nil_append] at hrest
    subst hrest
    have hmem' : ∀ i : Nat, i ∈ S ↔ i < snapshot.clubs.length := by
      intro i
      rw [hmem i, List.getElem?_replicate]
      by_cases hi : i < snapshot.clubs.length <;> simp [hi]
    refine ⟨hnodup, hmem', ?_, hreplay⟩
    rw [List.perm_ext_iff_of_nodup hnodup (List.nodup_range _)]
    intro i
    rw [hmem' i, List.mem_range]

theorem safety_witness_is_valid_witness :
    safetyCheck scenario1.snapshot = some (.safe [1, 0, 2])
      ∧ [1, 0, 2].Perm (List.range scenario1.snapshot.clubs.length)
      ∧ replayValid scenario1.snapshot.clubs scenario1.snapshot.available [1, 0, 2] = true := by
  have h : safetyCheck scenario1.snapshot = some (.safe [1, 0, 2]) := by decide
  obtain ⟨_, _, hperm, hreplay⟩ := (safety_witness_is_valid scenario1.snapshot).2 _ h
  exact ⟨h, hperm, hreplay⟩

/-! ## Validation order of `processRequest` -/

theorem vecLe_getElem? (a b : List Int) (h : vecLe a b = true) (j : Nat) (x : Int)
    (hx : a[j]? = some x) : ∃ y : Int, b[j]? = some y ∧ x ≤ y := by
  induction a generalizing b j with
  | nil => simp at hx
  | cons u us ih =>
    cases b with
    | nil => simp [vecLe] at h
    | cons v vs =>
      simp only [vecLe, Bool.and_eq_true, decide_eq_true_eq] at h
      cases j with
      | zero =>
        simp only [List.getElem?_cons_zero, Option.some.injEq] at hx
        subst hx
        exact ⟨v, by simp, h.1⟩
      | succ j =>
        simp only [List.getElem?_cons_succ] at hx ⊢
        exact ih vs h.2 j hx

theorem vecLe_false_of_exceedsNeed (requestVector need : List Int)
    (h : ExceedsNeed requestVector need) : vecLe requestVector need = false := by
  obtain ⟨j, x, y, hx, hy, hlt⟩ := h
  cases hle : vecLe requestVector need with
  | false => rfl
  | true =>
    obtain ⟨y', hy', hxy⟩ := vecLe_getElem? requestVector need hle j x hx
    rw [hy] at hy'
    simp only [Option.some.injEq] at hy'
    omega

/-- C18 (as stated) fails: in concrete scenario 1 club C (id 2) exists and
has need `[6, 0, 0]`; the request `[9, -1, 2]` has a component greater than
that need, and it is rejected as `MalformedRequest`, the first validation
that fails, with no log entry. -/
theorem exceeding_request_can_be_malformed :
    (scenario1.clubs[2]?).map (fun club => club.need) = some [6, 0, 0]
      ∧ ExceedsNeed [9, -1, 2] [6, 0, 0]
      ∧ processRequest "t" { store := scenario1, log := [] } 2 [9, -1, 2]
          = some (.malformedRequest, { store := scenario1, log := [] }) := by
  refine ⟨by decide, ⟨0, 9, 6, rfl, rfl, by decide⟩, by decide⟩

/-- C18 (amended). For every state and every well-formed request (length
`m`, entries `≥ 0`) by an existing club whose vector has some component
greater than that club's need, `processRequest` answers
`ExceedsMaximumNeed` whatever the safety check is and whatever the available
vector is; the store is unchanged and one DENIED record is appended to the
log. -/
theorem exceeding_request_is_rejected_first (checker : Snapshot → Option SafetyResult)
    (timestamp : String) (engine : Engine) (clubId : Nat) (club : EngineClub)
    (requestVector : List Int)
    (hclub : engine.store.clubs[clubId]? = some club)
    (hlen : requestVector.length = engine.store.total.length)
    (hnonneg : ∀ x ∈ requestVector, 0 ≤ x)
    (hexceeds : ExceedsNeed requestVector club.need) :
    processRequestWith checker timestamp engine clubId requestVector
        = some (.exceedsMaximumNeed,
            { store := engine.store
              log := engine.log ++ [deniedRecord clubId club requestVector timestamp] })
      ∧ processRequest timestamp engine clubId requestVector
        = some (.exceedsMaximumNeed,
            { store := engine.store
              log := engine.log ++ [deniedRecord clubId club requestVector timestamp] }) := by
  have hall : requestVector.all (fun x => decide (0 ≤ x)) = true := by
    rw [List.all_eq_true]
    intro x hx
    simpa using hnonneg x hx
  have hle := vecLe_false_of_exceedsNeed requestVector club.need hexceeds
  have key : ∀ chk : Snapshot → Option SafetyResult,
      processRequestWith chk timestamp engine clubId requestVector
        = some (.exceedsMaximumNeed,
            { store := engine.store
              log := engine.log ++ [deniedRecord clubId club requestVector timestamp] }) := by
    intro chk
    simp only [processRequestWith, hclub, hlen, hall, hle, and_self, not_true_eq_false,
      if_false, if_true]
  exact ⟨key checker, key safetyCheck⟩

theorem exceeding_request_is_rejected_first_witness :
    processRequest "t" { store := scenario1, log := [] } 2 [9, 0, 2]
      = some (.exceedsMaximumNeed,
          { store := scenario1
            log := [deniedRecord 2 { name := "C", max := [9, 0, 2], allocation := [3, 0, 2] }
                      [9, 0, 2] "t"] }) :=
  (exceeding_request_is_rejected_first safetyCheck "t" { store := scenario1, log := [] } 2
    { name := "C", max := [9, 0, 2], allocation := [3, 0, 2] } [9, 0, 2] rfl rfl (by decide)
    ⟨0, 9, 6, rfl, rfl, by decide⟩).2

/-! ## Detection of a state that is not safe -/

theorem safetyCheck_no_fit (snapshot : Snapshot) (hne : snapshot.clubs ≠ [])
    (h : ∀ c ∈ snapshot.clubs, vecLe c.need snapshot.available = false) :
    safetyCheck snapshot = some .notSafe := by
  have hall : (List.replicate snapshot.clubs.length false).all id = false := by
    cases hc : snapshot.clubs with
    | nil => exact absurd hc hne
    | cons c cs => simp [List.replicate]
  have hscan := scanFrom_none_of_no_fit (List.replicate snapshot.clubs.length false)
    snapshot.available 0 snapshot.clubs h
  unfold safetyCheck safetyLoop
  simp only [hall, hscan, Bool.false_eq_true, if_false]

/-- C19. For every state with at least one club in which no club's need fits
the available vector, `checkCurrentSafety` answers not safe, with no
sequence; in particular when `available` is all zeros and every club has a
positive outstanding need in some resource. -/
theorem no_fit_is_reported_not_safe (store : Store) (hne : store.clubs ≠ []) :
    ((∀ club ∈ store.clubs, vecLe club.need store.available = false) →
        checkCurrentSafety store = some .notSafe)
      ∧ ((∃ m : Nat, store.available = List.replicate m 0) →
          (∀ club ∈ store.clubs, ∃ (j : Nat) (x : Int), club.need[j]? = some x ∧ 0 < x) →
            checkCurrentSafety store = some .notSafe) := by
  have main : (∀ club ∈ store.clubs, vecLe club.need store.available = false) →
      checkCurrentSafety store = some .notSafe := by
    intro h
    apply safetyCheck_no_fit
    · simpa [Store.snapshot] using hne
    · intro c hc
      simp only [Store.snapshot, List.mem_map] at hc
      obtain ⟨club, hclub, rfl⟩ := hc
      exact h club hclub
  refine ⟨main, ?_⟩
  intro hzero hpos
  obtain ⟨m, hm⟩ := hzero
  apply main
  intro club hclub
  obtain ⟨j, x, hx, hxpos⟩ := hpos club hclub
  cases hle : vecLe club.need store.available with
  | false => rfl
  | true =>
    obtain ⟨y, hy, hxy⟩ := vecLe_getElem? _ _ hle j x hx
    rw [hm, List.getElem?_replicate] at hy
    split at hy
    · simp only [Option.some.injEq] at hy
      omega
    · simp at hy

theorem no_fit_is_reported_not_safe_witness :
    scenario3.clubs ≠ [] ∧ scenario3.available = List.replicate 3 0
      ∧ (∀ club ∈ scenario3.clubs, ∃ (j : Nat) (x : Int), club.need[j]? = some x ∧ 0 < x)
      ∧ checkCurrentSafety scenario3 = some .notSafe := by
  have hne : scenario3.clubs ≠ [] := by decide
  have hav : scenario3.available = List.replicate 3 0 := by decide
  have hpos : ∀ club ∈ scenario3.clubs, ∃ (j : Nat) (x : Int), club.need[j]? = some x ∧ 0 < x := by
    intro club hclub
    simp only [scenario3, List.mem_cons, List.mem_singleton, List.not_mem_nil, or_false] at hclub
    rcases hclub with rfl | rfl
    · exact ⟨0, 1, by decide, by decide⟩
    · exact ⟨1, 1, by decide, by decide⟩
  exact ⟨hne, hav, hpos, (no_fit_is_reported_not_safe scenario3 hne).2 ⟨3, hav⟩ hpos⟩

/-! ## Request vectors -/

theorem clampInput_spec (value : String) :
    (∀ n : Int, parseInt value = num n → clampInput value = .fin (max 0 n))
      ∧ (parseInt value = none → clampInput value = .fin 0) := by
  unfold clampInput orZero
  constructor
  · intro n hn
    rw [hn]
    by_cases h0 : n = 0
    · simp [h0, maxZero]
    · simp [h0, maxZero]
  · intro hn
    rw [hn]
    rfl

theorem clampInput_of_not_posInf (value : String) (h : parseInt value ≠ some .posInf) :
    ∃ k : Int, 0 ≤ k ∧ clampInput value = .fin k := by
  rcases clampInput_cases value with hk | he
  · exact hk
  · exfalso
    apply h
    unfold clampInput orZero at he
    cases hp : parseInt value with
    | none => rw [hp] at he; simp [maxZero] at he
    | some x =>
      cases x with
      | fin k =>
        rw [hp] at he
        by_cases h0 : k = 0
        · simp [h0, maxZero] at he
        · simp [h0, maxZero] at he
      | posInf => rfl
      | negInf => rw [hp] at he; simp [maxZero] at he

theorem recompute_keeps (s a : AppState) (h : recompute s = some a) :
    a.requestResources = s.requestResources ∧ a.selectedClub = s.selectedClub
      ∧ a.clubs = s.clubs := by
  unfold recompute at h
  split at h
  · exact absurd h (by simp)
  · simp only [Option.some.injEq] at h
    rw [← h]
    exact ⟨rfl, rfl, rfl⟩

theorem handleRunBankers_request (api : RequestData → ApiOutcome) (logs : LogsOutcome)
    (s : AppState) :
    (handleRunBankers api logs s).requestResources = s.requestResources
      ∨ (handleRunBankers api logs s).requestResources = [num 0, num 0, num 0] := by
  unfold handleRunBankers
  cases api (requestData s) with
  | rejected err => exact Or.inl rfl
  | resolved r =>
    cases r with
    | none => exact Or.inl rfl
    | some response =>
      simp only [applyRunResponse]
      cases response.safe <;> cases response.new_allocation <;>
        cases logs with
        | resolved l => cases l <;> first | exact Or.inl rfl | exact Or.inr rfl
        | rejected => first | exact Or.inl rfl | exact Or.inr rfl

theorem step_requestResources (c c' : Client) (ev : Event) (h : step c ev = some c') :
    c'.app.requestResources = c.app.requestResources
      ∨ c'.app.requestResources = [num 0, num 0, num 0]
      ∨ ∃ (index : Nat) (value : String), ev = .requestChange index value
          ∧ c'.app.requestResources
              = jsSet c.app.requestResources index (some (clampInput value)) := by
  cases ev with
  | runBankers api logs =>
    simp only [step, Option.map_eq_some'] at h
    obtain ⟨a, ha, rfl⟩ := h
    have hreq := handleRunBankers_request api logs c.app
    unfold runBankers at ha
    split at ha
    · rw [← (recompute_keeps _ _ ha).1] at hreq
      rcases hreq with h1 | h1
      · exact Or.inl h1
      · exact Or.inr (Or.inl h1)
    · simp only [Option.some.injEq] at ha
      subst ha
      rcases hreq with h1 | h1
      · exact Or.inl h1
      · exact Or.inr (Or.inl h1)
  | checkSafety api =>
    simp only [step, Option.some.injEq] at h
    subst h
    left
    simp only [handleCheckSafety]
    cases api (safetyData c.app) <;> rfl
  | loadScenario scenarioData =>
    simp only [step, Option.map_eq_some'] at h
    obtain ⟨a, ha, rfl⟩ := h
    exact Or.inl (recompute_keeps _ _ ha).1
  | reset =>
    simp only [step, Option.map_eq_some'] at h
    obtain ⟨a, ha, rfl⟩ := h
    exact Or.inr (Or.inl (recompute_keeps _ _ ha).1)
  | resourceChange index value =>
    simp only [step, Option.map_eq_some'] at h
    obtain ⟨a, ha, rfl⟩ := h
    exact Or.inl (recompute_keeps _ _ ha).1
  | requestChange index value =>
    simp only [step, Option.some.injEq] at h
    subst h
    exact Or.inr (Or.inr ⟨index, value, rfl, rfl⟩)
  | selectClub id =>
    simp only [step, Option.some.injEq] at h
    subst h
    exact Or.inl rfl
  | fetchLogs logs =>
    simp only [step, Option.some.injEq] at h
    subst h
    left
    simp only [fetchLogs]
    cases logs with
    | resolved l => cases l <;> rfl
    | rejected => rfl
  | dismissError =>
    simp only [step, Option.some.injEq] at h
    subst h
    exact Or.inl rfl
  | startEdit pos =>
    simp only [step, Option.some.injEq] at h
    subst h
    exact Or.inl rfl
  | updateEditField input =>
    simp only [step, Option.some.injEq] at h
    subst h
    exact Or.inl rfl
  | cancelEdit =>
    simp only [step, Option.some.injEq] at h
    subst h
    exact Or.inl rfl
  | saveEdit =>
    simp only [step, Option.map_eq_some'] at h
    obtain ⟨a, ha, rfl⟩ := h
    exact Or.inl (recompute_keeps _ _ ha).1

theorem wellFormedRequest_zero : WellFormedRequest [num 0, num 0, num 0] :=
  ⟨0, 0, 0, rfl, le_refl 0, le_refl 0, le_refl 0⟩

theorem wellFormedRequest_jsSet (r : Vec) (index : Nat) (value : String)
    (h : WellFormedRequest r) (hidx : index < 3) (hfin : (clampInput value).isFinite = true) :
    WellFormedRequest (jsSet r index (some (clampInput value))) := by
  obtain ⟨n0, n1, n2, rfl, h0, h1, h2⟩ := h
  obtain ⟨k, hk, hc⟩ := clampInput_finite value hfin
  rw [hc]
  have hi : index = 0 ∨ index = 1 ∨ index = 2 := by omega
  rcases hi with rfl | rfl | rfl
  · exact ⟨k, n1, n2, by simp [jsSet], hk, h1, h2⟩
  · exact ⟨n0, k, n2, by simp [jsSet], h0, hk, h2⟩
  · exact ⟨n0, n1, k, by simp [jsSet], h0, h1, hk⟩

theorem wellFormedRequest_of_finiteUIReachable (c : Client) (h : FiniteUIReachable c) :
    WellFormedRequest c.app.requestResources := by
  induction h with
  | init => exact wellFormedRequest_zero
  | mount ha =>
    simp only [(recompute_keeps _ _ ha).1]
    exact wellFormedRequest_zero
  | step ev _ hen hfin hstep ih =>
    rcases step_requestResources _ _ ev hstep with h1 | h1 | ⟨index, value, rfl, h1⟩
    · rw [h1]
      exact ih
    · rw [h1]
      exact wellFormedRequest_zero
    · rw [h1]
      simp only [enabled, numResources, Bool.and_eq_true, decide_eq_true_eq] at hen
      exact wellFormedRequest_jsSet _ index value ih hen.2 hfin

theorem uiReachable_of_finiteUIReachable (c : Client) (h : FiniteUIReachable c) :
    UIReachable c := by
  induction h with
  | init => exact UIReachable.init
  | mount ha => exact UIReachable.mount ha
  | step ev _ hen _ hstep ih => exact UIReachable.step ev ih hen hstep

theorem isPositive_iff (c : Cell) :
    isPositive c = true ↔ c = some .posInf ∨ ∃ n : Int, c = num n ∧ 0 < n := by
  cases c with
  | none => simp [isPositive]
  | some x =>
    cases x with
    | fin n => simp [isPositive]
    | posInf => simp [isPositive]
    | negInf => simp [isPositive]

theorem isRequestValid_iff (r : Vec) :
    isRequestValid r = true
      ↔ ∃ (j : Nat) (c : Cell), r[j]? = some c
          ∧ (c = some .posInf ∨ ∃ n : Int, c = num n ∧ 0 < n) := by
  unfold isRequestValid
  rw [List.any_eq_true]
  constructor
  · rintro ⟨x, hx, hpos⟩
    obtain ⟨j, hj⟩ := List.mem_iff_getElem?.mp hx
    exact ⟨j, x, hj, (isPositive_iff x).mp hpos⟩
  · rintro ⟨j, x, hj, hpos⟩
    exact ⟨x, List.getElem?_mem hj, (isPositive_iff x).mpr hpos⟩

theorem isRequestValid_wellFormed (r : Vec) (h : WellFormedRequest r) :
    isRequestValid r = true ↔ ∃ (j : Nat) (n : Int), r[j]? = some (num n) ∧ 0 < n := by
  rw [isRequestValid_iff]
  constructor
  · rintro ⟨j, c, hj, hc | ⟨n, rfl, hn⟩⟩
    · exfalso
      subst hc
      obtain ⟨n0, n1, n2, rfl, -⟩ := h
      match j, hj with
      | 0, hj => simp at hj
      | 1, hj => simp at hj
      | 2, hj => simp at hj
      | j + 3, hj => simp at hj
    · exact ⟨j, n, hj, hn⟩
  · rintro ⟨j, n, hj, hn⟩
    exact ⟨j, num n, hj, Or.inr ⟨n, rfl, hn⟩⟩

theorem uiReachable_infiniteRequestClient : UIReachable infiniteRequestClient := by
  have h1 : enabled initialClient (.requestChange 0 hugeValue) = true := rfl
  have h2 : step initialClient (.requestChange 0 hugeValue) = some infiniteRequestClient := by
    simp only [step, handleRequestChange, clampInput_hugeValue]
    rfl
  exact UIReachable.step _ UIReachable.init h1 h2

/-- C21 (as stated) fails: typing a value of 310 digits into the first
request input of the initial state, an event the page offers, makes
`handleRequestChange` write `Infinity`: the request vector is
`[Infinity, 0, 0]`, its first entry is no integer, `isRequestValid` holds, so
Submit is enabled, and that vector is the `resources` of the payload.  And
the entry written for `9007199254740993` is `9007199254740992`, the double
nearest to the integer the digits denote. -/
theorem request_vector_can_hold_infinity :
    UIReachable infiniteRequestClient
      ∧ infiniteRequestClient.app.requestResources = [some .posInf, num 0, num 0]
      ∧ ¬ WellFormedRequest infiniteRequestClient.app.requestResources
      ∧ ¬ IsNonnegInteger (jsGet infiniteRequestClient.app.requestResources 0)
      ∧ isRequestValid infiniteRequestClient.app.requestResources = true
      ∧ (requestData infiniteRequestClient.app).request.resources
          = [some .posInf, num 0, num 0]
      ∧ (handleRequestChange 0 "9007199254740993" initialState).requestResources
          = [num 9007199254740992, num 0, num 0] := by
  refine ⟨uiReachable_infiniteRequestClient, rfl, ?_, ?_, by decide, rfl, by decide⟩
  · rintro ⟨n0, n1, n2, h, -⟩
    simp [infiniteRequestClient, initialState] at h
  · rintro ⟨n, -, h⟩
    simp [infiniteRequestClient, initialState, jsGet] at h

/-- C21 (amended). Every `requestResources` the client reaches through the
events the page offers (the request inputs have index 0, 1 or 2), when every
value typed into a request input gives a finite number, is a vector of three
non-negative integers, and `isRequestValid` is true of it exactly when some
entry is `> 0`.  In every state, `handleRequestChange(index, value)` on an
existing entry keeps the length and changes entry `index` only, to
`Math.max(0, parseInt(value) || 0)`: to `max(0, n)` when `parseInt(value)` is
the integer `n`, to `0` when `value` does not parse, and to a non-negative
integer whenever `parseInt(value)` is not `Infinity`, as it is for every
value of at most 255 characters; and `isRequestValid` is true exactly when
some entry is `> 0`. -/
theorem request_vector_is_well_formed (c : Client) (h : FiniteUIReachable c) :
    WellFormedRequest c.app.requestResources
      ∧ c.app.requestResources.length = 3
      ∧ (isRequestValid c.app.requestResources = true
          ↔ ∃ (j : Nat) (n : Int), c.app.requestResources[j]? = some (num n) ∧ 0 < n)
      ∧ (∀ (s : AppState) (index : Nat) (value : String),
          index < s.requestResources.length →
            (handleRequestChange index value s).requestResources.length
                = s.requestResources.length
              ∧ ∀ j : Nat, jsGet (handleRequestChange index value s).requestResources j
                  = if j = index then some (clampInput value)
                    else jsGet s.requestResources j)
      ∧ (∀ value : String,
          (∀ n : Int, parseInt value = num n → clampInput value = .fin (max 0 n))
            ∧ (parseInt value = none → clampInput value = .fin 0)
            ∧ (parseInt value ≠ some .posInf → IsNonnegInteger (some (clampInput value)))
            ∧ (value.length ≤ 255 → IsNonnegInteger (some (clampInput value))))
      ∧ ∀ r : Vec, isRequestValid r = true
          ↔ ∃ (j : Nat) (c : Cell), r[j]? = some c
              ∧ (c = some .posInf ∨ ∃ n : Int, c = num n ∧ 0 < n) := by
  have hwf := wellFormedRequest_of_finiteUIReachable c h
  refine ⟨hwf, ?_, isRequestValid_wellFormed _ hwf, ?_, ?_, isRequestValid_iff⟩
  · obtain ⟨n0, n1, n2, hr, _⟩ := hwf
    rw [hr]
    rfl
  · intro s index value hidx
    exact ⟨jsSet_length _ _ _ hidx, fun j => jsGet_jsSet _ _ _ hidx j⟩
  · intro value
    refine ⟨(clampInput_spec value).1, (clampInput_spec value).2, ?_, ?_⟩
    · intro hne
      obtain ⟨k, hk, he⟩ := clampInput_of_not_posInf value hne
      exact ⟨k, hk, by rw [he]⟩
    · intro hlen
      obtain ⟨k, hk, he⟩ := clampInput_finite value (clampInput_finite_of_length value hlen)
      exact ⟨k, hk, by rw [he]⟩

theorem finiteUIReachable_requestingClient : FiniteUIReachable requestingClient := by
  have h1 : enabled initialClient (.requestChange 1 "2") = true := by decide
  have h2 : Event.finiteRequest (.requestChange 1 "2") = true := by decide
  have h3 : step initialClient (.requestChange 1 "2") = some requestingClient := by decide
  exact FiniteUIReachable.step _ FiniteUIReachable.init h1 h2 h3

theorem request_vector_is_well_formed_witness :
    FiniteUIReachable requestingClient
      ∧ WellFormedRequest requestingClient.app.requestResources
      ∧ requestingClient.app.requestResources.length = 3
      ∧ isRequestValid requestingClient.app.requestResources = true := by
  obtain ⟨h1, h2, h3, _⟩ := request_vector_is_well_formed requestingClient
    finiteUIReachable_requestingClient
  exact ⟨finiteUIReachable_requestingClient, h1, h2, h3.mpr ⟨1, 2, rfl, by decide⟩⟩

/-! ## `updateEditField` -/

theorem jsGet_jsSet_self (xs : Vec) (idx : Nat) (v : Cell) :
    jsGet (jsSet xs idx v) idx = v := by
  unfold jsGet jsSet
  by_cases h : idx < xs.length
  · simp [h]
  · have hlen : (xs ++ List.replicate (idx - xs.length) none).length = idx := by
      simp only [List.length_append, List.length_replicate]
      omega
    rw [if_neg h, List.getElem?_append_right (by omega)]
    simp [hlen]

/-- C22 (as stated) fails: in the edit state of the first default club,
`updateEditField('allocation', 0, value)` with a value of 310 digits writes
`Infinity`, which is no integer; and with the value `9007199254740993` it
writes `9007199254740992`, the double nearest to the integer the digits
denote. -/
theorem edit_can_write_infinity :
    parseInt hugeValue = some .posInf
      ∧ (updateEditField (.allocation 0 hugeValue) editingClient.manager).editing.map
            (fun e => e.editData.allocation)
          = some (some [some .posInf, num 1, num 0])
      ∧ ¬ IsNonnegInteger (some (clampInput hugeValue))
      ∧ (updateEditField (.allocation 0 "9007199254740993") editingClient.manager).editing.map
            (fun e => e.editData.allocation)
          = some (some [num 9007199254740992, num 1, num 0]) := by
  refine ⟨parseInt_hugeValue, ?_, ?_, by decide⟩
  · simp only [updateEditField, Client.manager, editingClient, clampInput_hugeValue]
    rfl
  · rw [clampInput_hugeValue]
    rintro ⟨n, -, h⟩
    cases h

/-- C22 (amended). In every edit state, `updateEditField('maxNeed', idx, value)`
and `updateEditField('allocation', idx, value)` write, into the array of that
field, at `idx`, the number `Math.max(0, parseInt(value) || 0)`: `max(0, n)`
when `parseInt(value)` is the integer `n`, `0` when `value` does not parse,
and an integer `≥ 0` whenever `parseInt(value)` is not `Infinity`, as it is
for every value of at most 255 characters; the other field and the name are
kept.  The call for the name field (`index`
undefined) changes no entry of either array, neither in `editData` nor in
the club list. -/
theorem edit_writes_clamped_integer (clubs : List Club) (e : EditState) (idx : Nat)
    (value : String) :
    (∀ arr : Vec, e.editData.maxNeed = some arr →
        ∃ e' : EditState,
          (updateEditField (.maxNeed idx value) { clubs := clubs, editing := some e }).editing
              = some e'
            ∧ e'.editData.maxNeed = some (jsSet arr idx (some (clampInput value)))
            ∧ jsGet (jsSet arr idx (some (clampInput value))) idx = some (clampInput value)
            ∧ e'.editData.allocation = e.editData.allocation
            ∧ e'.editData.name = e.editData.name)
      ∧ (∀ arr : Vec, e.editData.allocation = some arr →
          ∃ e' : EditState,
            (updateEditField (.allocation idx value)
                { clubs := clubs, editing := some e }).editing = some e'
              ∧ e'.editData.allocation = some (jsSet arr idx (some (clampInput value)))
              ∧ jsGet (jsSet arr idx (some (clampInput value))) idx = some (clampInput value)
              ∧ e'.editData.maxNeed = e.editData.maxNeed
              ∧ e'.editData.name = e.editData.name)
      ∧ (parseInt value ≠ some .posInf → IsNonnegInteger (some (clampInput value)))
      ∧ (value.length ≤ 255 → IsNonnegInteger (some (clampInput value)))
      ∧ (∀ n : Int, parseInt value = num n → clampInput value = .fin (max 0 n))
      ∧ (parseInt value = none → clampInput value = .fin 0)
      ∧ ∃ e' : EditState,
          (updateEditField (.name value) { clubs := clubs, editing := some e }).editing = some e'
            ∧ e'.editData.maxNeed = e.editData.maxNeed
            ∧ e'.editData.allocation = e.editData.allocation
            ∧ (updateEditField (.name value) { clubs := clubs, editing := some e }).clubs
                = clubs := by
  refine ⟨?_, ?_, ?_, ?_, (clampInput_spec value).1, (clampInput_spec value).2, ?_⟩
  · intro arr harr
    refine ⟨{ e with editData :=
                { e.editData with maxNeed := some (jsSet arr idx (some (clampInput value))) } },
      ?_, rfl, jsGet_jsSet_self _ _ _, rfl, rfl⟩
    simp only [updateEditField, harr]
  · intro arr harr
    refine ⟨{ e with editData :=
                { e.editData with
                  allocation := some (jsSet arr idx (some (clampInput value))) } },
      ?_, rfl, jsGet_jsSet_self _ _ _, rfl, rfl⟩
    simp only [updateEditField, harr]
  · intro hne
    obtain ⟨k, hk, he⟩ := clampInput_of_not_posInf value hne
    exact ⟨k, hk, by rw [he]⟩
  · intro hlen
    obtain ⟨k, hk, he⟩ := clampInput_finite value (clampInput_finite_of_length value hlen)
    exact ⟨k, hk, by rw [he]⟩
  · exact ⟨_, rfl, rfl, rfl, rfl⟩

theorem edit_writes_clamped_integer_witness :
    parseInt "8" ≠ some .posInf
      ∧ IsNonnegInteger (some (clampInput "8"))
      ∧ ∃ e' : EditState,
          (updateEditField (.allocation 0 "8") editingClient.manager).editing = some e'
            ∧ e'.editData.allocation = some [num 8, num 1, num 0]
            ∧ e'.editData.maxNeed = some [num 7, num 5, num 3] := by
  have h := edit_writes_clamped_integer initialState.clubs
    { editingClub := 0
      editData := { id := 0, name := some "Drama Club",
                    maxNeed := some [num 7, num 5, num 3],
                    allocation := some [num 0, num 1, num 0] }
      sharedMaxNeed := some 0, sharedAllocation := some 0 } 0 "8"
  obtain ⟨e', h1, h2, _, h4, _⟩ := h.2.1 [num 0, num 1, num 0] rfl
  exact ⟨by decide, h.2.2.1 (by decide), e', h1, h2, h4⟩

/-! ## The selected club -/

/-- C23 (the code diverges). `handleLoadScenario` replaces the club list and
keeps `selectedClub`, where `handleReset` sets it to 0.  Load the five-club
scenario, select its fifth club (id 4), load the three-club scenario: every
event is offered by the page, and the client ends with `selectedClub = 4`
and clubs of ids 0, 1, 2, so `handleRunBankers` would send `club_id = 4` with
an allocation matrix of three rows. -/
theorem selected_club_can_be_missing :
    ∃ c : Client, staleSelectionRun = some c ∧ UIReachable c
      ∧ c.app.selectedClub = 4 ∧ idsOf c.app.clubs = [0, 1, 2]
      ∧ (∀ club ∈ c.app.clubs, club.id ≠ c.app.selectedClub)
      ∧ (requestData c.app).request.club_id = 4
      ∧ (requestData c.app).allocation.length = 3
      ∧ (handleReset c.app).selectedClub = 0 := by
  have e1 : enabled initialClient (.loadScenario fiveClubScenario) = true := rfl
  cases h1 : step initialClient (.loadScenario fiveClubScenario) with
  | none => exact absurd h1 (by decide)
  | some c1 =>
    have r1 : UIReachable c1 := UIReachable.step _ UIReachable.init e1 h1
    have hc1 : c1 = (step initialClient (.loadScenario fiveClubScenario)).getD initialClient := by
      rw [h1]
      rfl
    have e2 : enabled c1 (.selectClub 4) = true := by
      rw [hc1]
      decide
    cases h2 : step c1 (.selectClub 4) with
    | none => simp [step] at h2
    | some c2 =>
      have r2 : UIReachable c2 := UIReachable.step _ r1 e2 h2
      have hc2 : c2 = (step c1 (.selectClub 4)).getD initialClient := by
        rw [h2]
        rfl
      have e3 : enabled c2 (.loadScenario sampleScenario) = true := rfl
      cases h3 : step c2 (.loadScenario sampleScenario) with
      | none =>
        rw [hc2, hc1] at h3
        exact absurd h3 (by decide)
      | some c3 =>
        have r3 : UIReachable c3 := UIReachable.step _ r2 e3 h3
        have hrun : staleSelectionRun = some c3 := by
          simp only [staleSelectionRun, h1, Option.some_bind, h2, h3]
        have hc3 : c3 = staleSelectionRun.getD initialClient := by
          rw [hrun]
          rfl
        refine ⟨c3, hrun, r3, ?_, ?_, ?_, ?_, ?_, rfl⟩
        · rw [hc3]
          decide
        · rw [hc3]
          decide
        · rw [hc3]
          decide
        · rw [hc3]
          decide
        · rw [hc3]
          decide

/-! ## Cancelling an edit -/

/-- C24 (the code diverges). `startEdit` copies the club with `{ ...club }`,
which shares the arrays `maxNeed` and `allocation` with the club of the
parent's list, and `updateEditField` writes `newData[field][index]` into
them.  After Edit on the first default club, `8` typed into its first
allocation input, and Cancel, the parent's list has allocation `[8, 1, 0]`
for that club although `onUpdateClubs` was never called; a session that
only changes the name, which is written to the copy, leaves the list as it
was. -/
theorem cancel_keeps_indexed_writes :
    ClubManager.run { clubs := defaultClubs, editing := none }
        (cancelledSession 0 [.allocation 0 "8"])
      = ({ clubs := editedClubs, editing := none }, [])
      ∧ (editedClubs[0]?).map (fun club => club.allocation)
          = some (some [num 8, num 1, num 0])
      ∧ (defaultClubs[0]?).map (fun club => club.allocation)
          = some (some [num 0, num 1, num 0])
      ∧ editedClubs ≠ defaultClubs
      ∧ ClubManager.run { clubs := defaultClubs, editing := none }
          (cancelledSession 0 [.name "Theatre Club"])
        = ({ clubs := defaultClubs, editing := none }, []) := by
  decide

/-! ## Saving an edit -/

theorem applyInput_id (editData : Club) (input : EditInput) :
    (applyInput editData input).id = editData.id := by
  cases input with
  | name value => rfl
  | maxNeed idx value =>
    unfold applyInput
    cases editData.maxNeed <;> rfl
  | allocation idx value =>
    unfold applyInput
    cases editData.allocation <;> rfl

theorem editedData_id (club : Club) (inputs : List EditInput) :
    (editedData club inputs).id = club.id := by
  unfold editedData
  induction inputs generalizing club with
  | nil => rfl
  | cons input rest ih =>
    simp only [List.foldl_cons]
    rw [ih, applyInput_id]

theorem editingAt_startEdit (clubs : List Club) (pos : Nat) (club : Club)
    (hclub : clubs[pos]? = some club) :
    EditingAt clubs pos club.id club (startEdit pos { clubs := clubs, editing := none }) := by
  simp only [startEdit, hclub]
  exact ⟨⟨_, rfl, rfl, rfl, rfl, rfl⟩, rfl, fun _ _ => rfl, ⟨club, hclub, rfl⟩⟩

theorem editingAt_updateEditField (clubs : List Club) (pos k : Nat) (data : Club)
    (mgr : ClubManager) (input : EditInput) (h : EditingAt clubs pos k data mgr) :
    EditingAt clubs pos k (applyInput data input) (updateEditField input mgr) := by
  obtain ⟨⟨e, he, hk, hdata, hsm, hsa⟩, hlen, hoth, ⟨c, hc, hcid⟩⟩ := h
  subst hdata
  cases input with
  | name value =>
    simp only [updateEditField, he, applyInput]
    exact ⟨⟨_, rfl, hk, rfl, hsm, hsa⟩, hlen, hoth, ⟨c, hc, hcid⟩⟩
  | maxNeed idx value =>
    cases harr : e.editData.maxNeed with
    | none =>
      simp only [updateEditField, he, harr, applyInput]
      exact ⟨⟨e, he, hk, rfl, hsm, hsa⟩, hlen, hoth, ⟨c, hc, hcid⟩⟩
    | some arr =>
      simp only [updateEditField, he, harr, hsm, applyInput]
      obtain ⟨f1, f2, f3⟩ :=
        writeMaxNeed_frame mgr.clubs pos (jsSet arr idx (some (clampInput value)))
      obtain ⟨c', hc', hcid'⟩ := f3 c hc
      exact ⟨⟨_, rfl, hk, rfl, rfl, hsa⟩, f1.trans hlen,
        fun i hi => (f2 i hi).trans (hoth i hi), ⟨c', hc', hcid'.trans hcid⟩⟩
  | allocation idx value =>
    cases harr : e.editData.allocation with
    | none =>
      simp only [updateEditField, he, harr, applyInput]
      exact ⟨⟨e, he, hk, rfl, hsm, hsa⟩, hlen, hoth, ⟨c, hc, hcid⟩⟩
    | some arr =>
      simp only [updateEditField, he, harr, hsa, applyInput]
      obtain ⟨f1, f2, f3⟩ :=
        writeAllocation_frame mgr.clubs pos (jsSet arr idx (some (clampInput value)))
      obtain ⟨c', hc', hcid'⟩ := f3 c hc
      exact ⟨⟨_, rfl, hk, rfl, hsm, rfl⟩, f1.trans hlen,
        fun i hi => (f2 i hi).trans (hoth i hi), ⟨c', hc', hcid'.trans hcid⟩⟩

theorem editingAt_foldl (clubs : List Club) (pos k : Nat) (inputs : List EditInput)
    (data : Club) (mgr : ClubManager) (h : EditingAt clubs pos k data mgr) :
    EditingAt clubs pos k (inputs.foldl applyInput data)
      (inputs.foldl (fun mg input => updateEditField input mg) mgr) := by
  induction inputs generalizing data mgr with
  | nil => exact h
  | cons input rest ih =>
    simp only [List.foldl_cons]
    exact ih _ _ (editingAt_updateEditField clubs pos k data mgr input h)

theorem editSession_eq_set (clubs : List Club) (pos : Nat) (club : Club)
    (inputs : List EditInput) (hnodup : (idsOf clubs).Nodup) (hpos : clubs[pos]? = some club) :
    editSession clubs pos inputs = clubs.set pos (editedData club inputs) := by
  have hs := editingAt_foldl clubs pos club.id inputs club _
    (editingAt_startEdit clubs pos club hpos)
  obtain ⟨⟨e, he, hk, hdata, -, -⟩, hlen, hoth, ⟨c0, hc0, hc0id⟩⟩ := hs
  have hlt : pos < clubs.length := (List.getElem?_eq_some_iff.mp hpos).1
  have hidpos : (idsOf clubs)[pos]? = some club.id := by
    simp [idsOf, List.getElem?_map, hpos]
  apply List.ext_getElem?
  intro i
  simp only [editSession, saveEditClubs, he, List.getElem?_map, List.getElem?_set]
  by_cases hi : pos = i
  · subst hi
    simp only [hc0, Option.map_some', hc0id, hk, if_true, hlt, hdata, editedData]
  · have hi' : i ≠ pos := fun e => hi e.symm
    rw [hoth i hi', if_neg hi]
    cases hget : clubs[i]? with
    | none => rfl
    | some d =>
      have hne : d.id ≠ e.editingClub := by
        intro hd
        have hidi : (idsOf clubs)[i]? = some club.id := by
          simp [idsOf, List.getElem?_map, hget, hd, hk]
        have hlti : pos < (idsOf clubs).length := by simpa [idsOf] using hlt
        exact hi (List.getElem?_inj hlti hnodup (hidpos.trans hidi.symm))
      simp only [Option.map_some', hne, if_false]

/-- C25. For a club list with pairwise distinct ids and an edit session on
the club at position `pos` (id `k`), the list `saveEdit` passes to
`onUpdateClubs` is the old list with the entry at `pos` replaced by the
edited data: same length and order, the entry of id `k` is the edited data
(which still has id `k`), and every club with id `≠ k` is unchanged. -/
theorem save_touches_only_edited_club (clubs : List Club) (pos : Nat) (club : Club)
    (inputs : List EditInput) (hnodup : (idsOf clubs).Nodup) (hpos : clubs[pos]? = some club) :
    editSession clubs pos inputs = clubs.set pos (editedData club inputs)
      ∧ (editSession clubs pos inputs).length = clubs.length
      ∧ idsOf (editSession clubs pos inputs) = idsOf clubs
      ∧ (editSession clubs pos inputs)[pos]? = some (editedData club inputs)
      ∧ (editedData club inputs).id = club.id
      ∧ ∀ (i : Nat) (other : Club), clubs[i]? = some other → other.id ≠ club.id →
          (editSession clubs pos inputs)[i]? = some other := by
  have heq := editSession_eq_set clubs pos club inputs hnodup hpos
  have hlt : pos < clubs.length := (List.getElem?_eq_some_iff.mp hpos).1
  refine ⟨heq, ?_, ?_, ?_, editedData_id club inputs, ?_⟩
  · rw [heq, List.length_set]
  · rw [heq]
    exact idsOf_set clubs pos club _ hpos (editedData_id club inputs)
  · rw [heq]
    simp [hlt]
  · intro i other hi hne
    have hip : pos ≠ i := by
      intro e
      subst e
      rw [hpos] at hi
      simp only [Option.some.injEq] at hi
      exact hne (by rw [hi])
    rw [heq, List.getElem?_set_ne hip, hi]

theorem save_touches_only_edited_club_witness :
    (idsOf defaultClubs).Nodup
      ∧ editSession defaultClubs 0 [.allocation 0 "8", .name "Theatre Club"]
          = defaultClubs.set 0
              { id := 0, name := some "Theatre Club", maxNeed := some [num 7, num 5, num 3],
                allocation := some [num 8, num 1, num 0] } := by
  have hn : (idsOf defaultClubs).Nodup := by decide
  have h := (save_touches_only_edited_club defaultClubs 0
    { id := 0, name := some "Drama Club", maxNeed := some [num 7, num 5, num 3],
      allocation := some [num 0, num 1, num 0] }
    [.allocation 0 "8", .name "Theatre Club"] hn rfl).1
  refine ⟨hn, ?_⟩
  rw [h]
  decide

end DeadlockAvoidance
